import Mathlib

/-!
# Packet-analyzer: protocol detector, frame decoders, circuit breaker, dead-letter queue, thread pool

A shallow embedding of `src/src/protocols/ModernProtocolParser.hpp`
(`PacketAnalyzer2026::Protocols::ModernProtocolParser`), of
`src/src/resilience/CircuitBreaker.hpp` (`PacketAnalyzer2026::Resilience::CircuitBreaker`),
of `src/src/resilience/DeadLetterQueue.hpp`
(`PacketAnalyzer2026::Resilience::DeadLetterQueue`) and of
`src/src/performance/ThreadPool.hpp` (`PacketAnalyzer2026::Performance::ThreadPool`), and
theorems about them. All definitions come first, then all theorems.

Conventions of the embedding of the parser:

* a C++ buffer `(const uint8_t* data, size_t size)` is the list of the `size`
  bytes found at `data`; `size` is the length of that list. A list always
  denotes a non-null pointer, so the test `!data` of the source is false;
* a `uint8_t` is a `Fin 256`; `data[i]` promoted to `int` is `byteAt data i`;
* a value stored in a `uint32_t` is reduced modulo `2 ^ 32`;
* `std::string` results are Lean strings;
* output to `std::cout` is not part of the returned value and is left out.
-/

namespace PacketAnalyzer2026.Protocols

/-! ## Data model -/

/-- One octet of a captured buffer (`uint8_t`). -/
abbrev Byte := Fin 256

/-- The expression `data[i]` after integer promotion. Every use in the source is
guarded by a size check, so the default `0` is never observed there. -/
def byteAt (data : List Byte) (i : Nat) : Nat := (data.getD i 0).val

/-- The bytes of a C string literal made of ASCII characters (without the final NUL). -/
def asciiBytes (s : String) : List Byte := s.toList.map (fun c => Fin.ofNat c.toNat)

/-- Conversion of an integer expression to `uint32_t`. -/
def toUInt32 (n : Nat) : Nat := n % 4294967296

/-- The record `struct HTTP2Frame`. -/
structure HTTP2Frame where
  length : Nat
  type : Nat
  flags : Nat
  streamId : Nat
  payload : List Byte
deriving DecidableEq

/-! ## Library routines used by the source -/

/-- The test `std::memcmp(a, b, n) == 0` for buffers that both hold at least `n` bytes. -/
def memcmpEq (a b : List Byte) (n : Nat) : Bool := a.take n == b.take n

/-- The search loop of `std::string::find`: the first position, counted from `pos`,
at which `needle` starts in `hay`; `none` stands for `npos`. -/
def findFrom (needle : List Byte) : List Byte → Nat → Option Nat
  | [], pos => if needle.isPrefixOf [] then some pos else none
  | b :: rest, pos =>
    if needle.isPrefixOf (b :: rest) then some pos else findFrom needle rest (pos + 1)

/-- The call `hay.find(needle)` of `std::string`. -/
def find (hay needle : List Byte) : Option Nat := findFrom needle hay 0

/-! ## `ModernProtocolParser` -/

/-- The literal `http2_preface` of `detectModernProtocol`. -/
def http2_preface : List Byte := asciiBytes "PRI * HTTP/2.0"

/-- The literal searched by the gRPC rule of `detectModernProtocol`. -/
def grpcContentType : List Byte := asciiBytes "application/grpc"

/-- The private helper `isHTTP2Frame(data, size)`. -/
def isHTTP2Frame (data : List Byte) : Bool :=
  if data.length < 9 then false
  else
    let length := toUInt32 ((byteAt data 0 <<< 16) ||| (byteAt data 1 <<< 8) ||| byteAt data 2)
    let type := byteAt data 3
    decide (length ≤ 16384) && decide (type ≤ 10)

/-- The private helper `isQUICPacket(data, size)`. -/
def isQUICPacket (data : List Byte) : Bool :=
  if data.length < 1 then false
  else
    let firstByte := byteAt data 0
    if firstByte &&& 0x80 ≠ 0 then
      if data.length ≥ 5 then
        let version := toUInt32 ((byteAt data 1 <<< 24) ||| (byteAt data 2 <<< 16)
          ||| (byteAt data 3 <<< 8) ||| byteAt data 4)
        decide (version ≠ 0)
      else false
    else decide (firstByte &&& 0x40 ≠ 0)

/-- The private helper `isWebSocketFrame(data, size)`. -/
def isWebSocketFrame (data : List Byte) : Bool :=
  if data.length < 2 then false
  else
    let firstByte := byteAt data 0
    let opcode := firstByte &&& 0x0F
    decide (opcode ≤ 2) || (decide (opcode ≥ 8) && decide (opcode ≤ 10))

/-- The function `detectModernProtocol(data, size, port)`. The nested `if` blocks of the
source, each ending in `return`, are written as one chain of conditions in source order. -/
def detectModernProtocol (data : List Byte) (port : Nat) : String :=
  if data.length < 4 then "Unknown"
  else if (port = 80 ∨ port = 443) ∧ data.length ≥ 24
      ∧ memcmpEq data http2_preface 14 = true then "HTTP/2"
  else if (port = 80 ∨ port = 443) ∧ data.length ≥ 24 ∧ isHTTP2Frame data = true then "HTTP/2"
  else if (port = 443 ∨ port = 80) ∧ isQUICPacket data = true then "QUIC"
  else if (port = 80 ∨ port = 443) ∧ isWebSocketFrame data = true then "WebSocket"
  else if (port = 80 ∨ port = 443) ∧ data.length > 20
      ∧ find (data.take (min data.length 100)) grpcContentType ≠ none then "gRPC"
  else "Standard"

/-- The function `parseHTTP2Frame(data, size)`. -/
def parseHTTP2Frame (data : List Byte) : HTTP2Frame :=
  if data.length < 9 then HTTP2Frame.mk 0 0 0 0 []
  else
    let length := toUInt32 ((byteAt data 0 <<< 16) ||| (byteAt data 1 <<< 8) ||| byteAt data 2)
    let type := byteAt data 3
    let flags := byteAt data 4
    let streamId := toUInt32 (((byteAt data 5 &&& 0x7F) <<< 24) ||| (byteAt data 6 <<< 16)
      ||| (byteAt data 7 <<< 8) ||| byteAt data 8)
    let payload :=
      if data.length > 9 ∧ length > 0 then
        let payloadSize := min length (data.length - 9)
        (data.drop 9).take payloadSize
      else []
    HTTP2Frame.mk length type flags streamId payload

/-! ## Concrete buffers used as test inputs -/

/-- The 9-byte header of an empty SETTINGS frame: length 0, type 4, flags 0, stream 0. -/
def settingsHeader : List Byte := [0, 0, 0, 4, 0, 0, 0, 0, 0]

/-- A 4-byte buffer whose first byte `0x41` has the top bit clear, bit `0x40` set and low
nibble 1. -/
def shortHeaderText : List Byte := [0x41, 0, 0, 0]

/-- The unmasked WebSocket text frame `81 05 "Hello"`. -/
def helloTextFrame : List Byte := [0x81, 0x05] ++ asciiBytes "Hello"

/-- A 4-byte buffer whose first byte `0x01` is a bare text opcode. -/
def plainTextOpcode : List Byte := [0x01, 0, 0, 0]

/-- A QUIC long header with version 1: first byte `0x80`, version bytes `00 00 00 01`. -/
def quicLongHeader : List Byte := [0x80, 0, 0, 0, 1]

/-- The full 24-byte HTTP/2 connection preface. -/
def fullPreface : List Byte := asciiBytes "PRI * HTTP/2.0\r\n\r\nSM\r\n\r\n"

/-- A 24-byte buffer: first byte `0x41`, then the gRPC content type, then padding. -/
def shortHeaderGrpc : List Byte := [0x41] ++ asciiBytes "application/grpc" ++ List.replicate 7 0

/-- A 37-byte buffer that matches none of the HTTP/2, QUIC and WebSocket rules and holds
`application/grpc` at bytes 21-36. -/
def grpcInside : List Byte := [0x03] ++ List.replicate 20 0 ++ asciiBytes "application/grpc"

/-- A 110-byte buffer that matches none of the HTTP/2, QUIC and WebSocket rules and holds
`application/grpc` at bytes 90-105, across the 100-byte limit. -/
def grpcStraddling : List Byte :=
  [0x03] ++ List.replicate 89 0 ++ asciiBytes "application/grpc" ++ List.replicate 4 0

/-- A 16-byte buffer: a header declaring length 5, type 0, flags 1, stream `0x80000001`
before masking, followed by the 7 bytes `Hello!!`. -/
def dataFrame : List Byte := [0, 0, 5, 0, 1, 0x80, 0, 0, 1] ++ asciiBytes "Hello!!"

/-- A bare 9-byte header that declares a payload of 5 bytes. -/
def truncatedFrame : List Byte := [0, 0, 5, 0, 1, 0, 0, 0, 1]

/-! ## WebSocket and QUIC decoders -/

/-- Conversion of an integer expression to `uint64_t`; `size_t` is taken to be as wide. -/
def toUInt64 (n : Nat) : Nat := n % 18446744073709551616

/-- The record `struct QUICPacket`. -/
structure QUICPacket where
  version : Nat
  isLongHeader : Bool
  packetType : Nat
  payload : List Byte
deriving DecidableEq

/-- The record `struct WebSocketFrame`. -/
structure WebSocketFrame where
  fin : Bool
  opcode : Nat
  masked : Bool
  payloadLength : Nat
  payload : List Byte
deriving DecidableEq

/-- The function `parseQUIC(data, size)`. The pair `fields` holds `version` and
`packetType`, which the source assigns together in one branch. -/
def parseQUIC (data : List Byte) : QUICPacket :=
  if data.length < 1 then QUICPacket.mk 0 false 0 []
  else
    let firstByte := byteAt data 0
    let isLongHeader := decide (firstByte &&& 0x80 ≠ 0)
    let fields : Nat × Nat :=
      if isLongHeader = true ∧ data.length ≥ 5 then
        (toUInt32 ((byteAt data 1 <<< 24) ||| (byteAt data 2 <<< 16)
            ||| (byteAt data 3 <<< 8) ||| byteAt data 4),
          (firstByte &&& 0x30) >>> 4)
      else (0, 0)
    let payload :=
      if data.length > (if isLongHeader = true then 5 else 1) then
        let payloadStart := if isLongHeader = true then 5 else 1
        (data.drop payloadStart).take (data.length - payloadStart)
      else []
    QUICPacket.mk fields.1 isLongHeader fields.2 payload

/-- The function `parseWebSocket(data, size)`. The pair `lengthField` holds
`frame.payloadLength` and `headerSize` as they stand after the three-way branch on the
length encoding; the `for` loop over `i = 0..7` is a fold over `List.range 8`. -/
def parseWebSocket (data : List Byte) : WebSocketFrame :=
  if data.length < 2 then WebSocketFrame.mk false 0 false 0 []
  else
    let firstByte := byteAt data 0
    let secondByte := byteAt data 1
    let fin := decide (firstByte &&& 0x80 ≠ 0)
    let opcode := firstByte &&& 0x0F
    let masked := decide (secondByte &&& 0x80 ≠ 0)
    let payloadLen := secondByte &&& 0x7F
    let lengthField : Nat × Nat :=
      if payloadLen = 126 ∧ data.length ≥ 4 then
        (toUInt64 ((byteAt data 2 <<< 8) ||| byteAt data 3), 4)
      else if payloadLen = 127 ∧ data.length ≥ 10 then
        ((List.range 8).foldl
          (fun acc i => toUInt64 ((acc <<< 8) ||| byteAt data (2 + i))) 0, 10)
      else (payloadLen, 2)
    let payloadLength := lengthField.1
    let headerSize := if masked = true then lengthField.2 + 4 else lengthField.2
    let payload :=
      if data.length > headerSize ∧ payloadLength > 0 then
        let payloadSize := min payloadLength (data.length - headerSize)
        (data.drop headerSize).take payloadSize
      else []
    WebSocketFrame.mk fin opcode masked payloadLength payload

/-- The value of the local variable `headerSize` of `parseWebSocket` when the payload is
copied: 4 or 10 when an extended length was read, 2 otherwise, plus 4 when the masked bit
of byte 1 is set. -/
def webSocketHeaderSize (data : List Byte) : Nat :=
  (if byteAt data 1 % 128 = 126 ∧ 4 ≤ data.length then 4
    else if byteAt data 1 % 128 = 127 ∧ 10 ≤ data.length then 10 else 2)
  + (if 128 ≤ byteAt data 1 then 4 else 0)

/-- The big-endian value of the `n` bytes `data[first .. first + n)`. -/
def bigEndian (data : List Byte) (first : Nat) : Nat → Nat
  | 0 => 0
  | n + 1 => bigEndian data first n * 256 + byteAt data (first + n)

/-- An unmasked text frame that uses the 16-bit extended length: `81 7E 00 05 "Hello"`. -/
def helloExtendedFrame : List Byte := [0x81, 0x7E, 0x00, 0x05] ++ asciiBytes "Hello"

/-- A masked text frame: `81 85`, the masking key `01 02 03 04`, then 5 payload bytes. -/
def helloMaskedFrame : List Byte := [0x81, 0x85, 1, 2, 3, 4] ++ asciiBytes "Hello"

/-- A frame with a 64-bit extended length of 3: `82 7F 00 00 00 00 00 00 00 03 0A 0B 0C`. -/
def longLengthFrame : List Byte := [0x82, 0x7F, 0, 0, 0, 0, 0, 0, 0, 3, 10, 11, 12]

/-! ### WebSocket framing, for the round-trip property

The source holds no encoder. The two definitions below write down the canonical framing
of an unmasked frame, so that decoding can be compared with it. -/

/-- The byte holding the low 8 binary digits of `n`. -/
def lowByte (n : Nat) : Byte := Fin.ofNat n

/-- The canonical length field of an unmasked frame with `n` payload bytes: `n` itself up
to 125; `126` and 2 big-endian bytes up to 65535; `127` and 8 big-endian bytes above. -/
def canonicalLengthField (n : Nat) : List Byte :=
  if n ≤ 125 then [lowByte n]
  else if n ≤ 65535 then [126, lowByte (n / 2 ^ 8), lowByte n]
  else [127, lowByte (n / 2 ^ 56), lowByte (n / 2 ^ 48), lowByte (n / 2 ^ 40),
    lowByte (n / 2 ^ 32), lowByte (n / 2 ^ 24), lowByte (n / 2 ^ 16), lowByte (n / 2 ^ 8),
    lowByte n]

/-- The unmasked frame with the given fin flag, opcode and payload: byte 0 is
`(fin ? 0x80 : 0) | opcode`, then the canonical length field, then the payload. -/
def unmaskedFrame (fin : Bool) (opcode : Nat) (p : List Byte) : List Byte :=
  lowByte ((if fin = true then 0x80 else 0) ||| opcode) :: (canonicalLengthField p.length ++ p)

/-- A QUIC long header with type bits `11`, version `0x00000001` and 3 payload bytes. -/
def quicLongPacket : List Byte := [0xF0, 0, 0, 0, 1, 7, 8, 9]

/-- A QUIC short-header packet: first byte `0x40`, then 2 payload bytes. -/
def quicShortPacket : List Byte := [0x40, 7, 8]

/-! ## The same functions with every read bounds-checked

Each function below repeats its source function statement by statement, with every read
of the buffer made through `byteAt?` or `slice?`, which fail outside `[0, size)`. -/

/-- The read `data[i]` with its bounds condition: `none` unless `i < size`. -/
def byteAt? (data : List Byte) (i : Nat) : Option Nat :=
  if i < data.length then some (byteAt data i) else none

/-- The read of the range `data[first .. last)` made by `memcmp`, by the `std::string`
constructor and by `vector::assign`: `none` unless `first ≤ last ≤ size`. -/
def slice? (data : List Byte) (first last : Nat) : Option (List Byte) :=
  if first ≤ last ∧ last ≤ data.length then some ((data.drop first).take (last - first))
  else none

/-- The helper `isHTTP2Frame` with checked reads. -/
def isHTTP2FrameChecked (data : List Byte) : Option Bool := do
  if data.length < 9 then return false
  let b0 ← byteAt? data 0
  let b1 ← byteAt? data 1
  let b2 ← byteAt? data 2
  let length := toUInt32 ((b0 <<< 16) ||| (b1 <<< 8) ||| b2)
  let type ← byteAt? data 3
  return decide (length ≤ 16384) && decide (type ≤ 10)

/-- The helper `isQUICPacket` with checked reads. -/
def isQUICPacketChecked (data : List Byte) : Option Bool := do
  if data.length < 1 then return false
  let firstByte ← byteAt? data 0
  if firstByte &&& 0x80 ≠ 0 then
    if data.length ≥ 5 then
      let b1 ← byteAt? data 1
      let b2 ← byteAt? data 2
      let b3 ← byteAt? data 3
      let b4 ← byteAt? data 4
      let version := toUInt32 ((b1 <<< 24) ||| (b2 <<< 16) ||| (b3 <<< 8) ||| b4)
      return decide (version ≠ 0)
    else return false
  else return decide (firstByte &&& 0x40 ≠ 0)

/-- The helper `isWebSocketFrame` with checked reads. -/
def isWebSocketFrameChecked (data : List Byte) : Option Bool := do
  if data.length < 2 then return false
  let firstByte ← byteAt? data 0
  let opcode := firstByte &&& 0x0F
  return decide (opcode ≤ 2) || (decide (opcode ≥ 8) && decide (opcode ≤ 10))

/-- The function `detectModernProtocol` with checked reads. Each of the four guarded
blocks of the source is evaluated to the flag "this block returns", reading the buffer
only when its guard holds, as the short-circuit evaluation of the source does. -/
def detectModernProtocolChecked (data : List Byte) (port : Nat) : Option String := do
  if data.length < 4 then return "Unknown"
  let http2 ←
    if (port = 80 ∨ port = 443) ∧ data.length ≥ 24 then do
      let head ← slice? data 0 14
      if head = http2_preface.take 14 then pure true else isHTTP2FrameChecked data
    else pure false
  if http2 = true then return "HTTP/2"
  let quic ← if port = 443 ∨ port = 80 then isQUICPacketChecked data else pure false
  if quic = true then return "QUIC"
  let webSocket ← if port = 80 ∨ port = 443 then isWebSocketFrameChecked data else pure false
  if webSocket = true then return "WebSocket"
  let grpc ←
    if (port = 80 ∨ port = 443) ∧ data.length > 20 then do
      let dataStr ← slice? data 0 (min data.length 100)
      pure (decide (find dataStr grpcContentType ≠ none))
    else pure false
  if grpc = true then return "gRPC"
  return "Standard"

/-- The function `parseHTTP2Frame` with checked reads. -/
def parseHTTP2FrameChecked (data : List Byte) : Option HTTP2Frame := do
  if data.length < 9 then return HTTP2Frame.mk 0 0 0 0 []
  let b0 ← byteAt? data 0
  let b1 ← byteAt? data 1
  let b2 ← byteAt? data 2
  let length := toUInt32 ((b0 <<< 16) ||| (b1 <<< 8) ||| b2)
  let type ← byteAt? data 3
  let flags ← byteAt? data 4
  let b5 ← byteAt? data 5
  let b6 ← byteAt? data 6
  let b7 ← byteAt? data 7
  let b8 ← byteAt? data 8
  let streamId := toUInt32 (((b5 &&& 0x7F) <<< 24) ||| (b6 <<< 16) ||| (b7 <<< 8) ||| b8)
  let payload ←
    if data.length > 9 ∧ length > 0 then
      slice? data 9 (9 + min length (data.length - 9))
    else pure []
  return HTTP2Frame.mk length type flags streamId payload

/-- The function `parseQUIC` with checked reads. -/
def parseQUICChecked (data : List Byte) : Option QUICPacket := do
  if data.length < 1 then return QUICPacket.mk 0 false 0 []
  let firstByte ← byteAt? data 0
  let isLongHeader := decide (firstByte &&& 0x80 ≠ 0)
  let fields : Nat × Nat ←
    if isLongHeader = true ∧ data.length ≥ 5 then do
      let b1 ← byteAt? data 1
      let b2 ← byteAt? data 2
      let b3 ← byteAt? data 3
      let b4 ← byteAt? data 4
      pure (toUInt32 ((b1 <<< 24) ||| (b2 <<< 16) ||| (b3 <<< 8) ||| b4),
        (firstByte &&& 0x30) >>> 4)
    else pure (0, 0)
  let payload ←
    if data.length > (if isLongHeader = true then 5 else 1) then
      slice? data (if isLongHeader = true then 5 else 1) data.length
    else pure []
  return QUICPacket.mk fields.1 isLongHeader fields.2 payload

/-- The function `parseWebSocket` with checked reads. -/
def parseWebSocketChecked (data : List Byte) : Option WebSocketFrame := do
  if data.length < 2 then return WebSocketFrame.mk false 0 false 0 []
  let firstByte ← byteAt? data 0
  let secondByte ← byteAt? data 1
  let fin := decide (firstByte &&& 0x80 ≠ 0)
  let opcode := firstByte &&& 0x0F
  let masked := decide (secondByte &&& 0x80 ≠ 0)
  let payloadLen := secondByte &&& 0x7F
  let lengthField : Nat × Nat ←
    if payloadLen = 126 ∧ data.length ≥ 4 then do
      let b2 ← byteAt? data 2
      let b3 ← byteAt? data 3
      pure (toUInt64 ((b2 <<< 8) ||| b3), 4)
    else if payloadLen = 127 ∧ data.length ≥ 10 then do
      let value ← (List.range 8).foldlM
        (fun acc i => do
          let b ← byteAt? data (2 + i)
          pure (toUInt64 ((acc <<< 8) ||| b))) 0
      pure (value, 10)
    else pure (payloadLen, 2)
  let payloadLength := lengthField.1
  let headerSize := if masked = true then lengthField.2 + 4 else lengthField.2
  let payload ←
    if data.length > headerSize ∧ payloadLength > 0 then
      slice? data headerSize (headerSize + min payloadLength (data.length - headerSize))
    else pure []
  return WebSocketFrame.mk fin opcode masked payloadLength payload

/-! ## Buffers shorter than the header they announce -/

/-- A 3-byte buffer whose length byte announces a 16-bit extended length that is cut
short: `81 7E 2A`. -/
def truncatedExtended16 : List Byte := [0x81, 0x7E, 0x2A]

/-- A 9-byte masked buffer whose length byte announces a 64-bit extended length that is
cut short: `82 FF 01 02 03 04 05 06 07`. -/
def truncatedExtended64 : List Byte := [0x82, 0xFF, 1, 2, 3, 4, 5, 6, 7]

/-- A 4-byte buffer with the top bit of byte 0 set: `C0 00 00 01`. -/
def quicShortLongHeader : List Byte := [0xC0, 0, 0, 1]

end PacketAnalyzer2026.Protocols

namespace PacketAnalyzer2026.Resilience

/-! ## `CircuitBreaker`

Conventions of this part of the embedding:

* `execute` holds `mutex_` from its first statement to its last, so calls on one breaker
  are serialised and one call is one atomic step on the breaker's fields;
* time points and durations are integers counting ticks of the steady clock, and
  `resetTimeout_` is held in the same unit (the comparison of the source converts both
  sides to a common unit exactly);
* the two readings of the clock in `execute` are parameters of the model: `now` for the
  reading of the `OPEN` test and `failNow` for the reading of the `catch` block;
* the `int` counter wraps modulo `2 ^ 32`, as `std::atomic<int>::operator++` does;
* the operation acts on a state `σ` of the world outside the breaker: it is a function
  from that state to its result and the new state, so that "the operation is not invoked"
  reads "the world is unchanged, whatever the operation is". -/

/-- The enumeration `CircuitBreaker::State`. -/
inductive State where
  | CLOSED
  | OPEN
  | HALF_OPEN
deriving DecidableEq

/-- Conversion of an integer to `int` (32-bit two's complement). -/
def toInt32 (n : Int) : Int := (n + 2147483648) % 4294967296 - 2147483648

/-- The data members of `class CircuitBreaker` (without the mutex). -/
structure CircuitBreaker where
  name_ : String
  currentState_ : State
  failureCount_ : Int
  failureThreshold_ : Int
  lastFailureTime_ : Int
  resetTimeout_ : Int
deriving DecidableEq

/-- An object thrown by an operation: derived from `std::exception`, and so caught by the
`catch` clause of `execute`, or of any other type. -/
inductive Thrown where
  | stdException (what : String)
  | other (tag : Nat)
deriving DecidableEq

/-- What one `execute` call leaves behind: the breaker, what the caller receives
(`ok (some r)` for a value, `ok none` for `std::nullopt`, `error e` for an exception that
leaves `execute`) and the world. -/
structure ExecResult (σ ρ : Type) where
  breaker : CircuitBreaker
  outcome : Except Thrown (Option ρ)
  world : σ

/-- The constructor `CircuitBreaker(name, failureThreshold, resetTimeout)`; the time point
`lastFailureTime_` is default-constructed, which is the clock's epoch. -/
def CircuitBreaker.create (name : String) (failureThreshold resetTimeout : Int) :
    CircuitBreaker :=
  CircuitBreaker.mk name State.CLOSED 0 failureThreshold 0 resetTimeout

/-- The first block of `execute` (the test of `State::OPEN`): `none` is the early
`return std::nullopt`, `some cb` the breaker with which the `try` block is entered. -/
def CircuitBreaker.openTest (cb : CircuitBreaker) (now : Int) : Option CircuitBreaker :=
  if cb.currentState_ = State.OPEN then
    if now - cb.lastFailureTime_ > cb.resetTimeout_ then
      some { cb with currentState_ := State.HALF_OPEN }
    else none
  else some cb

/-- The `try` / `catch` block of `execute`. -/
def CircuitBreaker.attempt {σ ρ : Type} (cb : CircuitBreaker)
    (operation : σ → Except Thrown ρ × σ) (failNow : Int) (s : σ) : ExecResult σ ρ :=
  match (operation s).1 with
  | Except.ok result =>
    let cb1 :=
      if cb.currentState_ = State.HALF_OPEN then
        { cb with currentState_ := State.CLOSED, failureCount_ := 0 }
      else cb
    ExecResult.mk cb1 (Except.ok (some result)) (operation s).2
  | Except.error (Thrown.stdException what) =>
    let cb1 := { cb with failureCount_ := toInt32 (cb.failureCount_ + 1),
                         lastFailureTime_ := failNow }
    let cb2 :=
      if cb1.failureCount_ ≥ cb1.failureThreshold_ then
        { cb1 with currentState_ := State.OPEN }
      else if cb1.currentState_ = State.HALF_OPEN then
        { cb1 with currentState_ := State.OPEN }
      else cb1
    ExecResult.mk cb2 (Except.error (Thrown.stdException what)) (operation s).2
  | Except.error e => ExecResult.mk cb (Except.error e) (operation s).2

/-- The member function `execute(operation)`. -/
def CircuitBreaker.execute {σ ρ : Type} (cb : CircuitBreaker)
    (operation : σ → Except Thrown ρ × σ) (now failNow : Int) (s : σ) : ExecResult σ ρ :=
  match cb.openTest now with
  | none => ExecResult.mk cb (Except.ok none) s
  | some cb1 => cb1.attempt operation failNow s

/-- One `execute` call of a sequence: its operation and its two clock readings. -/
structure Call (σ ρ : Type) where
  operation : σ → Except Thrown ρ × σ
  now : Int
  failNow : Int

/-- A sequence of `execute` calls on one breaker, each starting from the breaker and the
world left by the one before; the results are the final breaker and world. -/
def executeAll {σ ρ : Type} (cb : CircuitBreaker) (s : σ) :
    List (Call σ ρ) → CircuitBreaker × σ
  | [] => (cb, s)
  | c :: rest =>
    executeAll (cb.execute c.operation c.now c.failNow s).breaker
      (cb.execute c.operation c.now c.failNow s).world rest

/-- The world after each operation of a list has been invoked once, in order. -/
def invokeAll {σ ρ : Type} (s : σ) (calls : List (Call σ ρ)) : σ :=
  calls.foldl (fun w c => (c.operation w).2) s

/-! ### Concrete breakers and operations used as test inputs -/

/-- An operation that counts its invocations in the world and throws a `std::exception`. -/
def failingOperation (calls : Nat) : Except Thrown Unit × Nat :=
  (Except.error (Thrown.stdException "capture failed"), calls + 1)

/-- An operation that counts its invocations in the world and returns `7`. -/
def succeedingOperation (calls : Nat) : Except Thrown Nat × Nat :=
  (Except.ok 7, calls + 1)

/-- A breaker in state `OPEN` whose 5th failure was recorded at tick 100, with a reset
timeout of 30 ticks. -/
def openBreaker : CircuitBreaker := CircuitBreaker.mk "storage" State.OPEN 5 5 100 30

/-- Five calls of the failing operation, at ticks 10, 20, 30, 40 and 50, each failing one
tick after it started. -/
def fiveFailures : List (Call Nat Unit) :=
  [Call.mk failingOperation 10 11, Call.mk failingOperation 20 21,
    Call.mk failingOperation 30 31, Call.mk failingOperation 40 41,
    Call.mk failingOperation 50 51]

/-- An operation that counts its invocations in the world and throws an object that is
not derived from `std::exception`. -/
def otherThrowOperation (calls : Nat) : Except Thrown Nat × Nat :=
  (Except.error (Thrown.other 42), calls + 1)

/-- An operation that counts its invocations in the world and throws a `std::exception`,
with a result type of `Nat`. -/
def probeFailure (calls : Nat) : Except Thrown Nat × Nat :=
  (Except.error (Thrown.stdException "still down"), calls + 1)

/-- A breaker in state `CLOSED` with 2 failures recorded, threshold 5. -/
def closedBreaker : CircuitBreaker := CircuitBreaker.mk "parser" State.CLOSED 2 5 40 30

/-! ## `DeadLetterQueue`

Conventions of this part of the embedding:

* every member function holds `mutex_` for its whole body, so one call is one atomic step
  on the queue;
* the `std::deque` is the list of its records, front first; `size_t` values are natural
  numbers;
* `pop_front` is `List.tail`, which is exact on a non-empty deque. On an empty deque the
  source's `pop_front` is undefined; `storeFailure` reaches it only when `maxSize_` is 0.
  `storeFailure` is therefore exact for `maxSize_ ≥ 1`; for `maxSize_ = 0` its value stands
  for no behaviour of the source, and `storeFailureChecked` marks that case as undefined;
* the reading of the system clock in `storeFailure` is a parameter, and the `what()` text
  of the exception is passed as a string;
* the retry function acts on a state `σ` of the world outside the queue, like the
  operation of the circuit breaker, and its failures are `Thrown` objects: the `catch`
  clause of `retryFailures` takes `std::exception` only, another thrown object leaves
  `retryFailures` at once;
* the increment of the `int` retry counter goes through `toInt32`. The counter is a plain
  `int`, whose increment at `INT_MAX` is undefined in the source; the statements about an
  incremented counter are for counters below `INT_MAX` (a queue built by calls from the
  constructor holds the counts 0, 1 and 2 only). -/

/-- The record `struct FailedItem`. -/
structure FailedItem (T : Type) where
  item : T
  error : String
  failureTime : Int
  failedStage : String
  retryCount : Int
deriving DecidableEq

/-- The data members of `class DeadLetterQueue<T>` (without the mutex). -/
structure DeadLetterQueue (T : Type) where
  queue_ : List (FailedItem T)
  maxSize_ : Nat
deriving DecidableEq

/-- What one `retryFailures` call leaves behind: the queue, `ok ()` for a normal return or
`error e` for an exception that leaves the call, and the world. -/
structure RetryResult (T σ : Type) where
  queue : DeadLetterQueue T
  outcome : Except Thrown Unit
  world : σ

/-- The constructor `DeadLetterQueue(maxSize)`. -/
def DeadLetterQueue.create {T : Type} (maxSize : Nat) : DeadLetterQueue T :=
  DeadLetterQueue.mk [] maxSize

/-- The member function `storeFailure(item, e, stage)`, with `what` for `e.what()` and
`time` for the clock reading. Exact for `maxSize_ ≥ 1`, where `pop_front` is called on a
non-empty deque only; see `storeFailureChecked` for `maxSize_ = 0`. -/
def DeadLetterQueue.storeFailure {T : Type} (q : DeadLetterQueue T) (item : T)
    (what : String) (time : Int) (stage : String) : DeadLetterQueue T :=
  let queue1 := if q.queue_.length ≥ q.maxSize_ then q.queue_.tail else q.queue_
  { q with queue_ := queue1 ++ [FailedItem.mk item what time stage 0] }

/-- The `for` loop of `retryFailures` over the records of `tempQueue` still to visit;
`queue` is the member `queue_` as rebuilt so far. -/
def retryLoop {T σ : Type} (retryFunction : T → σ → Except Thrown Unit × σ) :
    List (FailedItem T) → List (FailedItem T) → σ →
      List (FailedItem T) × Except Thrown Unit × σ
  | [], queue, s => (queue, Except.ok (), s)
  | failed :: rest, queue, s =>
    match (retryFunction failed.item s).1 with
    | Except.ok _ => retryLoop retryFunction rest queue (retryFunction failed.item s).2
    | Except.error (Thrown.stdException _) =>
      let failed1 := { failed with retryCount := toInt32 (failed.retryCount + 1) }
      if failed1.retryCount < 3 then
        retryLoop retryFunction rest (queue ++ [failed1]) (retryFunction failed.item s).2
      else retryLoop retryFunction rest queue (retryFunction failed.item s).2
    | Except.error e => (queue, Except.error e, (retryFunction failed.item s).2)

/-- The member function `retryFailures(retryFunction)`: `tempQueue` takes the records and
`queue_` restarts empty. -/
def DeadLetterQueue.retryFailures {T σ : Type} (q : DeadLetterQueue T)
    (retryFunction : T → σ → Except Thrown Unit × σ) (s : σ) : RetryResult T σ :=
  RetryResult.mk { q with queue_ := (retryLoop retryFunction q.queue_ [] s).1 }
    (retryLoop retryFunction q.queue_ [] s).2.1
    (retryLoop retryFunction q.queue_ [] s).2.2

/-- The member function `size()`. -/
def DeadLetterQueue.size {T : Type} (q : DeadLetterQueue T) : Nat := q.queue_.length

/-- The member function `empty()`. -/
def DeadLetterQueue.empty {T : Type} (q : DeadLetterQueue T) : Bool := q.queue_.isEmpty

/-- The member function `clear()`. -/
def DeadLetterQueue.clear {T : Type} (q : DeadLetterQueue T) : DeadLetterQueue T :=
  { q with queue_ := [] }

/-- The arguments of one `storeFailure` call. -/
structure StoreCall (T : Type) where
  item : T
  what : String
  time : Int
  stage : String

/-- The record that `storeFailure` appends for the given arguments. -/
def StoreCall.record {T : Type} (c : StoreCall T) : FailedItem T :=
  FailedItem.mk c.item c.what c.time c.stage 0

/-- A sequence of `storeFailure` calls on one queue. -/
def DeadLetterQueue.storeAll {T : Type} (q : DeadLetterQueue T) :
    List (StoreCall T) → DeadLetterQueue T
  | [] => q
  | c :: rest => (q.storeFailure c.item c.what c.time c.stage).storeAll rest

/-- One call on a queue: `storeFailure`, `retryFailures` or `clear`. -/
inductive DlqCall (T σ : Type) where
  | store (item : T) (what : String) (time : Int) (stage : String)
  | retry (retryFunction : T → σ → Except Thrown Unit × σ)
  | clear

/-- The queue and the world after one call. -/
def DeadLetterQueue.step {T σ : Type} (q : DeadLetterQueue T) (s : σ) :
    DlqCall T σ → DeadLetterQueue T × σ
  | DlqCall.store item what time stage => (q.storeFailure item what time stage, s)
  | DlqCall.retry retryFunction =>
    ((q.retryFailures retryFunction s).queue, (q.retryFailures retryFunction s).world)
  | DlqCall.clear => (q.clear, s)

/-- The queue and the world after a sequence of calls. -/
def DeadLetterQueue.run {T σ : Type} (q : DeadLetterQueue T) (s : σ) :
    List (DlqCall T σ) → DeadLetterQueue T × σ
  | [] => (q, s)
  | c :: rest => DeadLetterQueue.run (q.step s c).1 (q.step s c).2 rest

/-! ### Concrete queues and retry functions used as test inputs -/

/-- Four `storeFailure` calls, with items 1, 2, 3 and 4. -/
def fourStores : List (StoreCall Nat) :=
  [StoreCall.mk 1 "bad length" 10 "parsing", StoreCall.mk 2 "bad type" 20 "parsing",
    StoreCall.mk 3 "disk full" 30 "storage", StoreCall.mk 4 "bad length" 40 "parsing"]

/-- A retry function that counts its invocations in the world and always throws a
`std::exception`. -/
def alwaysFails (_item : Nat) (calls : Nat) : Except Thrown Unit × Nat :=
  (Except.error (Thrown.stdException "still failing"), calls + 1)

/-- A queue of capacity 1000 holding one freshly stored item. -/
def oneFreshItem : DeadLetterQueue Nat :=
  (DeadLetterQueue.create 1000).storeFailure 7 "bad length" 10 "parsing"

/-! ### One retry pass, described record by record

The two definitions below describe a retry pass without the loop: the world in which each
record is reached, and what the pass keeps of a record reached in a given world. -/

/-- The worlds in which the retry function is invoked on the successive records: the
initial world, then the world left by each invocation. -/
def worldsBefore {T σ : Type} (retryFunction : T → σ → Except Thrown Unit × σ) (s : σ)
    (records : List (FailedItem T)) : List σ :=
  records.scanl (fun w r => (retryFunction r.item w).2) s

/-- What a retry pass keeps of a record reached in world `w`: the record with its retry
count increased by 1, when the retry function throws a `std::exception` on it and the
increased count is below 3; nothing otherwise. -/
def keptRecord {T σ : Type} (retryFunction : T → σ → Except Thrown Unit × σ)
    (r : FailedItem T) (w : σ) : Option (FailedItem T) :=
  match (retryFunction r.item w).1 with
  | Except.error (Thrown.stdException _) =>
    if r.retryCount + 1 < 3 then some { r with retryCount := r.retryCount + 1 } else none
  | _ => none

/-- A queue of capacity 10 holding items 1, 2, 3 and 4 with retry counts 0, 2, 1 and 0. -/
def mixedQueue : DeadLetterQueue Nat :=
  DeadLetterQueue.mk
    [FailedItem.mk 1 "bad length" 10 "parsing" 0, FailedItem.mk 2 "bad type" 20 "parsing" 2,
      FailedItem.mk 3 "disk full" 30 "storage" 1, FailedItem.mk 4 "bad length" 40 "parsing" 0]
    10

/-- A retry function that counts its invocations in the world, succeeds on item 4 and
throws a `std::exception` on every other item. -/
def failsUnlessFour (item : Nat) (calls : Nat) : Except Thrown Unit × Nat :=
  (if item = 4 then Except.ok () else Except.error (Thrown.stdException "still failing"),
    calls + 1)

/-- The queue and the world after `k` successive `retryFailures` calls with the same
retry function. -/
def DeadLetterQueue.retryTimes {T σ : Type} (q : DeadLetterQueue T)
    (retryFunction : T → σ → Except Thrown Unit × σ) (s : σ) : Nat → DeadLetterQueue T × σ
  | 0 => (q, s)
  | k + 1 =>
    (((q.retryTimes retryFunction s k).1.retryFailures retryFunction
        (q.retryTimes retryFunction s k).2).queue,
      ((q.retryTimes retryFunction s k).1.retryFailures retryFunction
        (q.retryTimes retryFunction s k).2).world)

/-- A store of item 7 followed by two retry passes with a retry function that always
throws a `std::exception`. -/
def storeThenTwoRetries : List (DlqCall Nat Nat) :=
  [DlqCall.store 7 "bad length" 10 "parsing", DlqCall.retry alwaysFails,
    DlqCall.retry alwaysFails]

/-- Five stores, of items 1 to 5, then a retry pass that always fails, then a store. -/
def storesAndRetry : List (DlqCall Nat Nat) :=
  [DlqCall.store 1 "e" 1 "parsing", DlqCall.store 2 "e" 2 "parsing",
    DlqCall.store 3 "e" 3 "parsing", DlqCall.store 4 "e" 4 "parsing",
    DlqCall.store 5 "e" 5 "parsing", DlqCall.retry alwaysFails,
    DlqCall.store 6 "e" 6 "storage"]

/-! ### Counting retries

To state that no record is retried more than 3 times, every retry function is wrapped so
that it also appends the item it is given to a log kept in the world. -/

/-- The retry function `retryFunction`, with a log of the items it has been invoked on. -/
def logged {T σ : Type} (retryFunction : T → σ → Except Thrown Unit × σ) (x : T)
    (w : List T × σ) : Except Thrown Unit × (List T × σ) :=
  ((retryFunction x w.2).1, (w.1 ++ [x], (retryFunction x w.2).2))

/-- A call whose retry function, if any, is logged. -/
def DlqCall.logged {T σ : Type} : DlqCall T σ → DlqCall T (List T × σ)
  | DlqCall.store item what time stage => DlqCall.store item what time stage
  | DlqCall.retry retryFunction => DlqCall.retry (Resilience.logged retryFunction)
  | DlqCall.clear => DlqCall.clear

/-- The number of `storeFailure` calls of a sequence that store the item `x`. -/
def storesOf {T σ : Type} [DecidableEq T] (x : T) : List (DlqCall T σ) → Nat
  | [] => 0
  | DlqCall.store item _ _ _ :: rest => (if item = x then 1 else 0) + storesOf x rest
  | DlqCall.retry _ :: rest => storesOf x rest
  | DlqCall.clear :: rest => storesOf x rest

/-- The number of retries that the queued records of item `x` can still receive: `3` minus
the retry count, summed over those records. -/
def retriesLeft {T : Type} [DecidableEq T] (x : T) : List (FailedItem T) → Int
  | [] => 0
  | r :: rest => (if r.item = x then 3 - r.retryCount else 0) + retriesLeft x rest

/-- Two stores of item 7 and one of item 8, with four failing retry passes in between and
after. -/
def repeatedRetries : List (DlqCall Nat Nat) :=
  [DlqCall.store 7 "e" 1 "parsing", DlqCall.retry alwaysFails, DlqCall.store 8 "e" 2 "parsing",
    DlqCall.retry alwaysFails, DlqCall.store 7 "e" 3 "parsing", DlqCall.retry alwaysFails,
    DlqCall.retry alwaysFails, DlqCall.retry alwaysFails, DlqCall.retry alwaysFails]


/-! ## The eviction guard of `storeFailure` -/

/-- The call `pop_front()` of `std::deque` with its precondition made explicit: `none` on
an empty deque, where the behaviour of the source's call is undefined. -/
def popFrontChecked {α : Type} : List α → Option (List α)
  | [] => none
  | _ :: rest => some rest

/-- The condition `queue_.size() >= maxSize_` of the `if` in `storeFailure`. -/
def DeadLetterQueue.evicts {T : Type} (q : DeadLetterQueue T) : Bool :=
  decide (q.queue_.length ≥ q.maxSize_)

/-- The member function `storeFailure` with `pop_front` checked: `none` when the call
removes the front of an empty deque. -/
def DeadLetterQueue.storeFailureChecked {T : Type} (q : DeadLetterQueue T) (item : T)
    (what : String) (time : Int) (stage : String) : Option (DeadLetterQueue T) :=
  if q.queue_.length ≥ q.maxSize_ then
    match popFrontChecked q.queue_ with
    | none => none
    | some queue1 =>
      some { q with queue_ := queue1 ++ [FailedItem.mk item what time stage 0] }
  else some { q with queue_ := q.queue_ ++ [FailedItem.mk item what time stage 0] }

/-- A queue of capacity 1 that holds one record. -/
def fullQueueOfOne : DeadLetterQueue Nat :=
  (DeadLetterQueue.create 1).storeFailure 1 "bad checksum" 5 "parsing"

/-- A new queue of capacity 0. -/
def zeroCapacityQueue : DeadLetterQueue Nat := DeadLetterQueue.create 0

/-! ## Counting the failures of a sequence of `execute` calls -/

/-- Whether the operation of a call, invoked in the world `s`, throws a `std::exception`
(the case that the `catch` clause of `execute` handles). -/
def Call.fails {σ ρ : Type} (c : Call σ ρ) (s : σ) : Bool :=
  match (c.operation s).1 with
  | Except.error (Thrown.stdException _) => true
  | _ => false

/-- The number of operations of a sequence that throw a `std::exception` when each is
invoked once, in order, from the world `s`. -/
def failuresIn {σ ρ : Type} (s : σ) : List (Call σ ρ) → Nat
  | [] => 0
  | c :: rest => (if c.fails s then 1 else 0) + failuresIn (c.operation s).2 rest

/-- Four calls, of which the second fails and the others succeed. -/
def oneFailureAmongSuccesses : List (Call Nat Nat) :=
  [Call.mk succeedingOperation 10 11, Call.mk probeFailure 20 21,
    Call.mk succeedingOperation 30 31, Call.mk succeedingOperation 40 41]

/-- A failing call made at tick 50. -/
def laterFailure : Call Nat Nat := Call.mk probeFailure 50 51

/-- Two failures that open a breaker of threshold 2, a blocked call, a failed probe after
the timeout and a successful probe after the next timeout. -/
def openAndRecover : List (Call Nat Nat) :=
  [Call.mk probeFailure 10 11, Call.mk probeFailure 20 21,
    Call.mk succeedingOperation 30 31, Call.mk probeFailure 60 61,
    Call.mk succeedingOperation 100 101]


/-! ## Operations and retry functions that throw other objects, and a counter at `INT_MAX` -/

/-- Five calls of the operation that throws an object other than a `std::exception`, at
ticks 10, 20, 30, 40 and 50. -/
def fiveOtherThrows : List (Call Nat Nat) :=
  [Call.mk otherThrowOperation 10 11, Call.mk otherThrowOperation 20 21,
    Call.mk otherThrowOperation 30 31, Call.mk otherThrowOperation 40 41,
    Call.mk otherThrowOperation 50 51]

/-- Four calls, of which the second and the fourth fail by throwing an object other than a
`std::exception` and the others succeed. -/
def otherThrowsAmongSuccesses : List (Call Nat Nat) :=
  [Call.mk succeedingOperation 10 11, Call.mk otherThrowOperation 20 21,
    Call.mk succeedingOperation 30 31, Call.mk otherThrowOperation 40 41]

/-- A failure that opens a breaker of threshold 1, then a probe after the timeout that
throws an object other than a `std::exception`. -/
def failureThenOtherProbe : List (Call Nat Nat) :=
  [Call.mk probeFailure 10 11, Call.mk otherThrowOperation 50 51]

/-- A breaker in state `OPEN` whose counter is at `INT_MAX`, last failure at tick 100,
reset timeout 30 ticks. -/
def saturatedBreaker : CircuitBreaker :=
  CircuitBreaker.mk "storage" State.OPEN 2147483647 5 100 30

/-- The failing call number `k` of a long run: it starts and fails at tick `31 * k`, so
that each call of the run comes more than 30 ticks after the failure before it. -/
def probeAt (k : Nat) : Call Nat Nat := Call.mk probeFailure (31 * k) (31 * k)

/-- The failing calls number `start`, `start + 1`, ..., `count` of them. -/
def probes (start count : Nat) : List (Call Nat Nat) :=
  (List.range' start count).map probeAt

/-- A retry function that counts its invocations in the world and always throws an object
other than a `std::exception`. -/
def alwaysThrowsOther (_item : Nat) (calls : Nat) : Except Thrown Unit × Nat :=
  (Except.error (Thrown.other 42), calls + 1)

/-- A retry function that counts its invocations in the world, throws an object other
than a `std::exception` on item 2 and a `std::exception` on every other item. -/
def throwsOtherOnTwo (item : Nat) (calls : Nat) : Except Thrown Unit × Nat :=
  (if item = 2 then Except.error (Thrown.other 42)
    else Except.error (Thrown.stdException "still failing"),
    calls + 1)
end PacketAnalyzer2026.Resilience

namespace PacketAnalyzer2026.Performance

/-! ## `ThreadPool`

Conventions of this part of the embedding:

* the pool is a transition system. A state holds the data members of `class ThreadPool`
  and, for each worker thread, where it is in its loop; a step is one of the events below.
  Every access to `tasks_` and `stop_` in the source happens with `queueMutex_` held, so
  each event is atomic;
* a worker is *waiting* (at `condition_.wait`), *running* a task (between `tasks_.pop()`
  and the return of `task()`) or *exited* (it has executed `return`);
* a task is identified by its position in the order of acceptance: the `k`-th task that
  `enqueue` accepts has the identity `k`, counted from 0. What a task computes is outside
  the pool. The queued closure runs a `std::packaged_task`, which stores an exception in
  its future, so the call `task()` of the worker loop returns whenever the task ends;
* `accepted`, `started` and `completed` are history variables that the source does not
  hold: the number of tasks accepted so far, the tasks in the order in which workers
  dequeued them, and the tasks in the order in which their execution ended;
* `size_t` is taken to be 64 bits wide; the two atomic counters wrap modulo `2 ^ 64`;
* the destructor is the event `requestStop` (its locked block sets `stop_`) followed by
  the joins, which return once every worker has exited; notifications only wake workers
  and are covered by taking the worker events in any order;
* an event that cannot happen in a state leaves the state as it is. -/

/-- Where a worker thread is in its loop. -/
inductive Worker where
  | waiting
  | running (task : Nat)
  | exited
deriving DecidableEq

/-- The data members of `class ThreadPool` (without the mutex and the condition
variable), the position of each worker, and the history variables. -/
structure ThreadPool where
  workers_ : List Worker
  tasks_ : List Nat
  stop_ : Bool
  name_ : String
  activeTasks_ : Nat
  totalTasks_ : Nat
  accepted : Nat
  started : List Nat
  completed : List Nat
deriving DecidableEq

/-- The steps of a pool: a call of `enqueue`, a worker taking the front task, the end of
a worker's task, the locked block of the destructor, and a worker leaving its loop. -/
inductive Event where
  | submit
  | dequeue (worker : Nat)
  | finish (worker : Nat)
  | requestStop
  | workerExit (worker : Nat)
deriving DecidableEq

/-- Conversion of an integer expression to `size_t`. -/
def toSizeT (n : Nat) : Nat := n % 18446744073709551616

/-- The constructor `ThreadPool(numThreads, name)`: `numThreads` workers, each at the top
of its loop. -/
def ThreadPool.create (numThreads : Nat) (name : String) : ThreadPool :=
  ThreadPool.mk (List.replicate numThreads Worker.waiting) [] false name 0 0 0 [] []

/-- The text of the `std::runtime_error` thrown by `enqueue`. -/
def poolStopped : String := "Cannot enqueue on stopped ThreadPool"

/-- The locked block of the member function `enqueue`: `error` is the `throw`, `ok` the
pool after `tasks_.emplace` and `totalTasks_++`. -/
def ThreadPool.enqueue (p : ThreadPool) : Except String ThreadPool :=
  if p.stop_ = true then Except.error poolStopped
  else
    Except.ok { p with tasks_ := p.tasks_ ++ [p.accepted],
                       totalTasks_ := toSizeT (p.totalTasks_ + 1),
                       accepted := p.accepted + 1 }

/-- The member function `queueSize()`. -/
def ThreadPool.queueSize (p : ThreadPool) : Nat := p.tasks_.length

/-- The member function `activeTaskCount()`. -/
def ThreadPool.activeTaskCount (p : ThreadPool) : Nat := p.activeTasks_

/-- The member function `totalTaskCount()`. -/
def ThreadPool.totalTaskCount (p : ThreadPool) : Nat := p.totalTasks_

/-- The locked block of the worker loop when it does not return: a waiting worker whose
wait ends with a task in the queue takes the front task (`front`, `pop`,
`activeTasks_++`). -/
def ThreadPool.dequeue (p : ThreadPool) (worker : Nat) : ThreadPool :=
  match p.workers_[worker]? with
  | some Worker.waiting =>
    match p.tasks_ with
    | task :: rest =>
      { p with workers_ := p.workers_.set worker (Worker.running task),
               tasks_ := rest,
               activeTasks_ := toSizeT (p.activeTasks_ + 1),
               started := p.started ++ [task] }
    | [] => p
  | _ => p

/-- The rest of the loop body: the call `task()` of a running worker ends, normally or in
the `catch` clause, and `activeTasks_--` follows; the worker is back at the wait. -/
def ThreadPool.finish (p : ThreadPool) (worker : Nat) : ThreadPool :=
  match p.workers_[worker]? with
  | some (Worker.running task) =>
    { p with workers_ := p.workers_.set worker Worker.waiting,
             activeTasks_ := toSizeT (p.activeTasks_ + 18446744073709551615),
             completed := p.completed ++ [task] }
  | _ => p

/-- The locked block of the destructor: `stop_ = true`. -/
def ThreadPool.requestStop (p : ThreadPool) : ThreadPool := { p with stop_ := true }

/-- The statement `if (stop_ && tasks_.empty()) return;` of a waiting worker when its
condition holds. -/
def ThreadPool.workerExit (p : ThreadPool) (worker : Nat) : ThreadPool :=
  match p.workers_[worker]? with
  | some Worker.waiting =>
    if p.stop_ = true ∧ p.tasks_ = [] then
      { p with workers_ := p.workers_.set worker Worker.exited }
    else p
  | _ => p

/-- One step of the pool. A call of `enqueue` that throws leaves the pool as it is. -/
def ThreadPool.step (p : ThreadPool) : Event → ThreadPool
  | Event.submit =>
    match p.enqueue with
    | Except.ok q => q
    | Except.error _ => p
  | Event.dequeue worker => p.dequeue worker
  | Event.finish worker => p.finish worker
  | Event.requestStop => p.requestStop
  | Event.workerExit worker => p.workerExit worker

/-- The pool after a sequence of steps. -/
def ThreadPool.run (p : ThreadPool) : List Event → ThreadPool
  | [] => p
  | e :: rest => (p.step e).run rest

/-- The end of the destructor: `stop_` is set and every join has returned, that is, every
worker has exited. -/
def ThreadPool.shutdownComplete (p : ThreadPool) : Bool :=
  p.stop_ && p.workers_.all (fun w => decide (w = Worker.exited))

/-- The task that a worker is running, if any. -/
def Worker.current : Worker → Option Nat
  | Worker.running task => some task
  | _ => none

/-- The tasks that have been dequeued and whose execution has not ended. -/
def runningTasks (workers : List Worker) : List Nat := workers.filterMap Worker.current

/-- The number of `enqueue` calls of a sequence of steps that are made before the first
`requestStop`: the calls that find `stop_` unset. -/
def acceptedIn : List Event → Nat
  | [] => 0
  | Event.submit :: rest => acceptedIn rest + 1
  | Event.requestStop :: _ => 0
  | _ :: rest => acceptedIn rest

/-- The link between the data members and the history of a pool: tasks are dequeued in
the order of acceptance, the queue holds the accepted tasks not yet dequeued, every
dequeued task has been completed or is running on one worker, a worker exits only from a
stopped pool with an empty queue, and `totalTasks_` is the number of accepted tasks as a
`size_t`. -/
structure ThreadPool.Consistent (p : ThreadPool) : Prop where
  started_eq : p.started = List.range p.started.length
  tasks_eq : p.tasks_ = List.range' p.started.length p.tasks_.length
  accepted_eq : p.accepted = p.started.length + p.tasks_.length
  started_perm : List.Perm p.started (p.completed ++ runningTasks p.workers_)
  exited_stop : Worker.exited ∈ p.workers_ → p.stop_ = true ∧ p.tasks_ = []
  total_eq : p.totalTasks_ = toSizeT p.accepted

/-- A pool without workers: one task is accepted, then the pool is destroyed. -/
def noWorkers : ThreadPool :=
  (ThreadPool.create 0 "Idle").run [Event.submit, Event.requestStop]

/-- Two tasks accepted by a pool of two workers, both run, then the destructor: the
second task ends first. -/
def twoWorkersDrain : List Event :=
  [Event.submit, Event.submit, Event.dequeue 0, Event.requestStop, Event.submit,
    Event.dequeue 1, Event.finish 1, Event.finish 0, Event.workerExit 0,
    Event.workerExit 1]

/-- Three tasks accepted by a pool of one worker, two of them run to their end and the
third dequeued. -/
def oneWorkerThree : List Event :=
  [Event.submit, Event.submit, Event.dequeue 0, Event.submit, Event.finish 0,
    Event.dequeue 0, Event.finish 0, Event.dequeue 0]

/-- A pool of one worker that has accepted one task and not run it. -/
def oneQueued : ThreadPool := (ThreadPool.create 1 "UI").run [Event.submit]

/-- A stopped pool with one task in its queue. -/
def stoppedPool : ThreadPool :=
  (ThreadPool.create 2 "Storage").run [Event.submit, Event.requestStop]

end PacketAnalyzer2026.Performance

namespace PacketAnalyzer2026.Protocols

/-! ## Arithmetic of bytes -/

/-- A promoted byte is below 256. -/
theorem byteAt_lt (data : List Byte) (i : Nat) : byteAt data i < 256 :=
  (data.getD i 0).isLt

/-- Two bytes joined by shift and or. -/
theorem shl_or_byte (a b : Nat) (hb : b < 256) : (a <<< 8) ||| b = a * 256 + b := by
  rw [Nat.shiftLeft_eq]
  have h := Nat.mul_add_lt_is_or (i := 8) (b := b) (by omega) a
  rw [Nat.mul_comm (2 ^ 8) a] at h
  rw [← h]

/-- Three bytes joined big-endian by shifts and ors. -/
theorem be24_eq (a b c : Nat) (hb : b < 256) (hc : c < 256) :
    (a <<< 16) ||| (b <<< 8) ||| c = a * 65536 + b * 256 + c := by
  rw [Nat.shiftLeft_eq, Nat.shiftLeft_eq]
  have h1 : a * 2 ^ 16 ||| b * 2 ^ 8 = 2 ^ 8 * (a * 2 ^ 8 + b) := by
    have h := Nat.mul_add_lt_is_or (i := 16) (b := b * 2 ^ 8) (by omega) a
    rw [Nat.mul_comm (2 ^ 16) a] at h
    rw [← h]; ring
  rw [h1, ← Nat.mul_add_lt_is_or (by omega)]
  ring

/-- Four bytes joined big-endian by shifts and ors. -/
theorem be32_eq (a b c d : Nat) (hb : b < 256) (hc : c < 256) (hd : d < 256) :
    (a <<< 24) ||| (b <<< 16) ||| (c <<< 8) ||| d
      = a * 16777216 + b * 65536 + c * 256 + d := by
  rw [Nat.shiftLeft_eq, Nat.shiftLeft_eq, Nat.shiftLeft_eq]
  have h1 : a * 2 ^ 24 ||| b * 2 ^ 16 = 2 ^ 16 * (a * 2 ^ 8 + b) := by
    have h := Nat.mul_add_lt_is_or (i := 24) (b := b * 2 ^ 16) (by omega) a
    rw [Nat.mul_comm (2 ^ 24) a] at h
    rw [← h]; ring
  have h2 : 2 ^ 16 * (a * 2 ^ 8 + b) ||| c * 2 ^ 8 = 2 ^ 8 * (a * 2 ^ 16 + b * 2 ^ 8 + c) := by
    have h := Nat.mul_add_lt_is_or (i := 16) (b := c * 2 ^ 8) (by omega) (a * 2 ^ 8 + b)
    rw [← h]; ring
  rw [h1, h2, ← Nat.mul_add_lt_is_or (by omega)]
  ring

set_option maxRecDepth 100000 in
/-- The mask `0x80` tests whether a byte is at least 128. -/
theorem byte_and_80 : ∀ b : Byte, (b.val &&& 0x80 ≠ 0) ↔ 128 ≤ b.val := by decide

set_option maxRecDepth 100000 in
/-- The mask `0x40` tests binary digit 6 of a byte. -/
theorem byte_and_40 : ∀ b : Byte, (b.val &&& 0x40 ≠ 0) ↔ b.val / 64 % 2 = 1 := by decide

set_option maxRecDepth 100000 in
/-- The mask `0x0F` keeps the low four binary digits of a byte. -/
theorem byte_and_0F : ∀ b : Byte, b.val &&& 0x0F = b.val % 16 := by decide

set_option maxRecDepth 100000 in
/-- The mask `0x7F` keeps the low seven binary digits of a byte. -/
theorem byte_and_7F : ∀ b : Byte, b.val &&& 0x7F = b.val % 128 := by decide

/-! ## The helper predicates in arithmetic terms -/

/-- The structural test `isHTTP2Frame` in arithmetic terms. -/
theorem isHTTP2Frame_iff (data : List Byte) :
    isHTTP2Frame data = true ↔
      9 ≤ data.length ∧ byteAt data 0 * 65536 + byteAt data 1 * 256 + byteAt data 2 ≤ 16384
        ∧ byteAt data 3 ≤ 10 := by
  have h0 := byteAt_lt data 0
  have h1 := byteAt_lt data 1
  have h2 := byteAt_lt data 2
  unfold isHTTP2Frame toUInt32
  rw [be24_eq _ _ _ h1 h2]
  by_cases hlen : data.length < 9
  · simp [hlen]
  · have hmod : (byteAt data 0 * 65536 + byteAt data 1 * 256 + byteAt data 2) % 4294967296
        = byteAt data 0 * 65536 + byteAt data 1 * 256 + byteAt data 2 :=
      Nat.mod_eq_of_lt (by omega)
    simp only [hlen, if_false, hmod, Bool.and_eq_true, decide_eq_true_eq]
    omega

/-- The test `isQUICPacket` in arithmetic terms. -/
theorem isQUICPacket_iff (data : List Byte) :
    isQUICPacket data = true ↔
      1 ≤ data.length ∧
        ((128 ≤ byteAt data 0 ∧ 5 ≤ data.length
            ∧ ¬ (byteAt data 1 = 0 ∧ byteAt data 2 = 0 ∧ byteAt data 3 = 0 ∧ byteAt data 4 = 0))
          ∨ (byteAt data 0 < 128 ∧ byteAt data 0 / 64 % 2 = 1)) := by
  have h1 := byteAt_lt data 1
  have h2 := byteAt_lt data 2
  have h3 := byteAt_lt data 3
  have h4 := byteAt_lt data 4
  have ht : (byteAt data 0 &&& 0x80 ≠ 0) ↔ 128 ≤ byteAt data 0 := byte_and_80 (data.getD 0 0)
  have hf : (byteAt data 0 &&& 0x40 ≠ 0) ↔ byteAt data 0 / 64 % 2 = 1 :=
    byte_and_40 (data.getD 0 0)
  simp only [isQUICPacket, toUInt32]
  rw [be32_eq _ _ _ _ h2 h3 h4]
  by_cases hlen : data.length < 1
  · rw [if_pos hlen]; simp; omega
  · rw [if_neg hlen]
    by_cases htop : byteAt data 0 &&& 0x80 ≠ 0
    · have hge := ht.mp htop
      rw [if_pos htop]
      by_cases h5 : data.length ≥ 5
      · rw [if_pos h5, decide_eq_true_eq]
        omega
      · rw [if_neg h5]; simp; omega
    · have hlt : ¬ 128 ≤ byteAt data 0 := fun h => htop (ht.mpr h)
      rw [if_neg htop, decide_eq_true_eq, hf]
      omega

/-- The test `isWebSocketFrame` in arithmetic terms. -/
theorem isWebSocketFrame_iff (data : List Byte) :
    isWebSocketFrame data = true ↔
      2 ≤ data.length ∧
        (byteAt data 0 % 16 ≤ 2 ∨ (8 ≤ byteAt data 0 % 16 ∧ byteAt data 0 % 16 ≤ 10)) := by
  have hn : byteAt data 0 &&& 0x0F = byteAt data 0 % 16 := byte_and_0F (data.getD 0 0)
  unfold isWebSocketFrame
  by_cases hlen : data.length < 2
  · simp only [hlen, if_true]; simp; omega
  · simp only [hlen, if_false, hn, Bool.or_eq_true, Bool.and_eq_true, decide_eq_true_eq]
    omega

/-- A buffer that starts with the preface magic starts with the byte `0x50`. -/
theorem byteAt_zero_of_preface (data : List Byte) (h : memcmpEq data http2_preface 14 = true) :
    byteAt data 0 = 80 := by
  unfold memcmpEq at h
  have h2 : data.take 14 = http2_preface.take 14 := by simpa using h
  have h3 : (data.take 14).getD 0 0 = (http2_preface.take 14).getD 0 0 := by rw [h2]
  have h4 : (data.take 14).getD 0 0 = data.getD 0 0 := by
    cases data <;> simp
  unfold byteAt
  rw [← h4, h3]
  decide

/-! ## Classification: `detectModernProtocol` -/

/-- C1 (as stated, refuted): the 9-byte buffer `00 00 00 04 00 00 00 00 00` on port 443 has
24-bit length 0 and frame type 4, yet it is classified `"WebSocket"`, not `"HTTP/2"`: the
frame-header rule sits inside the block guarded by `size >= 24`. -/
theorem detect_short_frame_header_is_websocket :
    (9 ≤ settingsHeader.length
      ∧ byteAt settingsHeader 0 * 65536 + byteAt settingsHeader 1 * 256
          + byteAt settingsHeader 2 ≤ 16384
      ∧ byteAt settingsHeader 3 ≤ 10)
    ∧ detectModernProtocol settingsHeader 443 = "WebSocket"
    ∧ detectModernProtocol settingsHeader 443 ≠ "HTTP/2" := by
  decide

/-- C1 (amended): on port 80 or 443, every buffer of at least 24 bytes whose first three
bytes, read as a 24-bit big-endian length, are at most 16384 and whose fourth byte is at
most 10 is classified `"HTTP/2"`. -/
theorem detect_frame_header_is_http2 (data : List Byte) (port : Nat)
    (hport : port = 80 ∨ port = 443) (hlen : 24 ≤ data.length)
    (hlength : byteAt data 0 * 65536 + byteAt data 1 * 256 + byteAt data 2 ≤ 16384)
    (htype : byteAt data 3 ≤ 10) :
    detectModernProtocol data port = "HTTP/2" := by
  have hf : isHTTP2Frame data = true :=
    (isHTTP2Frame_iff data).mpr ⟨by omega, hlength, htype⟩
  unfold detectModernProtocol
  rw [if_neg (by omega)]
  by_cases hm : memcmpEq data http2_preface 14 = true
  · rw [if_pos ⟨hport, hlen, hm⟩]
  · rw [if_neg (fun h => hm h.2.2), if_pos ⟨hport, hlen, hf⟩]

/-- Witness of `detect_frame_header_is_http2`: a 24-byte buffer that starts with a
SETTINGS frame header. -/
theorem detect_frame_header_is_http2_witness :
    detectModernProtocol (settingsHeader ++ List.replicate 15 0) 443 = "HTTP/2" :=
  detect_frame_header_is_http2 (settingsHeader ++ List.replicate 15 0) 443
    (Or.inr rfl) (by decide) (by decide) (by decide)


/-- The preface comparison of `detectModernProtocol` as an equation on the first 14 bytes. -/
theorem memcmpEq_preface_iff (data : List Byte) :
    memcmpEq data http2_preface 14 = true ↔ data.take 14 = http2_preface := by
  have h : http2_preface.take 14 = http2_preface := by decide
  unfold memcmpEq
  rw [h]
  simp

/-- C2 (as stated, refuted): two buffers on port 80 whose first byte has low nibble 1 and
that are classified `"QUIC"`: `41 00 00 00` (short header with the fixed bit) and the text
frame `81 05 "Hello"` (long header with non-zero bytes 1-4). -/
theorem detect_text_opcode_can_be_quic :
    (4 ≤ shortHeaderText.length ∧ byteAt shortHeaderText 0 % 16 = 1
      ∧ detectModernProtocol shortHeaderText 80 = "QUIC"
      ∧ detectModernProtocol shortHeaderText 80 ≠ "WebSocket")
    ∧ (4 ≤ helloTextFrame.length ∧ byteAt helloTextFrame 0 % 16 = 1
      ∧ detectModernProtocol helloTextFrame 80 = "QUIC"
      ∧ detectModernProtocol helloTextFrame 80 ≠ "WebSocket") := by
  decide

/-- C2 (amended): on port 80 or 443, a buffer of at least 4 bytes whose first byte has low
nibble 1 is classified `"QUIC"` when the QUIC rule matches it (top bit set, at least 5
bytes and bytes 1-4 not all zero; or top bit clear and bit `0x40` set), and `"WebSocket"`
otherwise. -/
theorem detect_text_opcode (data : List Byte) (port : Nat)
    (hport : port = 80 ∨ port = 443) (hlen : 4 ≤ data.length)
    (hnib : byteAt data 0 % 16 = 1) :
    detectModernProtocol data port =
      if (128 ≤ byteAt data 0 ∧ 5 ≤ data.length
            ∧ ¬ (byteAt data 1 = 0 ∧ byteAt data 2 = 0 ∧ byteAt data 3 = 0
                  ∧ byteAt data 4 = 0))
          ∨ (byteAt data 0 < 128 ∧ byteAt data 0 / 64 % 2 = 1)
      then "QUIC" else "WebSocket" := by
  have hpre : ¬ memcmpEq data http2_preface 14 = true := fun h => by
    have := byteAt_zero_of_preface data h
    omega
  have hframe : ¬ isHTTP2Frame data = true := fun h => by
    have := (isHTTP2Frame_iff data).mp h
    omega
  have hws : isWebSocketFrame data = true :=
    (isWebSocketFrame_iff data).mpr ⟨by omega, Or.inl (by omega)⟩
  have hport2 : port = 443 ∨ port = 80 := hport.symm
  unfold detectModernProtocol
  rw [if_neg (by omega), if_neg (fun h => hpre h.2.2), if_neg (fun h => hframe h.2.2)]
  by_cases hq : isQUICPacket data = true
  · rw [if_pos ⟨hport2, hq⟩, if_pos ((isQUICPacket_iff data).mp hq).2]
  · have hq2 : ¬ ((128 ≤ byteAt data 0 ∧ 5 ≤ data.length
            ∧ ¬ (byteAt data 1 = 0 ∧ byteAt data 2 = 0 ∧ byteAt data 3 = 0
                  ∧ byteAt data 4 = 0))
          ∨ (byteAt data 0 < 128 ∧ byteAt data 0 / 64 % 2 = 1)) :=
      fun h => hq ((isQUICPacket_iff data).mpr ⟨by omega, h⟩)
    rw [if_neg (fun h => hq h.2), if_pos ⟨hport, hws⟩, if_neg hq2]

/-- Witness of `detect_text_opcode`: `01 00 00 00` on port 80 is a WebSocket frame. -/
theorem detect_text_opcode_witness :
    detectModernProtocol plainTextOpcode 80 = "WebSocket" :=
  (detect_text_opcode plainTextOpcode 80 (Or.inl rfl) (by decide) (by decide)).trans
    (by decide)

/-- C3: on port 80 or 443, every buffer of at least 5 bytes whose first byte has the top
bit set and whose bytes 1-4 are not all zero is classified `"QUIC"`. -/
theorem detect_long_header_is_quic (data : List Byte) (port : Nat)
    (hport : port = 80 ∨ port = 443) (hlen : 5 ≤ data.length)
    (htop : 128 ≤ byteAt data 0)
    (hver : ¬ (byteAt data 1 = 0 ∧ byteAt data 2 = 0 ∧ byteAt data 3 = 0
                ∧ byteAt data 4 = 0)) :
    detectModernProtocol data port = "QUIC" := by
  have hpre : ¬ memcmpEq data http2_preface 14 = true := fun h => by
    have := byteAt_zero_of_preface data h
    omega
  have hframe : ¬ isHTTP2Frame data = true := fun h => by
    have := (isHTTP2Frame_iff data).mp h
    omega
  have hq : isQUICPacket data = true :=
    (isQUICPacket_iff data).mpr ⟨by omega, Or.inl ⟨htop, hlen, hver⟩⟩
  unfold detectModernProtocol
  rw [if_neg (by omega), if_neg (fun h => hpre h.2.2), if_neg (fun h => hframe h.2.2),
    if_pos ⟨hport.symm, hq⟩]

/-- Witness of `detect_long_header_is_quic`: first byte `0x80`, version `00 00 00 01`,
port 443. -/
theorem detect_long_header_is_quic_witness :
    detectModernProtocol quicLongHeader 443 = "QUIC" :=
  detect_long_header_is_quic quicLongHeader 443 (Or.inr rfl) (by decide) (by decide)
    (by decide)

/-- C4: on port 80 or 443, every buffer of at least 24 bytes whose first 14 bytes are the
ASCII bytes of `PRI * HTTP/2.0` is classified `"HTTP/2"`. -/
theorem detect_preface_is_http2 (data : List Byte) (port : Nat)
    (hport : port = 80 ∨ port = 443) (hlen : 24 ≤ data.length)
    (hmagic : data.take 14 = asciiBytes "PRI * HTTP/2.0") :
    detectModernProtocol data port = "HTTP/2" := by
  have hm : memcmpEq data http2_preface 14 = true := (memcmpEq_preface_iff data).mpr hmagic
  unfold detectModernProtocol
  rw [if_neg (by omega), if_pos ⟨hport, hlen, hm⟩]

/-- Witness of `detect_preface_is_http2`: the full connection preface on port 443; its
first byte `0x50` has the top bit clear and bit `0x40` set. -/
theorem detect_preface_is_http2_witness :
    (byteAt fullPreface 0 < 128 ∧ byteAt fullPreface 0 / 64 % 2 = 1)
      ∧ detectModernProtocol fullPreface 443 = "HTTP/2" :=
  ⟨by decide, detect_preface_is_http2 fullPreface 443 (Or.inr rfl) (by decide) (by decide)⟩

/-- C5: on port 80 or 443, a buffer of at least 4 bytes whose first byte has the top bit
clear and bit `0x40` set is classified `"HTTP/2"` when it has at least 24 bytes and starts
with the 14-byte preface magic, and `"QUIC"` in every other case. -/
theorem detect_short_header_tie_break (data : List Byte) (port : Nat)
    (hport : port = 80 ∨ port = 443) (hlen : 4 ≤ data.length)
    (htop : byteAt data 0 < 128) (hfixed : byteAt data 0 / 64 % 2 = 1) :
    detectModernProtocol data port =
      if 24 ≤ data.length ∧ data.take 14 = asciiBytes "PRI * HTTP/2.0"
      then "HTTP/2" else "QUIC" := by
  have hframe : ¬ isHTTP2Frame data = true := fun h => by
    have := (isHTTP2Frame_iff data).mp h
    omega
  have hq : isQUICPacket data = true :=
    (isQUICPacket_iff data).mpr ⟨by omega, Or.inr ⟨htop, hfixed⟩⟩
  unfold detectModernProtocol
  rw [if_neg (by omega)]
  by_cases hm : 24 ≤ data.length ∧ data.take 14 = asciiBytes "PRI * HTTP/2.0"
  · rw [if_pos ⟨hport, hm.1, (memcmpEq_preface_iff data).mpr hm.2⟩, if_pos hm]
  · rw [if_neg (fun h => hm ⟨h.2.1, (memcmpEq_preface_iff data).mp h.2.2⟩),
      if_neg (fun h => hframe h.2.2), if_pos ⟨hport.symm, hq⟩, if_neg hm]

/-- Witness of `detect_short_header_tie_break`: a 24-byte buffer with first byte `0x41`
(a valid WebSocket opcode) that contains `application/grpc` is classified `"QUIC"`. -/
theorem detect_short_header_tie_break_witness :
    (isWebSocketFrame shortHeaderGrpc = true
      ∧ grpcContentType <:+: shortHeaderGrpc.take 100)
    ∧ detectModernProtocol shortHeaderGrpc 80 = "QUIC" :=
  ⟨by decide,
    (detect_short_header_tie_break shortHeaderGrpc 80 (Or.inl rfl) (by decide) (by decide)
      (by decide)).trans (by decide)⟩

/-- C6: on every port other than 80 and 443, every buffer of at least 4 bytes is
classified `"Standard"`. -/
theorem detect_other_port_is_standard (data : List Byte) (port : Nat)
    (h80 : port ≠ 80) (h443 : port ≠ 443) (hlen : 4 ≤ data.length) :
    detectModernProtocol data port = "Standard" := by
  have hp : ¬ (port = 80 ∨ port = 443) := fun h => h.elim h80 h443
  have hp2 : ¬ (port = 443 ∨ port = 80) := fun h => h.elim h443 h80
  unfold detectModernProtocol
  rw [if_neg (by omega), if_neg (fun h => hp h.1), if_neg (fun h => hp h.1),
    if_neg (fun h => hp2 h.1), if_neg (fun h => hp h.1), if_neg (fun h => hp h.1)]

/-- Witness of `detect_other_port_is_standard`: the connection preface on port 8080. -/
theorem detect_other_port_is_standard_witness :
    detectModernProtocol fullPreface 8080 = "Standard" :=
  detect_other_port_is_standard fullPreface 8080 (by decide) (by decide) (by decide)

/-- C7: for every buffer and every port, the classification is `"Unknown"` exactly when
the buffer has fewer than 4 bytes. -/
theorem detect_unknown_iff (data : List Byte) (port : Nat) :
    detectModernProtocol data port = "Unknown" ↔ data.length < 4 := by
  unfold detectModernProtocol
  constructor
  · intro h
    by_contra hlen
    rw [if_neg hlen] at h
    split_ifs at h <;> exact absurd h (by decide)
  · intro hlen
    rw [if_pos hlen]


/-! ## The substring search -/

/-- The search loop finds a position exactly when the needle occurs in the haystack. -/
theorem findFrom_ne_none_iff (needle : List Byte) :
    ∀ (hay : List Byte) (pos : Nat), findFrom needle hay pos ≠ none ↔ needle <:+: hay
  | [], pos => by
    unfold findFrom
    by_cases h : needle.isPrefixOf [] = true
    · rw [if_pos h]
      have h2 : needle <+: [] := List.isPrefixOf_iff_prefix.mp h
      exact ⟨fun _ => h2.isInfix, fun _ => by simp⟩
    · rw [if_neg h]
      have h2 : ¬ needle <+: [] := fun hp => h (List.isPrefixOf_iff_prefix.mpr hp)
      constructor
      · intro hc; exact absurd rfl hc
      · intro hi
        exact absurd (List.prefix_nil.mpr (List.infix_nil.mp hi)) h2
  | b :: rest, pos => by
    unfold findFrom
    by_cases h : needle.isPrefixOf (b :: rest) = true
    · rw [if_pos h]
      have h2 : needle <+: b :: rest := List.isPrefixOf_iff_prefix.mp h
      exact ⟨fun _ => h2.isInfix, fun _ => by simp⟩
    · rw [if_neg h, findFrom_ne_none_iff needle rest (pos + 1), List.infix_cons_iff]
      have h2 : ¬ needle <+: b :: rest := fun hp => h (List.isPrefixOf_iff_prefix.mpr hp)
      exact ⟨Or.inr, fun ho => ho.resolve_left h2⟩

/-- The call `find` succeeds exactly when the needle is a contiguous part of the haystack. -/
theorem find_ne_none_iff (hay needle : List Byte) :
    find hay needle ≠ none ↔ needle <:+: hay :=
  findFrom_ne_none_iff needle hay 0

/-- C8: on port 80 or 443, a buffer of more than 20 bytes that matches none of the preface,
HTTP/2 frame header, QUIC and WebSocket rules is classified `"gRPC"` when the 16 bytes of
`application/grpc` occur as a contiguous part of its first `min size 100` bytes, and
`"Standard"` otherwise. -/
theorem detect_grpc_or_standard (data : List Byte) (port : Nat)
    (hport : port = 80 ∨ port = 443) (hlen : 20 < data.length)
    (hpre : ¬ (24 ≤ data.length ∧ data.take 14 = asciiBytes "PRI * HTTP/2.0"))
    (hframe : isHTTP2Frame data = false)
    (hquic : isQUICPacket data = false)
    (hws : isWebSocketFrame data = false) :
    detectModernProtocol data port =
      if asciiBytes "application/grpc" <:+: data.take (min data.length 100)
      then "gRPC" else "Standard" := by
  unfold detectModernProtocol
  rw [if_neg (by omega),
    if_neg (fun h => hpre ⟨h.2.1, (memcmpEq_preface_iff data).mp h.2.2⟩),
    if_neg (fun h => by rw [hframe] at h; exact absurd h.2.2 (by decide)),
    if_neg (fun h => by rw [hquic] at h; exact absurd h.2 (by decide)),
    if_neg (fun h => by rw [hws] at h; exact absurd h.2 (by decide))]
  by_cases hg : asciiBytes "application/grpc" <:+: data.take (min data.length 100)
  · rw [if_pos ⟨hport, hlen, (find_ne_none_iff _ _).mpr hg⟩, if_pos hg]
  · rw [if_neg (fun h => hg ((find_ne_none_iff _ _).mp h.2.2)), if_neg hg]

set_option maxRecDepth 100000 in
/-- Witness of `detect_grpc_or_standard`: `application/grpc` at bytes 21-36 gives `"gRPC"`;
the same 16 bytes at bytes 90-105 of a 110-byte buffer give `"Standard"`. -/
theorem detect_grpc_or_standard_witness :
    detectModernProtocol grpcInside 443 = "gRPC"
      ∧ (asciiBytes "application/grpc" <:+: grpcStraddling
          ∧ detectModernProtocol grpcStraddling 443 = "Standard") :=
  ⟨(detect_grpc_or_standard grpcInside 443 (Or.inr rfl) (by decide) (by decide) (by decide)
      (by decide) (by decide)).trans (by decide),
    by decide,
    (detect_grpc_or_standard grpcStraddling 443 (Or.inr rfl) (by decide) (by decide)
      (by decide) (by decide) (by decide)).trans (by decide)⟩


/-! ## Decoding: `parseHTTP2Frame` -/

/-- Overwriting position `j` leaves the promoted byte at any other position unchanged. -/
theorem byteAt_set_ne (data : List Byte) (i j : Nat) (x : Byte) (h : j ≠ i) :
    byteAt (data.set j x) i = byteAt data i := by
  unfold byteAt
  rw [List.getD_eq_getElem?_getD, List.getD_eq_getElem?_getD, List.getElem?_set_ne h]

/-- Overwriting a position inside the buffer makes the promoted byte there the new one. -/
theorem byteAt_set_self (data : List Byte) (j : Nat) (x : Byte) (h : j < data.length) :
    byteAt (data.set j x) j = x.val := by
  unfold byteAt
  rw [List.getD_eq_getElem?_getD, List.getElem?_set_self h]
  rfl

/-- The header fields computed by `parseHTTP2Frame`, in arithmetic terms. -/
theorem parseHTTP2Frame_eq (data : List Byte) (hlen : 9 ≤ data.length) :
    parseHTTP2Frame data =
      HTTP2Frame.mk (byteAt data 0 * 65536 + byteAt data 1 * 256 + byteAt data 2)
        (byteAt data 3) (byteAt data 4)
        (byteAt data 5 % 128 * 16777216 + byteAt data 6 * 65536 + byteAt data 7 * 256
          + byteAt data 8)
        ((data.drop 9).take
          (min (byteAt data 0 * 65536 + byteAt data 1 * 256 + byteAt data 2)
            (data.length - 9))) := by
  have h0 := byteAt_lt data 0
  have h1 := byteAt_lt data 1
  have h2 := byteAt_lt data 2
  have h5 : byteAt data 5 &&& 0x7F = byteAt data 5 % 128 := byte_and_7F (data.getD 5 0)
  have h6 := byteAt_lt data 6
  have h7 := byteAt_lt data 7
  have h8 := byteAt_lt data 8
  simp only [parseHTTP2Frame, toUInt32]
  rw [if_neg (by omega), be24_eq _ _ _ h1 h2, be32_eq _ _ _ _ h6 h7 h8, h5,
    Nat.mod_eq_of_lt (by omega), Nat.mod_eq_of_lt (by omega)]
  congr 1
  by_cases hp : data.length > 9 ∧ byteAt data 0 * 65536 + byteAt data 1 * 256 + byteAt data 2 > 0
  · rw [if_pos hp]
  · rw [if_neg hp]
    have hz : min (byteAt data 0 * 65536 + byteAt data 1 * 256 + byteAt data 2)
        (data.length - 9) = 0 := by omega
    rw [hz, List.take_zero]

/-- C9: for every buffer of at least 9 bytes, `parseHTTP2Frame` returns the 24-bit
big-endian length of bytes 0-2, the type in byte 3, the flags in byte 4 and the stream
identifier `(b5 mod 128) * 2^24 + b6 * 65536 + b7 * 256 + b8`; hence the length is below
`2^24`, the stream identifier is below `2^31`, and replacing byte 5 by any byte with the
same low seven bits leaves the whole result unchanged. -/
theorem parseHTTP2Frame_header (data : List Byte) (hlen : 9 ≤ data.length) :
    (parseHTTP2Frame data).length
        = byteAt data 0 * 65536 + byteAt data 1 * 256 + byteAt data 2
      ∧ (parseHTTP2Frame data).type = byteAt data 3
      ∧ (parseHTTP2Frame data).flags = byteAt data 4
      ∧ (parseHTTP2Frame data).streamId
          = byteAt data 5 % 128 * 2 ^ 24 + byteAt data 6 * 65536 + byteAt data 7 * 256
            + byteAt data 8
      ∧ (parseHTTP2Frame data).length < 2 ^ 24
      ∧ (parseHTTP2Frame data).streamId < 2 ^ 31
      ∧ ∀ b5 : Byte, b5.val % 128 = byteAt data 5 % 128 →
          parseHTTP2Frame (data.set 5 b5) = parseHTTP2Frame data := by
  have h0 := byteAt_lt data 0
  have h1 := byteAt_lt data 1
  have h2 := byteAt_lt data 2
  have h6 := byteAt_lt data 6
  have h7 := byteAt_lt data 7
  have h8 := byteAt_lt data 8
  rw [parseHTTP2Frame_eq data hlen]
  refine ⟨rfl, rfl, rfl, by norm_num, ?_, ?_, ?_⟩
  · show byteAt data 0 * 65536 + byteAt data 1 * 256 + byteAt data 2 < 2 ^ 24
    omega
  · show byteAt data 5 % 128 * 16777216 + byteAt data 6 * 65536 + byteAt data 7 * 256
      + byteAt data 8 < 2 ^ 31
    omega
  · intro b5 hb5
    have hlen2 : 9 ≤ (data.set 5 b5).length := by rw [List.length_set]; exact hlen
    rw [parseHTTP2Frame_eq _ hlen2, List.length_set,
      byteAt_set_ne data 0 5 b5 (by decide), byteAt_set_ne data 1 5 b5 (by decide),
      byteAt_set_ne data 2 5 b5 (by decide), byteAt_set_ne data 3 5 b5 (by decide),
      byteAt_set_ne data 4 5 b5 (by decide), byteAt_set_ne data 6 5 b5 (by decide),
      byteAt_set_ne data 7 5 b5 (by decide), byteAt_set_ne data 8 5 b5 (by decide),
      byteAt_set_self data 5 b5 (by omega), hb5, List.drop_set_of_lt b5 data (by decide)]

/-- Witness of `parseHTTP2Frame_header`: the bare SETTINGS header decodes to length 0,
type 4, flags 0, stream 0. -/
theorem parseHTTP2Frame_header_witness :
    (parseHTTP2Frame settingsHeader).length = 0
      ∧ (parseHTTP2Frame settingsHeader).type = 4
      ∧ (parseHTTP2Frame settingsHeader).flags = 0
      ∧ (parseHTTP2Frame settingsHeader).streamId = 0 :=
  have h := parseHTTP2Frame_header settingsHeader (by decide)
  ⟨h.1.trans (by decide), h.2.1.trans (by decide), h.2.2.1.trans (by decide),
    h.2.2.2.1.trans (by decide)⟩

/-- C10: for every buffer of at least 9 bytes, the payload returned by `parseHTTP2Frame`
is the first `min length (size - 9)` of the bytes that follow the 9-byte header, in order;
it has exactly that many bytes, it is empty for a 9-byte buffer, and it is never longer
than the declared length. -/
theorem parseHTTP2Frame_payload (data : List Byte) (hlen : 9 ≤ data.length) :
    (parseHTTP2Frame data).payload
        = (data.drop 9).take (min (parseHTTP2Frame data).length (data.length - 9))
      ∧ (parseHTTP2Frame data).payload.length
          = min (parseHTTP2Frame data).length (data.length - 9)
      ∧ (data.length = 9 → (parseHTTP2Frame data).payload = [])
      ∧ (parseHTTP2Frame data).payload.length ≤ (parseHTTP2Frame data).length := by
  rw [parseHTTP2Frame_eq data hlen]
  refine ⟨rfl, ?_, ?_, ?_⟩
  · simp only [List.length_take, List.length_drop]
    omega
  · intro h9
    simp only [h9, Nat.sub_self, Nat.min_zero, List.take_zero]
  · simp only [List.length_take, List.length_drop]
    omega

/-- Witness of `parseHTTP2Frame_payload`: a frame declaring 5 bytes followed by 7 bytes
yields the first 5 of them; a bare 9-byte header declaring 5 bytes yields no payload. -/
theorem parseHTTP2Frame_payload_witness :
    (parseHTTP2Frame dataFrame).payload = asciiBytes "Hello"
      ∧ ((parseHTTP2Frame truncatedFrame).length = 5
          ∧ (parseHTTP2Frame truncatedFrame).payload = []) :=
  ⟨(parseHTTP2Frame_payload dataFrame (by decide)).1.trans (by decide),
    by decide,
    (parseHTTP2Frame_payload truncatedFrame (by decide)).2.2.1 (by decide)⟩

/-! ## Decoding: `parseWebSocket` -/

set_option maxRecDepth 100000 in
/-- The mask `0x30` followed by a shift by 4 extracts binary digits 4 and 5 of a byte. -/
theorem byte_and_30_shr : ∀ b : Byte, (b.val &&& 0x30) >>> 4 = b.val / 16 % 4 := by decide

/-- The length loop of `parseWebSocket` reads the big-endian value of bytes 2-9. -/
theorem lengthLoop_eq (data : List Byte) :
    (List.range 8).foldl (fun acc i => toUInt64 ((acc <<< 8) ||| byteAt data (2 + i))) 0
      = bigEndian data 2 8 := by
  have h2 := byteAt_lt data 2
  have h3 := byteAt_lt data 3
  have h4 := byteAt_lt data 4
  have h5 := byteAt_lt data 5
  have h6 := byteAt_lt data 6
  have h7 := byteAt_lt data 7
  have h8 := byteAt_lt data 8
  have h9 := byteAt_lt data 9
  have hr : List.range 8 = [0, 1, 2, 3, 4, 5, 6, 7] := by decide
  rw [hr]
  simp only [List.foldl_cons, List.foldl_nil, toUInt64, bigEndian, Nat.add_zero, Nat.reduceAdd]
  rw [shl_or_byte _ _ h2, shl_or_byte _ _ h3, shl_or_byte _ _ h4, shl_or_byte _ _ h5,
    shl_or_byte _ _ h6, shl_or_byte _ _ h7, shl_or_byte _ _ h8, shl_or_byte _ _ h9]
  omega

/-- The guarded payload copy of the decoders equals the unguarded slice: when the guard
fails the slice is empty. -/
theorem payload_copy_eq (data : List Byte) (headerSize payloadLength : Nat) :
    (if data.length > headerSize ∧ payloadLength > 0 then
        (data.drop headerSize).take (min payloadLength (data.length - headerSize))
      else [])
      = (data.drop headerSize).take (min payloadLength (data.length - headerSize)) := by
  by_cases hp : data.length > headerSize ∧ payloadLength > 0
  · rw [if_pos hp]
  · rw [if_neg hp]
    have hz : min payloadLength (data.length - headerSize) = 0 := by omega
    rw [hz, List.take_zero]

/-- The result of `parseWebSocket` on a buffer of at least 2 bytes, in arithmetic terms. -/
theorem parseWebSocket_eq (data : List Byte) (hlen : 2 ≤ data.length) :
    parseWebSocket data =
      WebSocketFrame.mk (decide (128 ≤ byteAt data 0)) (byteAt data 0 % 16)
        (decide (128 ≤ byteAt data 1))
        (if byteAt data 1 % 128 = 126 ∧ 4 ≤ data.length then bigEndian data 2 2
          else if byteAt data 1 % 128 = 127 ∧ 10 ≤ data.length then bigEndian data 2 8
          else byteAt data 1 % 128)
        ((data.drop (webSocketHeaderSize data)).take
          (min (if byteAt data 1 % 128 = 126 ∧ 4 ≤ data.length then bigEndian data 2 2
              else if byteAt data 1 % 128 = 127 ∧ 10 ≤ data.length then bigEndian data 2 8
              else byteAt data 1 % 128)
            (data.length - webSocketHeaderSize data))) := by
  have h3 := byteAt_lt data 3
  have hfin : decide (byteAt data 0 &&& 0x80 ≠ 0) = decide (128 ≤ byteAt data 0) :=
    decide_eq_decide.mpr (byte_and_80 (data.getD 0 0))
  have hop : byteAt data 0 &&& 0x0F = byteAt data 0 % 16 := byte_and_0F (data.getD 0 0)
  have hmask : decide (byteAt data 1 &&& 0x80 ≠ 0) = decide (128 ≤ byteAt data 1) :=
    decide_eq_decide.mpr (byte_and_80 (data.getD 1 0))
  have hlow : byteAt data 1 &&& 0x7F = byteAt data 1 % 128 := byte_and_7F (data.getD 1 0)
  have h16 : toUInt64 ((byteAt data 2 <<< 8) ||| byteAt data 3) = bigEndian data 2 2 := by
    have h2 := byteAt_lt data 2
    rw [shl_or_byte _ _ h3]
    simp only [toUInt64, bigEndian, Nat.add_zero, Nat.reduceAdd]
    omega
  simp only [parseWebSocket]
  rw [if_neg (by omega), payload_copy_eq, hfin, hop, hmask, hlow, h16, lengthLoop_eq]
  unfold webSocketHeaderSize
  by_cases c1 : byteAt data 1 % 128 = 126 ∧ 4 ≤ data.length
  · have c1b : byteAt data 1 % 128 = 126 ∧ data.length ≥ 4 := c1
    by_cases cm : 128 ≤ byteAt data 1
    · simp only [if_pos c1, if_pos c1b, if_pos cm, decide_eq_true cm, if_true]
    · simp only [if_pos c1, if_pos c1b, if_neg cm, decide_eq_false cm, if_false, Nat.add_zero]
      rfl
  · have c1b : ¬ (byteAt data 1 % 128 = 126 ∧ data.length ≥ 4) := c1
    by_cases c2 : byteAt data 1 % 128 = 127 ∧ 10 ≤ data.length
    · have c2b : byteAt data 1 % 128 = 127 ∧ data.length ≥ 10 := c2
      by_cases cm : 128 ≤ byteAt data 1
      · simp only [if_neg c1, if_neg c1b, if_pos c2, if_pos c2b, if_pos cm,
          decide_eq_true cm, if_true]
      · simp only [if_neg c1, if_neg c1b, if_pos c2, if_pos c2b, if_neg cm,
          decide_eq_false cm, if_false, Nat.add_zero]
        rfl
    · have c2b : ¬ (byteAt data 1 % 128 = 127 ∧ data.length ≥ 10) := c2
      by_cases cm : 128 ≤ byteAt data 1
      · simp only [if_neg c1, if_neg c1b, if_neg c2, if_neg c2b, if_pos cm,
          decide_eq_true cm, if_true]
      · simp only [if_neg c1, if_neg c1b, if_neg c2, if_neg c2b, if_neg cm,
          decide_eq_false cm, if_false, Nat.add_zero]
        rfl

/-- Overwriting a position at or after the end of a big-endian field leaves its value
unchanged. -/
theorem bigEndian_set_of_le (data : List Byte) (first j : Nat) (x : Byte) :
    ∀ n : Nat, first + n ≤ j → bigEndian (data.set j x) first n = bigEndian data first n
  | 0, _ => rfl
  | n + 1, h => by
    simp only [bigEndian]
    rw [bigEndian_set_of_le data first j x n (by omega),
      byteAt_set_ne data (first + n) j x (by omega)]

/-- C11: for every buffer of at least 2 bytes, `parseWebSocket` returns `fin` = top bit of
byte 0, `opcode` = low 4 bits of byte 0, `masked` = top bit of byte 1, and `payloadLength`
= the low 7 bits of byte 1 when that is at most 125, the 16-bit big-endian value of bytes
2-3 when it is 126 and there are at least 4 bytes, the 64-bit big-endian value of bytes
2-9 when it is 127 and there are at least 10 bytes. -/
theorem parseWebSocket_header (data : List Byte) (hlen : 2 ≤ data.length) :
    (parseWebSocket data).fin = decide (128 ≤ byteAt data 0)
      ∧ (parseWebSocket data).opcode = byteAt data 0 % 16
      ∧ (parseWebSocket data).masked = decide (128 ≤ byteAt data 1)
      ∧ (byteAt data 1 % 128 ≤ 125 →
          (parseWebSocket data).payloadLength = byteAt data 1 % 128)
      ∧ (byteAt data 1 % 128 = 126 → 4 ≤ data.length →
          (parseWebSocket data).payloadLength = byteAt data 2 * 256 + byteAt data 3)
      ∧ (byteAt data 1 % 128 = 127 → 10 ≤ data.length →
          (parseWebSocket data).payloadLength
            = byteAt data 2 * 2 ^ 56 + byteAt data 3 * 2 ^ 48 + byteAt data 4 * 2 ^ 40
              + byteAt data 5 * 2 ^ 32 + byteAt data 6 * 2 ^ 24 + byteAt data 7 * 2 ^ 16
              + byteAt data 8 * 2 ^ 8 + byteAt data 9) := by
  rw [parseWebSocket_eq data hlen]
  refine ⟨rfl, rfl, rfl, ?_, ?_, ?_⟩
  · intro h
    have c1 : ¬ (byteAt data 1 % 128 = 126 ∧ 4 ≤ data.length) := fun c => by omega
    have c2 : ¬ (byteAt data 1 % 128 = 127 ∧ 10 ≤ data.length) := fun c => by omega
    simp only [if_neg c1, if_neg c2]
  · intro h h4
    simp only [if_pos (And.intro h h4), bigEndian, Nat.add_zero, Nat.reduceAdd]
    omega
  · intro h h10
    have c1 : ¬ (byteAt data 1 % 128 = 126 ∧ 4 ≤ data.length) := fun c => by omega
    simp only [if_neg c1, if_pos (And.intro h h10), bigEndian, Nat.add_zero, Nat.reduceAdd]
    omega

/-- Witness of `parseWebSocket_header`: `81 05 "Hello"` has fin set, opcode 1, no mask and
inline length 5; `81 7E 00 05 ...` has 16-bit length 5; `82 7F 00 .. 03 ...` has 64-bit
length 3. -/
theorem parseWebSocket_header_witness :
    ((parseWebSocket helloTextFrame).fin = true
      ∧ (parseWebSocket helloTextFrame).opcode = 1
      ∧ (parseWebSocket helloTextFrame).masked = false
      ∧ (parseWebSocket helloTextFrame).payloadLength = 5)
    ∧ (parseWebSocket helloExtendedFrame).payloadLength = 5
    ∧ (parseWebSocket longLengthFrame).payloadLength = 3 :=
  have h := parseWebSocket_header helloTextFrame (by decide)
  ⟨⟨h.1.trans (by decide), h.2.1.trans (by decide), h.2.2.1.trans (by decide),
      (h.2.2.2.1 (by decide)).trans (by decide)⟩,
    ((parseWebSocket_header helloExtendedFrame (by decide)).2.2.2.2.1 (by decide)
      (by decide)).trans (by decide),
    ((parseWebSocket_header longLengthFrame (by decide)).2.2.2.2.2 (by decide)
      (by decide)).trans (by decide)⟩

/-- C12: for every buffer of at least 2 bytes, with `headerSize` = 2, 4 or 10 according
to the length encoding read, plus 4 when the masked bit is set (so between 2 and 14), the
payload returned by `parseWebSocket` is the slice of the input at offsets
`[headerSize, headerSize + min payloadLength (size - headerSize))`, hence empty when
`size ≤ headerSize`; and when the masked bit is set, replacing any of the 4 masking-key
bytes (offsets `headerSize - 4 .. headerSize - 1`) by any byte leaves the whole result
unchanged. -/
theorem parseWebSocket_payload (data : List Byte) (hlen : 2 ≤ data.length) :
    (2 ≤ webSocketHeaderSize data ∧ webSocketHeaderSize data ≤ 14)
      ∧ (parseWebSocket data).payload
          = (data.drop (webSocketHeaderSize data)).take
              (min (parseWebSocket data).payloadLength
                (data.length - webSocketHeaderSize data))
      ∧ (data.length ≤ webSocketHeaderSize data → (parseWebSocket data).payload = [])
      ∧ (∀ (j : Nat) (x : Byte), 128 ≤ byteAt data 1 →
          webSocketHeaderSize data - 4 ≤ j → j < webSocketHeaderSize data →
          parseWebSocket (data.set j x) = parseWebSocket data) := by
  refine ⟨?_, ?_, ?_, ?_⟩
  · unfold webSocketHeaderSize
    split_ifs <;> omega
  · rw [parseWebSocket_eq data hlen]
  · intro h
    rw [parseWebSocket_eq data hlen]
    have hz : data.length - webSocketHeaderSize data = 0 := by omega
    simp only [hz, Nat.min_zero, List.take_zero]
  · intro j x hm hj1 hj2
    have hbase : 2 ≤ webSocketHeaderSize data - 4 := by
      unfold webSocketHeaderSize
      rw [if_pos hm]
      split_ifs <;> omega
    have hb0 := byteAt_set_ne data 0 j x (by omega)
    have hb1 := byteAt_set_ne data 1 j x (by omega)
    have hhs : webSocketHeaderSize (data.set j x) = webSocketHeaderSize data := by
      unfold webSocketHeaderSize
      rw [hb1, List.length_set]
    rw [parseWebSocket_eq _ (by rw [List.length_set]; exact hlen),
      parseWebSocket_eq data hlen, hhs, hb0, hb1, List.length_set,
      List.drop_set_of_lt x data hj2]
    by_cases c1 : byteAt data 1 % 128 = 126 ∧ 4 ≤ data.length
    · have hj : 2 + 2 ≤ j := by
        unfold webSocketHeaderSize at hj1
        rw [if_pos c1, if_pos hm] at hj1
        omega
      simp only [if_pos c1, bigEndian_set_of_le data 2 j x 2 hj]
    · by_cases c2 : byteAt data 1 % 128 = 127 ∧ 10 ≤ data.length
      · have hj : 2 + 8 ≤ j := by
          unfold webSocketHeaderSize at hj1
          rw [if_neg c1, if_pos c2, if_pos hm] at hj1
          omega
        simp only [if_neg c1, if_pos c2, bigEndian_set_of_le data 2 j x 8 hj]
      · simp only [if_neg c1, if_neg c2]

/-- Witness of `parseWebSocket_payload`: the masked frame `81 85 01 02 03 04 "Hello"` has
a 6-byte header and payload `Hello`, and the same result when its key byte at offset 3 is
replaced by `0xFF`. -/
theorem parseWebSocket_payload_witness :
    webSocketHeaderSize helloMaskedFrame = 6
      ∧ (parseWebSocket helloMaskedFrame).payload = asciiBytes "Hello"
      ∧ parseWebSocket (helloMaskedFrame.set 3 0xFF) = parseWebSocket helloMaskedFrame :=
  have h := parseWebSocket_payload helloMaskedFrame (by decide)
  ⟨by decide, h.2.1.trans (by decide),
    h.2.2.2 3 0xFF (by decide) (by decide) (by decide)⟩

/-- The promoted value of `lowByte n`. -/
theorem lowByte_val (n : Nat) : (lowByte n).val = n % 256 := rfl

/-- Byte 0 of an unmasked frame carries the fin flag in its top bit and the opcode in its
low four bits. -/
theorem firstByte_fields (fin : Bool) (opcode : Nat) (hop : opcode ≤ 15) :
    decide (128 ≤ ((if fin = true then 0x80 else 0) ||| opcode) % 256) = fin
      ∧ ((if fin = true then 0x80 else 0) ||| opcode) % 256 % 16 = opcode := by
  cases fin <;> interval_cases opcode <;> decide

/-- The result of `parseWebSocket` once the length field and the header size are known. -/
theorem parseWebSocket_of_fields (data : List Byte) (hlen : 2 ≤ data.length)
    (payloadLength headerSize : Nat)
    (hpl : (if byteAt data 1 % 128 = 126 ∧ 4 ≤ data.length then bigEndian data 2 2
          else if byteAt data 1 % 128 = 127 ∧ 10 ≤ data.length then bigEndian data 2 8
          else byteAt data 1 % 128) = payloadLength)
    (hhs : webSocketHeaderSize data = headerSize) :
    parseWebSocket data =
      WebSocketFrame.mk (decide (128 ≤ byteAt data 0)) (byteAt data 0 % 16)
        (decide (128 ≤ byteAt data 1)) payloadLength
        ((data.drop headerSize).take (min payloadLength (data.length - headerSize))) := by
  rw [parseWebSocket_eq data hlen, hpl, hhs]

/-- C13: decoding inverts framing for unmasked frames. For every fin flag, every opcode
in 0..15 and every payload `p` (of fewer than `2^64` bytes, as every buffer in memory),
`parseWebSocket` maps the canonical unmasked frame of `p` to `fin`, `opcode`,
`masked = false`, `payloadLength = |p|` and `payload = p`. -/
theorem parseWebSocket_unmaskedFrame (fin : Bool) (opcode : Nat) (p : List Byte)
    (hop : opcode ≤ 15) (hsize : p.length < 2 ^ 64) :
    parseWebSocket (unmaskedFrame fin opcode p)
      = WebSocketFrame.mk fin opcode false p.length p := by
  obtain ⟨hfin, hopc⟩ := firstByte_fields fin opcode hop
  have hb0 : byteAt (unmaskedFrame fin opcode p) 0
      = ((if fin = true then 0x80 else 0) ||| opcode) % 256 := by
    simp [unmaskedFrame, byteAt, lowByte_val]
  by_cases h1 : p.length ≤ 125
  · have hlen : (unmaskedFrame fin opcode p).length = p.length + 2 := by
      simp [unmaskedFrame, canonicalLengthField, h1]
    have hb1 : byteAt (unmaskedFrame fin opcode p) 1 = p.length := by
      simp [unmaskedFrame, canonicalLengthField, h1, byteAt, lowByte_val]
      omega
    have hdrop : (unmaskedFrame fin opcode p).drop 2 = p := by
      simp [unmaskedFrame, canonicalLengthField, h1]
    have c1 : ¬ (p.length % 128 = 126 ∧ 4 ≤ p.length + 2) := fun c => by omega
    have c2 : ¬ (p.length % 128 = 127 ∧ 10 ≤ p.length + 2) := fun c => by omega
    have cm : ¬ 128 ≤ p.length := by omega
    have hmod : p.length % 128 = p.length := by omega
    rw [parseWebSocket_of_fields _ (by omega) p.length 2
        (by rw [hb1, hlen, if_neg c1, if_neg c2, hmod])
        (by unfold webSocketHeaderSize; rw [hb1, hlen, if_neg c1, if_neg c2, if_neg cm]),
      hb0, hb1, hfin, hopc, decide_eq_false cm, hdrop, hlen,
      show p.length + 2 - 2 = p.length by omega, Nat.min_self, List.take_length]
  · by_cases h2 : p.length ≤ 65535
    · have hlen : (unmaskedFrame fin opcode p).length = p.length + 4 := by
        simp [unmaskedFrame, canonicalLengthField, h1, h2]
      have hb1 : byteAt (unmaskedFrame fin opcode p) 1 = 126 := by
        simp [unmaskedFrame, canonicalLengthField, h1, h2, byteAt]
        rfl
      have hb2 : byteAt (unmaskedFrame fin opcode p) 2 = p.length / 2 ^ 8 % 256 := by
        simp [unmaskedFrame, canonicalLengthField, h1, h2, byteAt, lowByte_val]
      have hb3 : byteAt (unmaskedFrame fin opcode p) 3 = p.length % 256 := by
        simp [unmaskedFrame, canonicalLengthField, h1, h2, byteAt, lowByte_val]
      have hdrop : (unmaskedFrame fin opcode p).drop 4 = p := by
        simp [unmaskedFrame, canonicalLengthField, h1, h2]
      have c1 : (126 % 128 = 126 ∧ 4 ≤ p.length + 4) := ⟨by decide, by omega⟩
      have cm : ¬ 128 ≤ 126 := by decide
      have hbe : bigEndian (unmaskedFrame fin opcode p) 2 2 = p.length := by
        simp only [bigEndian, Nat.add_zero, Nat.reduceAdd, hb2, hb3]
        omega
      rw [parseWebSocket_of_fields _ (by omega) p.length 4
          (by rw [hb1, hlen, if_pos c1, hbe])
          (by unfold webSocketHeaderSize; rw [hb1, hlen, if_pos c1, if_neg cm]),
        hb0, hb1, hfin, hopc, decide_eq_false cm, hdrop, hlen,
        show p.length + 4 - 4 = p.length by omega, Nat.min_self, List.take_length]
    · have hlen : (unmaskedFrame fin opcode p).length = p.length + 10 := by
        simp [unmaskedFrame, canonicalLengthField, h1, h2]
      have hb1 : byteAt (unmaskedFrame fin opcode p) 1 = 127 := by
        simp [unmaskedFrame, canonicalLengthField, h1, h2, byteAt]
        rfl
      have hb2 : byteAt (unmaskedFrame fin opcode p) 2 = p.length / 2 ^ 56 % 256 := by
        simp [unmaskedFrame, canonicalLengthField, h1, h2, byteAt, lowByte_val]
      have hb3 : byteAt (unmaskedFrame fin opcode p) 3 = p.length / 2 ^ 48 % 256 := by
        simp [unmaskedFrame, canonicalLengthField, h1, h2, byteAt, lowByte_val]
      have hb4 : byteAt (unmaskedFrame fin opcode p) 4 = p.length / 2 ^ 40 % 256 := by
        simp [unmaskedFrame, canonicalLengthField, h1, h2, byteAt, lowByte_val]
      have hb5 : byteAt (unmaskedFrame fin opcode p) 5 = p.length / 2 ^ 32 % 256 := by
        simp [unmaskedFrame, canonicalLengthField, h1, h2, byteAt, lowByte_val]
      have hb6 : byteAt (unmaskedFrame fin opcode p) 6 = p.length / 2 ^ 24 % 256 := by
        simp [unmaskedFrame, canonicalLengthField, h1, h2, byteAt, lowByte_val]
      have hb7 : byteAt (unmaskedFrame fin opcode p) 7 = p.length / 2 ^ 16 % 256 := by
        simp [unmaskedFrame, canonicalLengthField, h1, h2, byteAt, lowByte_val]
      have hb8 : byteAt (unmaskedFrame fin opcode p) 8 = p.length / 2 ^ 8 % 256 := by
        simp [unmaskedFrame, canonicalLengthField, h1, h2, byteAt, lowByte_val]
      have hb9 : byteAt (unmaskedFrame fin opcode p) 9 = p.length % 256 := by
        simp [unmaskedFrame, canonicalLengthField, h1, h2, byteAt, lowByte_val]
      have hdrop : (unmaskedFrame fin opcode p).drop 10 = p := by
        simp [unmaskedFrame, canonicalLengthField, h1, h2]
      have c1 : ¬ (127 % 128 = 126 ∧ 4 ≤ p.length + 10) := fun c => absurd c.1 (by decide)
      have c2 : (127 % 128 = 127 ∧ 10 ≤ p.length + 10) := ⟨by decide, by omega⟩
      have cm : ¬ 128 ≤ 127 := by decide
      have hbe : bigEndian (unmaskedFrame fin opcode p) 2 8 = p.length := by
        simp only [bigEndian, Nat.add_zero, Nat.reduceAdd, hb2, hb3, hb4, hb5, hb6, hb7,
          hb8, hb9]
        omega
      rw [parseWebSocket_of_fields _ (by omega) p.length 10
          (by rw [hb1, hlen, if_neg c1, if_pos c2, hbe])
          (by unfold webSocketHeaderSize; rw [hb1, hlen, if_neg c1, if_pos c2, if_neg cm]),
        hb0, hb1, hfin, hopc, decide_eq_false cm, hdrop, hlen,
        show p.length + 10 - 10 = p.length by omega, Nat.min_self, List.take_length]

/-- Witness of `parseWebSocket_unmaskedFrame`: the framing of `Hello` as a final text
frame is `81 05 "Hello"`, and it decodes to fin, opcode 1, unmasked, length 5, `Hello`. -/
theorem parseWebSocket_unmaskedFrame_witness :
    unmaskedFrame true 1 (asciiBytes "Hello") = helloTextFrame
      ∧ parseWebSocket (unmaskedFrame true 1 (asciiBytes "Hello"))
          = WebSocketFrame.mk true 1 false 5 (asciiBytes "Hello") :=
  ⟨by decide, parseWebSocket_unmaskedFrame true 1 (asciiBytes "Hello") (by decide) (by decide)⟩

/-! ## Decoding: `parseQUIC` -/

/-- C14: for every non-empty buffer, `parseQUIC` returns `isLongHeader` = top bit of byte
0; when the top bit is set and there are at least 5 bytes, `version` is the 32-bit
big-endian value of bytes 1-4, `packetType` is binary digits 4-5 of byte 0 (a value in
0..3) and the payload is all bytes from offset 5; when the top bit is clear,
`version = 0`, `packetType = 0` and the payload is all bytes from offset 1. -/
theorem parseQUIC_fields (data : List Byte) (hlen : 1 ≤ data.length) :
    (parseQUIC data).isLongHeader = decide (128 ≤ byteAt data 0)
      ∧ (128 ≤ byteAt data 0 → 5 ≤ data.length →
          (parseQUIC data).version
              = byteAt data 1 * 2 ^ 24 + byteAt data 2 * 2 ^ 16 + byteAt data 3 * 2 ^ 8
                + byteAt data 4
            ∧ (parseQUIC data).packetType = byteAt data 0 / 16 % 4
            ∧ (parseQUIC data).packetType ≤ 3
            ∧ (parseQUIC data).payload = data.drop 5)
      ∧ (byteAt data 0 < 128 →
          (parseQUIC data).version = 0
            ∧ (parseQUIC data).packetType = 0
            ∧ (parseQUIC data).payload = data.drop 1) := by
  have h1 := byteAt_lt data 1
  have h2 := byteAt_lt data 2
  have h3 := byteAt_lt data 3
  have h4 := byteAt_lt data 4
  have htop : decide (byteAt data 0 &&& 0x80 ≠ 0) = decide (128 ≤ byteAt data 0) :=
    decide_eq_decide.mpr (byte_and_80 (data.getD 0 0))
  have htype : (byteAt data 0 &&& 0x30) >>> 4 = byteAt data 0 / 16 % 4 :=
    byte_and_30_shr (data.getD 0 0)
  simp only [parseQUIC]
  rw [if_neg (by omega), htop, htype, be32_eq _ _ _ _ h2 h3 h4]
  refine ⟨rfl, ?_, ?_⟩
  · intro hb h5
    have hd : decide (128 ≤ byteAt data 0) = true := decide_eq_true hb
    have c : true = true ∧ data.length ≥ 5 := ⟨rfl, h5⟩
    have ct : true = true := rfl
    have c2 : True ∧ data.length ≥ 5 := ⟨trivial, h5⟩
    rw [hd]
    simp only [if_pos c, if_pos c2, if_pos ct, if_true, toUInt32]
    refine ⟨by omega, trivial, by omega, ?_⟩
    by_cases h6 : data.length > 5
    · rw [if_pos h6, List.take_of_length_le (by rw [List.length_drop])]
    · rw [if_neg h6, List.drop_of_length_le (by omega)]
  · intro hb
    have hd : decide (128 ≤ byteAt data 0) = false := decide_eq_false (by omega)
    have c : ¬ (false = true ∧ data.length ≥ 5) := fun c => absurd c.1 (by decide)
    have ct : ¬ (false = true) := by decide
    have c2 : ¬ (False ∧ data.length ≥ 5) := fun c => c.1
    rw [hd]
    simp only [if_neg c, if_neg c2, if_neg ct, if_false]
    refine ⟨trivial, trivial, ?_⟩
    by_cases h6 : data.length > 1
    · rw [if_pos h6, List.take_of_length_le (by rw [List.length_drop])]
    · rw [if_neg h6, List.drop_of_length_le (by omega)]

/-- Witness of `parseQUIC_fields`: `F0 00 00 00 01 07 08 09` is a long header with version
1, type 3 and payload `07 08 09`; `40 07 08` is a short header with payload `07 08`. -/
theorem parseQUIC_fields_witness :
    ((parseQUIC quicLongPacket).isLongHeader = true
      ∧ (parseQUIC quicLongPacket).version = 1
      ∧ (parseQUIC quicLongPacket).packetType = 3
      ∧ (parseQUIC quicLongPacket).payload = [7, 8, 9])
    ∧ ((parseQUIC quicShortPacket).isLongHeader = false
      ∧ (parseQUIC quicShortPacket).version = 0
      ∧ (parseQUIC quicShortPacket).payload = [7, 8]) :=
  have hl := parseQUIC_fields quicLongPacket (by decide)
  have hs := parseQUIC_fields quicShortPacket (by decide)
  have hl2 := hl.2.1 (by decide) (by decide)
  have hs2 := hs.2.2 (by decide)
  ⟨⟨hl.1.trans (by decide), hl2.1.trans (by decide), hl2.2.1.trans (by decide),
      hl2.2.2.2.trans (by decide)⟩,
    ⟨hs.1.trans (by decide), hs2.1, hs2.2.2.trans (by decide)⟩⟩

/-! ## Truncated input -/

/-- C15: truncated input yields the zero-valued record: `parseHTTP2Frame` on fewer than 9
bytes, `parseQUIC` on the empty buffer and `parseWebSocket` on fewer than 2 bytes return
all numeric fields 0, all flags false and an empty payload. -/
theorem parse_truncated_is_default :
    (∀ data : List Byte, data.length < 9 → parseHTTP2Frame data = HTTP2Frame.mk 0 0 0 0 [])
      ∧ (∀ data : List Byte, data.length < 1 → parseQUIC data = QUICPacket.mk 0 false 0 [])
      ∧ (∀ data : List Byte, data.length < 2 →
          parseWebSocket data = WebSocketFrame.mk false 0 false 0 []) := by
  refine ⟨?_, ?_, ?_⟩
  · intro data h
    simp only [parseHTTP2Frame]
    rw [if_pos h]
  · intro data h
    simp only [parseQUIC]
    rw [if_pos h]
  · intro data h
    simp only [parseWebSocket]
    rw [if_pos h]

/-- Witness of `parse_truncated_is_default`: an 8-byte buffer, the empty buffer and a
1-byte buffer. -/
theorem parse_truncated_is_default_witness :
    parseHTTP2Frame (settingsHeader.take 8) = HTTP2Frame.mk 0 0 0 0 []
      ∧ parseQUIC [] = QUICPacket.mk 0 false 0 []
      ∧ parseWebSocket [0x81] = WebSocketFrame.mk false 0 false 0 [] :=
  ⟨parse_truncated_is_default.1 (settingsHeader.take 8) (by decide),
    parse_truncated_is_default.2.1 [] (by decide),
    parse_truncated_is_default.2.2 [0x81] (by decide)⟩

/-! ## Detector and decoder together -/

/-- C16 (as stated, refuted): the 24-byte connection preface on port 443 is classified
`"HTTP/2"`, and `parseHTTP2Frame` on it returns length `0x505249 = 5263945` and type
`0x20 = 32`. -/
theorem detect_http2_preface_exceeds_cap :
    detectModernProtocol fullPreface 443 = "HTTP/2"
      ∧ (parseHTTP2Frame fullPreface).length = 5263945
      ∧ (parseHTTP2Frame fullPreface).type = 32
      ∧ ¬ ((parseHTTP2Frame fullPreface).length ≤ 16384
            ∧ (parseHTTP2Frame fullPreface).type ≤ 10) := by
  decide

/-- C16 (amended): for every buffer and port for which `detectModernProtocol` returns
`"HTTP/2"`, if the buffer does not start with the 14-byte preface magic then
`parseHTTP2Frame` on the same buffer returns a frame with length at most 16384 and type at
most 10. -/
theorem detect_http2_caps_frame (data : List Byte) (port : Nat)
    (hdet : detectModernProtocol data port = "HTTP/2")
    (hmagic : data.take 14 ≠ asciiBytes "PRI * HTTP/2.0") :
    (parseHTTP2Frame data).length ≤ 16384 ∧ (parseHTTP2Frame data).type ≤ 10 := by
  have hm : ¬ memcmpEq data http2_preface 14 = true :=
    fun h => hmagic ((memcmpEq_preface_iff data).mp h)
  unfold detectModernProtocol at hdet
  by_cases h4 : data.length < 4
  · rw [if_pos h4] at hdet
    exact absurd hdet (by decide)
  · rw [if_neg h4, if_neg (fun h => hm h.2.2)] at hdet
    by_cases hf : (port = 80 ∨ port = 443) ∧ data.length ≥ 24 ∧ isHTTP2Frame data = true
    · have hfr := (isHTTP2Frame_iff data).mp hf.2.2
      rw [parseHTTP2Frame_eq data hfr.1]
      exact ⟨hfr.2.1, hfr.2.2⟩
    · rw [if_neg hf] at hdet
      split_ifs at hdet <;> exact absurd hdet (by decide)

/-- Witness of `detect_http2_caps_frame`: a 24-byte buffer starting with a SETTINGS
header is classified `"HTTP/2"` and decodes to length 0 and type 4. -/
theorem detect_http2_caps_frame_witness :
    (parseHTTP2Frame (settingsHeader ++ List.replicate 15 0)).length ≤ 16384
      ∧ (parseHTTP2Frame (settingsHeader ++ List.replicate 15 0)).type ≤ 10 :=
  detect_http2_caps_frame (settingsHeader ++ List.replicate 15 0) 443 (by decide) (by decide)

/-! ## Every read is in bounds -/

/-- A checked read below the size succeeds with the byte read. -/
theorem byteAt?_of_lt (data : List Byte) (i : Nat) (h : i < data.length) :
    byteAt? data i = some (byteAt data i) := by
  unfold byteAt?
  rw [if_pos h]

/-- A checked range read inside the buffer succeeds with the bytes read. -/
theorem slice?_of_le (data : List Byte) (first last : Nat) (h1 : first ≤ last)
    (h2 : last ≤ data.length) :
    slice? data first last = some ((data.drop first).take (last - first)) := by
  unfold slice?
  rw [if_pos ⟨h1, h2⟩]

/-- The checked `isHTTP2Frame` never fails and agrees with the unchecked one. -/
theorem isHTTP2FrameChecked_eq (data : List Byte) :
    isHTTP2FrameChecked data = some (isHTTP2Frame data) := by
  unfold isHTTP2FrameChecked isHTTP2Frame
  by_cases h : data.length < 9
  · simp [h]
  · simp [h, byteAt?_of_lt data 0 (by omega), byteAt?_of_lt data 1 (by omega),
      byteAt?_of_lt data 2 (by omega), byteAt?_of_lt data 3 (by omega)]

/-- The checked `isQUICPacket` never fails and agrees with the unchecked one. -/
theorem isQUICPacketChecked_eq (data : List Byte) :
    isQUICPacketChecked data = some (isQUICPacket data) := by
  unfold isQUICPacketChecked isQUICPacket
  by_cases h : data.length < 1
  · simp [h]
  · by_cases h5 : data.length ≥ 5
    · by_cases ht : byteAt data 0 &&& 0x80 ≠ 0
      · simp [h, h5, ht, byteAt?_of_lt data 0 (by omega), byteAt?_of_lt data 1 (by omega),
          byteAt?_of_lt data 2 (by omega), byteAt?_of_lt data 3 (by omega),
          byteAt?_of_lt data 4 (by omega)]
      · simp [h, h5, ht, byteAt?_of_lt data 0 (by omega)]
    · by_cases ht : byteAt data 0 &&& 0x80 ≠ 0
      · simp [h, h5, ht, byteAt?_of_lt data 0 (by omega)]
      · simp [h, h5, ht, byteAt?_of_lt data 0 (by omega)]

/-- The checked `isWebSocketFrame` never fails and agrees with the unchecked one. -/
theorem isWebSocketFrameChecked_eq (data : List Byte) :
    isWebSocketFrameChecked data = some (isWebSocketFrame data) := by
  unfold isWebSocketFrameChecked isWebSocketFrame
  by_cases h : data.length < 2
  · simp [h]
  · simp [h, byteAt?_of_lt data 0 (by omega)]

/-- The checked `parseHTTP2Frame` never fails and agrees with the unchecked one. -/
theorem parseHTTP2FrameChecked_eq (data : List Byte) :
    parseHTTP2FrameChecked data = some (parseHTTP2Frame data) := by
  unfold parseHTTP2FrameChecked parseHTTP2Frame
  by_cases h : data.length < 9
  · simp [h]
  · by_cases hp : data.length > 9 ∧
        toUInt32 ((byteAt data 0 <<< 16) ||| (byteAt data 1 <<< 8) ||| byteAt data 2) > 0
    · simp [h, hp, byteAt?_of_lt data 0 (by omega), byteAt?_of_lt data 1 (by omega),
        byteAt?_of_lt data 2 (by omega), byteAt?_of_lt data 3 (by omega),
        byteAt?_of_lt data 4 (by omega), byteAt?_of_lt data 5 (by omega),
        byteAt?_of_lt data 6 (by omega), byteAt?_of_lt data 7 (by omega),
        byteAt?_of_lt data 8 (by omega),
        slice?_of_le data 9 (9 + min (toUInt32 ((byteAt data 0 <<< 16)
          ||| (byteAt data 1 <<< 8) ||| byteAt data 2)) (data.length - 9))
          (by omega) (by omega)]
    · simp [h, hp, byteAt?_of_lt data 0 (by omega), byteAt?_of_lt data 1 (by omega),
        byteAt?_of_lt data 2 (by omega), byteAt?_of_lt data 3 (by omega),
        byteAt?_of_lt data 4 (by omega), byteAt?_of_lt data 5 (by omega),
        byteAt?_of_lt data 6 (by omega), byteAt?_of_lt data 7 (by omega),
        byteAt?_of_lt data 8 (by omega)]

/-- The checked `parseQUIC` never fails and agrees with the unchecked one. -/
theorem parseQUICChecked_eq (data : List Byte) :
    parseQUICChecked data = some (parseQUIC data) := by
  unfold parseQUICChecked parseQUIC
  by_cases h : data.length < 1
  · simp [h]
  · by_cases ht : byteAt data 0 &&& 0x80 ≠ 0
    · by_cases h5 : data.length ≥ 5
      · by_cases h6 : data.length > 5
        · simp [h, ht, h5, h6, byteAt?_of_lt data 0 (by omega),
            byteAt?_of_lt data 1 (by omega), byteAt?_of_lt data 2 (by omega),
            byteAt?_of_lt data 3 (by omega), byteAt?_of_lt data 4 (by omega),
            slice?_of_le data 5 data.length (by omega) (by omega)]
        · simp [h, ht, h5, h6, byteAt?_of_lt data 0 (by omega),
            byteAt?_of_lt data 1 (by omega), byteAt?_of_lt data 2 (by omega),
            byteAt?_of_lt data 3 (by omega), byteAt?_of_lt data 4 (by omega)]
      · have h6 : ¬ data.length > 5 := by omega
        simp [h, ht, h5, h6, byteAt?_of_lt data 0 (by omega)]
    · have hz : byteAt data 0 &&& 0x80 = 0 := not_not.mp ht
      by_cases h6 : data.length > 1
      · simp [h, hz, h6, byteAt?_of_lt data 0 (by omega),
          slice?_of_le data 1 data.length (by omega) (by omega)]
      · simp [h, hz, h6, byteAt?_of_lt data 0 (by omega)]

/-- The checked length loop of `parseWebSocket` succeeds when the buffer has 10 bytes. -/
theorem lengthLoopChecked_eq (data : List Byte) (h : 10 ≤ data.length) :
    List.foldlM
        (fun acc i => (byteAt? data (2 + i)).bind fun b => some (toUInt64 ((acc <<< 8) ||| b)))
        0 (List.range 8)
      = some ((List.range 8).foldl
          (fun acc i => toUInt64 ((acc <<< 8) ||| byteAt data (2 + i))) 0) := by
  have hr : List.range 8 = [0, 1, 2, 3, 4, 5, 6, 7] := by decide
  rw [hr]
  simp [byteAt?_of_lt data 2 (by omega), byteAt?_of_lt data 3 (by omega),
    byteAt?_of_lt data 4 (by omega), byteAt?_of_lt data 5 (by omega),
    byteAt?_of_lt data 6 (by omega), byteAt?_of_lt data 7 (by omega),
    byteAt?_of_lt data 8 (by omega), byteAt?_of_lt data 9 (by omega)]

/-- The checked payload copy succeeds and returns the guarded slice. -/
theorem payloadChecked_eq {α : Type} (data : List Byte) (headerSize payloadLength : Nat)
    (f : List Byte → α) :
    (if data.length > headerSize ∧ payloadLength > 0 then
        (slice? data headerSize
          (headerSize + min payloadLength (data.length - headerSize))).bind
          fun a => some (f a)
      else some (f []))
      = some (f (if data.length > headerSize ∧ payloadLength > 0 then
          (data.drop headerSize).take (min payloadLength (data.length - headerSize))
        else [])) := by
  by_cases hp : data.length > headerSize ∧ payloadLength > 0
  · rw [if_pos hp, if_pos hp, slice?_of_le data _ _ (by omega) (by omega),
      Nat.add_sub_cancel_left]
    rfl
  · rw [if_neg hp, if_neg hp]

/-- The checked `parseWebSocket` never fails and agrees with the unchecked one. -/
theorem parseWebSocketChecked_eq (data : List Byte) :
    parseWebSocketChecked data = some (parseWebSocket data) := by
  unfold parseWebSocketChecked parseWebSocket
  by_cases h : data.length < 2
  · simp [h]
  · by_cases c1 : byteAt data 1 &&& 0x7F = 126 ∧ data.length ≥ 4
    · simp only [h, if_false, byteAt?_of_lt data 0 (by omega),
        byteAt?_of_lt data 1 (by omega), byteAt?_of_lt data 2 (by omega),
        byteAt?_of_lt data 3 (by omega), if_pos c1,
        Option.bind_eq_bind, Option.some_bind, Option.pure_def, bind_pure_comp,
        Option.map_some', pure_bind]
      exact payloadChecked_eq data _ _ (fun a => WebSocketFrame.mk _ _ _ _ a)
    · by_cases c2 : byteAt data 1 &&& 0x7F = 127 ∧ data.length ≥ 10
      · simp only [h, if_false, byteAt?_of_lt data 0 (by omega),
          byteAt?_of_lt data 1 (by omega), if_neg c1, if_pos c2,
          lengthLoopChecked_eq data c2.2,
          Option.bind_eq_bind, Option.some_bind, Option.pure_def, bind_pure_comp,
          Option.map_some', pure_bind]
        exact payloadChecked_eq data _ _ (fun a => WebSocketFrame.mk _ _ _ _ a)
      · simp only [h, if_false, byteAt?_of_lt data 0 (by omega),
          byteAt?_of_lt data 1 (by omega), if_neg c1, if_neg c2,
          Option.bind_eq_bind, Option.some_bind, Option.pure_def, bind_pure_comp,
          Option.map_some', pure_bind]
        exact payloadChecked_eq data _ _ (fun a => WebSocketFrame.mk _ _ _ _ a)

/-- The checked `detectModernProtocol` never fails and agrees with the unchecked one. -/
theorem detectModernProtocolChecked_eq (data : List Byte) (port : Nat) :
    detectModernProtocolChecked data port = some (detectModernProtocol data port) := by
  unfold detectModernProtocolChecked detectModernProtocol memcmpEq
  have hs14 : 24 ≤ data.length → slice? data 0 14 = some (data.take 14) := fun h => by
    rw [slice?_of_le data 0 14 (by omega) (by omega)]
    rfl
  have hs100 : slice? data 0 (min data.length 100) = some (data.take (min data.length 100)) := by
    rw [slice?_of_le data 0 _ (by omega) (by omega)]
    rfl
  rw [isHTTP2FrameChecked_eq, isQUICPacketChecked_eq, isWebSocketFrameChecked_eq, hs100]
  generalize http2_preface.take 14 = magic
  generalize isHTTP2Frame data = isFrame
  generalize isQUICPacket data = isQuic
  generalize isWebSocketFrame data = isWs
  by_cases h4 : data.length < 4
  · simp [h4]
  · by_cases hp : port = 80 ∨ port = 443
    · have hp2 : port = 443 ∨ port = 80 := hp.symm
      by_cases h24 : data.length ≥ 24
      · have h20 : data.length > 20 := by omega
        simp only [h4, hp, hp2, h24, h20, hs14 h24]
        by_cases hm : data.take 14 = magic <;> cases isFrame <;> cases isQuic <;> cases isWs
          <;> by_cases hf : find (data.take (min data.length 100)) grpcContentType = none <;> simp [hm, hf]
      · simp only [h4, hp, hp2, h24]
        cases isQuic <;> cases isWs <;> by_cases hf : find (data.take (min data.length 100)) grpcContentType = none
          <;> by_cases h20 : data.length > 20 <;> simp [hf, h20]
    · have hp2 : ¬ (port = 443 ∨ port = 80) := fun h => hp h.symm
      simp [h4, hp, hp2]

/-- C17: for every buffer of every length and every port, `detectModernProtocol`,
`parseHTTP2Frame`, `parseQUIC` and `parseWebSocket` read only byte indices below the
buffer length: their versions in which every read is bounds-checked never take the
out-of-range branch, and return the same result. -/
theorem reads_within_bounds (data : List Byte) (port : Nat) :
    detectModernProtocolChecked data port = some (detectModernProtocol data port)
      ∧ parseHTTP2FrameChecked data = some (parseHTTP2Frame data)
      ∧ parseQUICChecked data = some (parseQUIC data)
      ∧ parseWebSocketChecked data = some (parseWebSocket data) :=
  ⟨detectModernProtocolChecked_eq data port, parseHTTP2FrameChecked_eq data,
    parseQUICChecked_eq data, parseWebSocketChecked_eq data⟩

/-! ## Decoders on buffers shorter than the header they announce -/

/-- C37: a truncated extended length is not treated as truncation. When the low 7 bits of
byte 1 are 126 and the buffer has 2 or 3 bytes, or are 127 and the buffer has 2 to 9
bytes, `parseWebSocket` does not return the default frame: it reports `payloadLength` 126
(respectively 127), uses a header of 2 bytes (6 when the masked bit is set) and returns
all the bytes that follow that header as the payload. -/
theorem parseWebSocket_truncated_extended (data : List Byte) (hlen : 2 ≤ data.length)
    (htrunc : (byteAt data 1 % 128 = 126 ∧ data.length ≤ 3)
      ∨ (byteAt data 1 % 128 = 127 ∧ data.length ≤ 9)) :
    parseWebSocket data ≠ WebSocketFrame.mk false 0 false 0 []
      ∧ (parseWebSocket data).payloadLength = byteAt data 1 % 128
      ∧ webSocketHeaderSize data = (if 128 ≤ byteAt data 1 then 6 else 2)
      ∧ (parseWebSocket data).payload = data.drop (if 128 ≤ byteAt data 1 then 6 else 2) := by
  have c1 : ¬ (byteAt data 1 % 128 = 126 ∧ 4 ≤ data.length) := fun c => by omega
  have c2 : ¬ (byteAt data 1 % 128 = 127 ∧ 10 ≤ data.length) := fun c => by omega
  have hhs : webSocketHeaderSize data = (if 128 ≤ byteAt data 1 then 6 else 2) := by
    unfold webSocketHeaderSize
    rw [if_neg c1, if_neg c2]
    split_ifs <;> rfl
  have hpl : (if byteAt data 1 % 128 = 126 ∧ 4 ≤ data.length then bigEndian data 2 2
        else if byteAt data 1 % 128 = 127 ∧ 10 ≤ data.length then bigEndian data 2 8
        else byteAt data 1 % 128) = byteAt data 1 % 128 := by
    rw [if_neg c1, if_neg c2]
  have hframe := parseWebSocket_of_fields data hlen (byteAt data 1 % 128)
    (if 128 ≤ byteAt data 1 then 6 else 2) hpl hhs
  have hmin : min (byteAt data 1 % 128) (data.length - (if 128 ≤ byteAt data 1 then 6 else 2))
      = data.length - (if 128 ≤ byteAt data 1 then 6 else 2) := by
    split_ifs <;> omega
  have htake : ((data.drop (if 128 ≤ byteAt data 1 then 6 else 2)).take
      (data.length - (if 128 ≤ byteAt data 1 then 6 else 2)))
      = data.drop (if 128 ≤ byteAt data 1 then 6 else 2) :=
    List.take_of_length_le (by rw [List.length_drop])
  rw [hmin, htake] at hframe
  rw [hframe]
  refine ⟨?_, rfl, hhs, rfl⟩
  intro heq
  have hzero : byteAt data 1 % 128 = 0 := congrArg WebSocketFrame.payloadLength heq
  omega

/-- Witness of `parseWebSocket_truncated_extended`: `81 7E 2A` gives length 126 and the
payload `2A`; the masked `82 FF 01 .. 07` gives length 127, a 6-byte header and the
payload `05 06 07`. -/
theorem parseWebSocket_truncated_extended_witness :
    ((parseWebSocket truncatedExtended16).payloadLength = 126
      ∧ (parseWebSocket truncatedExtended16).payload = [0x2A])
    ∧ ((parseWebSocket truncatedExtended64).payloadLength = 127
      ∧ webSocketHeaderSize truncatedExtended64 = 6
      ∧ (parseWebSocket truncatedExtended64).payload = [5, 6, 7]) :=
  have h16 := parseWebSocket_truncated_extended truncatedExtended16 (by decide)
    (Or.inl (by decide))
  have h64 := parseWebSocket_truncated_extended truncatedExtended64 (by decide)
    (Or.inr (by decide))
  ⟨⟨h16.2.1.trans (by decide), h16.2.2.2.trans (by decide)⟩,
    ⟨h64.2.1.trans (by decide), h64.2.2.1.trans (by decide), h64.2.2.2.trans (by decide)⟩⟩

/-- C38: for every buffer of 1 to 4 bytes whose first byte has the top bit set,
`parseQUIC` returns `isLongHeader = true`, `version = 0`, `packetType = 0` and an empty
payload, so the bytes after the first are not returned; and for a 5-byte buffer with the
top bit set the payload is empty as well. -/
theorem parseQUIC_short_long_header (data : List Byte) (hlen : 1 ≤ data.length)
    (htop : 128 ≤ byteAt data 0) :
    (data.length ≤ 4 → parseQUIC data = QUICPacket.mk 0 true 0 [])
      ∧ (data.length = 5 →
          (parseQUIC data).isLongHeader = true ∧ (parseQUIC data).payload = []) := by
  have hd : decide (byteAt data 0 &&& 0x80 ≠ 0) = true :=
    decide_eq_true ((byte_and_80 (data.getD 0 0)).mpr htop)
  have ct : true = true := rfl
  constructor
  · intro h4
    have c : ¬ (true = true ∧ data.length ≥ 5) := fun c => by omega
    have c2 : ¬ (True ∧ data.length ≥ 5) := fun c => by omega
    have c6 : ¬ data.length > 5 := by omega
    simp only [parseQUIC]
    rw [if_neg (by omega), hd]
    simp only [if_neg c, if_neg c2, if_pos ct, if_true, if_neg c6]
  · intro h5
    have c6 : ¬ data.length > 5 := by omega
    simp only [parseQUIC]
    rw [if_neg (by omega), hd]
    simp only [if_pos ct, if_true, if_neg c6]
    exact ⟨trivial, trivial⟩

/-- Witness of `parseQUIC_short_long_header`: `C0 00 00 01` decodes to a long header with
version 0, type 0 and no payload; the 5-byte `80 00 00 00 01` has no payload. -/
theorem parseQUIC_short_long_header_witness :
    parseQUIC quicShortLongHeader = QUICPacket.mk 0 true 0 []
      ∧ (parseQUIC quicLongHeader).payload = [] :=
  ⟨(parseQUIC_short_long_header quicShortLongHeader (by decide) (by decide)).1 (by decide),
    ((parseQUIC_short_long_header quicLongHeader (by decide) (by decide)).2
      (by decide)).2⟩

end PacketAnalyzer2026.Protocols

namespace PacketAnalyzer2026.Resilience

/-! ## `CircuitBreaker::execute` -/

/-- In state `OPEN`, while the elapsed time does not exceed the reset timeout, `execute`
returns `std::nullopt` and changes neither the breaker nor the world. -/
theorem execute_open_within_timeout {σ ρ : Type} (cb : CircuitBreaker)
    (operation : σ → Except Thrown ρ × σ) (now failNow : Int) (s : σ)
    (hopen : cb.currentState_ = State.OPEN)
    (hnow : ¬ now - cb.lastFailureTime_ > cb.resetTimeout_) :
    cb.execute operation now failNow s = ExecResult.mk cb (Except.ok none) s := by
  unfold CircuitBreaker.execute CircuitBreaker.openTest
  rw [if_pos hopen, if_neg hnow]

/-- C19: for every breaker in state `OPEN` and every call time at which the time elapsed
since the last failure is less than the reset timeout, `execute` returns `std::nullopt`
(Blocked), does not invoke the operation (the world is unchanged, whatever the
operation), and leaves the state, the failure count and the last-failure time unchanged. -/
theorem execute_open_blocked {σ ρ : Type} (cb : CircuitBreaker)
    (operation : σ → Except Thrown ρ × σ) (now failNow : Int) (s : σ)
    (hopen : cb.currentState_ = State.OPEN)
    (hnow : now - cb.lastFailureTime_ < cb.resetTimeout_) :
    (cb.execute operation now failNow s).outcome = Except.ok none
      ∧ (cb.execute operation now failNow s).world = s
      ∧ (cb.execute operation now failNow s).breaker = cb
      ∧ (cb.execute operation now failNow s).breaker.currentState_ = State.OPEN
      ∧ (cb.execute operation now failNow s).breaker.failureCount_ = cb.failureCount_
      ∧ (cb.execute operation now failNow s).breaker.lastFailureTime_
          = cb.lastFailureTime_ := by
  rw [execute_open_within_timeout cb operation now failNow s hopen (by omega)]
  exact ⟨rfl, rfl, rfl, hopen, rfl, rfl⟩

/-- Witness of `execute_open_blocked`: the breaker opened at tick 100 with timeout 30,
called at tick 129, returns `std::nullopt` and leaves the call counter at 0. -/
theorem execute_open_blocked_witness :
    (openBreaker.execute succeedingOperation 129 129 0).outcome = Except.ok none
      ∧ (openBreaker.execute succeedingOperation 129 129 0).world = 0
      ∧ (openBreaker.execute succeedingOperation 129 129 0).breaker = openBreaker :=
  have h := execute_open_blocked openBreaker succeedingOperation 129 129 0 rfl (by decide)
  ⟨h.1, h.2.1, h.2.2.1⟩

/-- C20 (as stated, refuted): the breaker opened at tick 100 with a reset timeout of 30
ticks is called at tick 130, when the elapsed time equals the timeout exactly; the call
returns `std::nullopt`, the operation is not invoked and the state stays `OPEN`. -/
theorem execute_open_at_boundary_is_blocked :
    (openBreaker.currentState_ = State.OPEN
      ∧ 130 - openBreaker.lastFailureTime_ ≥ openBreaker.resetTimeout_)
    ∧ (openBreaker.execute succeedingOperation 130 130 0).outcome = Except.ok none
    ∧ (openBreaker.execute succeedingOperation 130 130 0).world = 0
    ∧ (openBreaker.execute succeedingOperation 130 130 0).breaker.currentState_
        = State.OPEN :=
  ⟨⟨rfl, by decide⟩, rfl, rfl, rfl⟩

/-- C20 (amended): for every breaker in state `OPEN`, whenever the time elapsed since the
last failure is strictly greater than the reset timeout, `execute` moves the breaker to
`HALF_OPEN` and invokes the operation in that state (the world and the outcome are those
of the operation, and the outcome is not `std::nullopt`); at the boundary where the elapsed
time equals the reset timeout the call is Blocked. -/
theorem execute_open_after_timeout {σ ρ : Type} (cb : CircuitBreaker)
    (operation : σ → Except Thrown ρ × σ) (now failNow : Int) (s : σ)
    (hopen : cb.currentState_ = State.OPEN) :
    (now - cb.lastFailureTime_ > cb.resetTimeout_ →
        cb.openTest now = some { cb with currentState_ := State.HALF_OPEN }
          ∧ cb.execute operation now failNow s
              = ({ cb with currentState_ := State.HALF_OPEN } : CircuitBreaker).attempt
                  operation failNow s
          ∧ (cb.execute operation now failNow s).world = (operation s).2
          ∧ (cb.execute operation now failNow s).outcome
              = (match (operation s).1 with
                | Except.ok r => Except.ok (some r)
                | Except.error e => Except.error e)
          ∧ (cb.execute operation now failNow s).outcome ≠ Except.ok none)
      ∧ (now - cb.lastFailureTime_ = cb.resetTimeout_ →
          cb.execute operation now failNow s = ExecResult.mk cb (Except.ok none) s) := by
  constructor
  · intro hnow
    have hg : cb.openTest now = some { cb with currentState_ := State.HALF_OPEN } := by
      unfold CircuitBreaker.openTest
      rw [if_pos hopen, if_pos hnow]
    have he : cb.execute operation now failNow s
        = ({ cb with currentState_ := State.HALF_OPEN } : CircuitBreaker).attempt
            operation failNow s := by
      unfold CircuitBreaker.execute
      rw [hg]
    rw [he]
    refine ⟨hg, rfl, ?_, ?_, ?_⟩
    · unfold CircuitBreaker.attempt
      split <;> rfl
    · unfold CircuitBreaker.attempt
      split <;> simp_all
    · unfold CircuitBreaker.attempt
      split <;> simp
  · intro hnow
    exact execute_open_within_timeout cb operation now failNow s hopen (by omega)

/-- Witness of `execute_open_after_timeout`: the breaker opened at tick 100 with timeout
30, called at tick 131 with an operation that succeeds, invokes it once, returns its value
and ends `CLOSED` with failure count 0. -/
theorem execute_open_after_timeout_witness :
    (openBreaker.execute succeedingOperation 131 131 0).world = 1
      ∧ (openBreaker.execute succeedingOperation 131 131 0).outcome = Except.ok (some 7)
      ∧ (openBreaker.execute succeedingOperation 131 131 0).breaker.currentState_
          = State.CLOSED
      ∧ (openBreaker.execute succeedingOperation 131 131 0).breaker.failureCount_ = 0 :=
  have h := (execute_open_after_timeout openBreaker succeedingOperation 131 131 0 rfl).1
    (by decide)
  ⟨h.2.2.1, h.2.2.2.1, by rw [h.2.1]; rfl, by rw [h.2.1]; rfl⟩

/-- The counter increment does not wrap below `INT_MAX`. -/
theorem toInt32_succ (c : Int) (h0 : 0 ≤ c) (hmax : c < 2147483647) :
    toInt32 (c + 1) = c + 1 := by
  unfold toInt32
  omega

/-- One failing call on a `CLOSED` breaker: the operation is invoked, its exception is
re-thrown, the counter grows by one and the breaker opens when the threshold is reached. -/
theorem execute_closed_failure {σ ρ : Type} (cb : CircuitBreaker)
    (operation : σ → Except Thrown ρ × σ) (now failNow : Int) (s : σ) (what : String)
    (hclosed : cb.currentState_ = State.CLOSED)
    (hop : (operation s).1 = Except.error (Thrown.stdException what))
    (h0 : 0 ≤ cb.failureCount_) (hmax : cb.failureCount_ < 2147483647) :
    cb.execute operation now failNow s =
      ExecResult.mk
        (CircuitBreaker.mk cb.name_
          (if cb.failureCount_ + 1 ≥ cb.failureThreshold_ then State.OPEN else State.CLOSED)
          (cb.failureCount_ + 1) cb.failureThreshold_ failNow cb.resetTimeout_)
        (Except.error (Thrown.stdException what)) (operation s).2 := by
  have hg : cb.openTest now = some cb := by
    unfold CircuitBreaker.openTest
    rw [if_neg (by rw [hclosed]; decide)]
  unfold CircuitBreaker.execute
  rw [hg]
  simp only [CircuitBreaker.attempt, hop, toInt32_succ _ h0 hmax, hclosed]
  by_cases ht : cb.failureCount_ + 1 ≥ cb.failureThreshold_
  · simp only [if_pos ht]
  · simp only [if_neg ht]
    rfl

/-- A run of failing calls on a `CLOSED` breaker that stays within the threshold: every
operation is invoked, the counter grows by the number of calls, and the breaker is `OPEN`
at the end exactly when the counter has reached the threshold. -/
theorem executeAll_failures {σ ρ : Type} :
    ∀ (calls : List (Call σ ρ)) (cb : CircuitBreaker) (s : σ),
      cb.currentState_ = State.CLOSED → 0 ≤ cb.failureCount_ →
      cb.failureCount_ + calls.length ≤ cb.failureThreshold_ →
      cb.failureThreshold_ ≤ 2147483647 →
      (∀ c ∈ calls, ∀ w, ∃ what,
        (c.operation w).1 = Except.error (Thrown.stdException what)) →
      (executeAll cb s calls).2 = invokeAll s calls
        ∧ (executeAll cb s calls).1.failureCount_ = cb.failureCount_ + calls.length
        ∧ (executeAll cb s calls).1.currentState_
            = (if calls.length = 0 ∨ cb.failureCount_ + calls.length < cb.failureThreshold_
                then State.CLOSED else State.OPEN)
        ∧ (executeAll cb s calls).1.resetTimeout_ = cb.resetTimeout_
  | [], cb, s, hclosed, _, _, _, _ => by
    simp [executeAll, invokeAll, hclosed]
  | c :: rest, cb, s, hclosed, h0, hle, hmax, hfail => by
    obtain ⟨what, hop⟩ := hfail c (List.mem_cons_self c rest) s
    have hlen : (c :: rest).length = rest.length + 1 := List.length_cons c rest
    have hstep := execute_closed_failure cb c.operation c.now c.failNow s what hclosed hop h0
      (by omega)
    by_cases hrest : rest.length = 0
    · have hnil : rest = [] := List.length_eq_zero.mp hrest
      subst hnil
      simp only [executeAll, invokeAll, hstep, List.foldl_cons, List.foldl_nil,
        List.length_cons, List.length_nil]
      refine ⟨trivial, by omega, ?_, trivial⟩
      by_cases ht : cb.failureCount_ + 1 ≥ cb.failureThreshold_
      · rw [if_pos ht, if_neg (by omega)]
      · rw [if_neg ht, if_pos (by omega)]
    · have hnot : ¬ cb.failureCount_ + 1 ≥ cb.failureThreshold_ := by omega
      have ih := executeAll_failures rest
        (CircuitBreaker.mk cb.name_ State.CLOSED (cb.failureCount_ + 1) cb.failureThreshold_
          c.failNow cb.resetTimeout_) (c.operation s).2 rfl
        (by show 0 ≤ cb.failureCount_ + 1; omega)
        (by show cb.failureCount_ + 1 + (rest.length : Int) ≤ cb.failureThreshold_; omega)
        hmax (fun d hd => hfail d (List.mem_cons_of_mem c hd))
      simp only [executeAll, hstep, if_neg hnot]
      refine ⟨ih.1, ?_, ?_, ih.2.2.2⟩
      · rw [ih.2.1]
        show cb.failureCount_ + 1 + (rest.length : Int) = cb.failureCount_ + ((c :: rest).length : Int)
        rw [hlen]; push_cast; omega
      · rw [ih.2.2.1]
        show (if rest.length = 0 ∨ cb.failureCount_ + 1 + (rest.length : Int) < cb.failureThreshold_
            then State.CLOSED else State.OPEN) = _
        by_cases hk : cb.failureCount_ + 1 + (rest.length : Int) < cb.failureThreshold_
        · rw [if_pos (Or.inr hk), if_pos (Or.inr (by rw [hlen]; push_cast; omega))]
        · rw [if_neg (by intro h; rcases h with h | h; exact hrest h; exact hk h),
            if_neg (by intro h; rcases h with h | h; simp at h; rw [hlen] at h; push_cast at h; omega)]

/-- C18 (amended): for every failure threshold `n ≥ 1` (within the range of `int`), on a
freshly constructed breaker, `n` consecutive `execute` calls whose operation fails with a
`std::exception` each invoke the operation; the breaker is `CLOSED` after each of the
first `n - 1` and `OPEN` after the `n`-th; and a further call made while the time elapsed
since the last failure is less than the reset timeout returns `std::nullopt` (Blocked)
without invoking its operation. -/
theorem execute_threshold_failures_open {σ ρ : Type} (n : Nat) (name : String)
    (timeout : Int) (calls : List (Call σ ρ)) (s : σ)
    (hn : 1 ≤ n) (hmax : n ≤ 2147483647) (hlen : calls.length = n)
    (hfail : ∀ c ∈ calls, ∀ w, ∃ what,
      (c.operation w).1 = Except.error (Thrown.stdException what)) :
    (∀ k, k ≤ n →
        (executeAll (CircuitBreaker.create name n timeout) s (calls.take k)).2
            = invokeAll s (calls.take k)
          ∧ (executeAll (CircuitBreaker.create name n timeout) s (calls.take k)).1.failureCount_
              = k
          ∧ (executeAll (CircuitBreaker.create name n timeout) s
                (calls.take k)).1.currentState_
              = (if k < n then State.CLOSED else State.OPEN))
      ∧ ∀ (operation : σ → Except Thrown ρ × σ) (now failNow : Int),
          now - (executeAll (CircuitBreaker.create name n timeout) s calls).1.lastFailureTime_
              < timeout →
          ((executeAll (CircuitBreaker.create name n timeout) s calls).1.execute operation
              now failNow (executeAll (CircuitBreaker.create name n timeout) s calls).2)
            = ExecResult.mk (executeAll (CircuitBreaker.create name n timeout) s calls).1
                (Except.ok none)
                (executeAll (CircuitBreaker.create name n timeout) s calls).2 := by
  have hrun : ∀ k, k ≤ n →
      (executeAll (CircuitBreaker.create name n timeout) s (calls.take k)).2
          = invokeAll s (calls.take k)
        ∧ (executeAll (CircuitBreaker.create name n timeout) s (calls.take k)).1.failureCount_
            = k
        ∧ (executeAll (CircuitBreaker.create name n timeout) s
              (calls.take k)).1.currentState_
            = (if k < n then State.CLOSED else State.OPEN)
        ∧ (executeAll (CircuitBreaker.create name n timeout) s
              (calls.take k)).1.resetTimeout_ = timeout := by
    intro k hk
    have hkl : (calls.take k).length = k := by
      rw [List.length_take, hlen]
      omega
    have h := executeAll_failures (calls.take k) (CircuitBreaker.create name n timeout) s rfl
      (by show (0 : Int) ≤ 0; omega)
      (by show (0 : Int) + ((calls.take k).length : Int) ≤ (n : Int); rw [hkl]; omega)
      (by show (n : Int) ≤ 2147483647; omega)
      (fun c hc => hfail c (List.mem_of_mem_take hc))
    refine ⟨h.1, ?_, ?_, h.2.2.2⟩
    · rw [h.2.1, hkl]
      show (0 : Int) + (k : Int) = k
      omega
    · rw [h.2.2.1, hkl]
      show (if k = 0 ∨ (0 : Int) + (k : Int) < (n : Int) then State.CLOSED else State.OPEN)
        = _
      by_cases hkn : k < n
      · rw [if_pos hkn, if_pos (Or.inr (by omega))]
      · rw [if_neg hkn, if_neg (by intro h; rcases h with h | h <;> omega)]
  refine ⟨fun k hk => ⟨(hrun k hk).1, (hrun k hk).2.1, (hrun k hk).2.2.1⟩, ?_⟩
  intro operation now failNow hnow
  have hfull := hrun n (Nat.le_refl n)
  have htake : calls.take n = calls := by
    rw [← hlen]
    exact List.take_length calls
  rw [htake] at hfull
  have hopen : (executeAll (CircuitBreaker.create name n timeout) s calls).1.currentState_
      = State.OPEN := by
    rw [hfull.2.2.1, if_neg (Nat.lt_irrefl n)]
  exact execute_open_within_timeout _ operation now failNow _ hopen
    (by rw [hfull.2.2.2]; omega)

/-- Witness of `execute_threshold_failures_open`: with threshold 5, five failing calls
invoke the operation five times and leave the breaker `OPEN` with failure count 5; a sixth
call at tick 60 returns `std::nullopt` and the call counter stays at 5. -/
theorem execute_threshold_failures_open_witness :
    ((executeAll (CircuitBreaker.create "capture" 5 30) 0 (fiveFailures.take 4)).1.currentState_
        = State.CLOSED
      ∧ (executeAll (CircuitBreaker.create "capture" 5 30) 0 fiveFailures).1.currentState_
        = State.OPEN
      ∧ (executeAll (CircuitBreaker.create "capture" 5 30) 0 fiveFailures).2 = 5)
    ∧ (((executeAll (CircuitBreaker.create "capture" 5 30) 0 fiveFailures).1.execute
          failingOperation 60 61
          (executeAll (CircuitBreaker.create "capture" 5 30) 0 fiveFailures).2).outcome
        = Except.ok none
      ∧ ((executeAll (CircuitBreaker.create "capture" 5 30) 0 fiveFailures).1.execute
          failingOperation 60 61
          (executeAll (CircuitBreaker.create "capture" 5 30) 0 fiveFailures).2).world = 5) :=
  have hfail : ∀ c ∈ fiveFailures, ∀ w, ∃ what,
      (c.operation w).1 = Except.error (Thrown.stdException what) := by
    intro c hc w
    simp only [fiveFailures, List.mem_cons, List.mem_singleton, List.not_mem_nil,
      or_false] at hc
    rcases hc with rfl | rfl | rfl | rfl | rfl <;> exact ⟨"capture failed", rfl⟩
  have h := execute_threshold_failures_open 5 "capture" 30 fiveFailures 0 (by decide)
    (by decide) rfl hfail
  have h6 := h.2 failingOperation 60 61 (by decide)
  ⟨⟨(h.1 4 (by decide)).2.2.trans rfl, (h.1 5 (by decide)).2.2.trans rfl,
      (h.1 5 (by decide)).1.trans rfl⟩,
    congrArg ExecResult.outcome h6,
    (congrArg ExecResult.world h6).trans ((h.1 5 (by decide)).1.trans rfl)⟩


/-- In state `OPEN`, once the elapsed time exceeds the reset timeout, `execute` runs the
`try` block on the breaker moved to `HALF_OPEN`. -/
theorem execute_open_probe {σ ρ : Type} (cb : CircuitBreaker)
    (operation : σ → Except Thrown ρ × σ) (now failNow : Int) (s : σ)
    (hopen : cb.currentState_ = State.OPEN)
    (hnow : now - cb.lastFailureTime_ > cb.resetTimeout_) :
    cb.execute operation now failNow s
      = ({ cb with currentState_ := State.HALF_OPEN } : CircuitBreaker).attempt
          operation failNow s := by
  unfold CircuitBreaker.execute CircuitBreaker.openTest
  rw [if_pos hopen, if_pos hnow]

/-- In a state other than `OPEN`, `execute` runs the `try` block on the breaker as it is. -/
theorem execute_not_open {σ ρ : Type} (cb : CircuitBreaker)
    (operation : σ → Except Thrown ρ × σ) (now failNow : Int) (s : σ)
    (hstate : cb.currentState_ ≠ State.OPEN) :
    cb.execute operation now failNow s = cb.attempt operation failNow s := by
  unfold CircuitBreaker.execute CircuitBreaker.openTest
  rw [if_neg hstate]

/-- The `try` block when the operation returns a value. -/
theorem attempt_ok {σ ρ : Type} (cb : CircuitBreaker)
    (operation : σ → Except Thrown ρ × σ) (failNow : Int) (s : σ) (r : ρ)
    (hop : (operation s).1 = Except.ok r) :
    cb.attempt operation failNow s
      = ExecResult.mk
          (if cb.currentState_ = State.HALF_OPEN then
            { cb with currentState_ := State.CLOSED, failureCount_ := 0 }
          else cb)
          (Except.ok (some r)) (operation s).2 := by
  simp only [CircuitBreaker.attempt, hop]

/-- The `try` block when the operation throws a `std::exception`. -/
theorem attempt_stdException {σ ρ : Type} (cb : CircuitBreaker)
    (operation : σ → Except Thrown ρ × σ) (failNow : Int) (s : σ) (what : String)
    (hop : (operation s).1 = Except.error (Thrown.stdException what)) :
    cb.attempt operation failNow s
      = ExecResult.mk
          (if toInt32 (cb.failureCount_ + 1) ≥ cb.failureThreshold_ then
            CircuitBreaker.mk cb.name_ State.OPEN (toInt32 (cb.failureCount_ + 1))
              cb.failureThreshold_ failNow cb.resetTimeout_
          else if cb.currentState_ = State.HALF_OPEN then
            CircuitBreaker.mk cb.name_ State.OPEN (toInt32 (cb.failureCount_ + 1))
              cb.failureThreshold_ failNow cb.resetTimeout_
          else
            CircuitBreaker.mk cb.name_ cb.currentState_ (toInt32 (cb.failureCount_ + 1))
              cb.failureThreshold_ failNow cb.resetTimeout_)
          (Except.error (Thrown.stdException what)) (operation s).2 := by
  simp only [CircuitBreaker.attempt, hop]

/-- The `try` block when the operation throws an object that is not a `std::exception`:
the `catch` clause does not apply and the breaker is left as it was entered. -/
theorem attempt_other {σ ρ : Type} (cb : CircuitBreaker)
    (operation : σ → Except Thrown ρ × σ) (failNow : Int) (s : σ) (tag : Nat)
    (hop : (operation s).1 = Except.error (Thrown.other tag)) :
    cb.attempt operation failNow s
      = ExecResult.mk cb (Except.error (Thrown.other tag)) (operation s).2 := by
  simp only [CircuitBreaker.attempt, hop]

/-- C21 (successful probe): for every breaker in state `OPEN` whose reset timeout has
elapsed (the elapsed time exceeds it), if the operation succeeds with result `r`, then
`execute` returns `r`, the state afterwards is `CLOSED` and the failure count is 0; the
operation has been invoked once. -/
theorem execute_probe_success {σ ρ : Type} (cb : CircuitBreaker)
    (operation : σ → Except Thrown ρ × σ) (now failNow : Int) (s : σ) (r : ρ)
    (hopen : cb.currentState_ = State.OPEN)
    (hnow : now - cb.lastFailureTime_ > cb.resetTimeout_)
    (hop : (operation s).1 = Except.ok r) :
    (cb.execute operation now failNow s).outcome = Except.ok (some r)
      ∧ (cb.execute operation now failNow s).breaker.currentState_ = State.CLOSED
      ∧ (cb.execute operation now failNow s).breaker.failureCount_ = 0
      ∧ (cb.execute operation now failNow s).world = (operation s).2 := by
  rw [execute_open_probe cb operation now failNow s hopen hnow,
    attempt_ok _ operation failNow s r hop]
  exact ⟨rfl, rfl, rfl, rfl⟩

/-- Witness of `execute_probe_success`: the breaker opened at tick 100 with timeout 30 and
failure count 5, called at tick 140 with an operation returning 7. -/
theorem execute_probe_success_witness :
    (openBreaker.execute succeedingOperation 140 141 0).outcome = Except.ok (some 7)
      ∧ (openBreaker.execute succeedingOperation 140 141 0).breaker.currentState_
          = State.CLOSED
      ∧ (openBreaker.execute succeedingOperation 140 141 0).breaker.failureCount_ = 0 :=
  have h := execute_probe_success openBreaker succeedingOperation 140 141 0 7 rfl
    (by decide) rfl
  ⟨h.1, h.2.1, h.2.2.1⟩

/-- C22 (amended; failed probe): for every breaker in state `OPEN` whose reset timeout has
elapsed, if the operation fails with a `std::exception`, then the state afterwards is
`OPEN`, the failure count has been incremented as an `int` (by exactly 1 whenever it was
below `INT_MAX`; from `INT_MAX` the increment wraps), the last-failure time is the clock
reading of this call's `catch` block, and every later call made while no more than a
further full reset timeout has elapsed since then is Blocked: it returns `std::nullopt`
and changes neither the breaker nor the world. -/
theorem execute_probe_failure {σ ρ : Type} (cb : CircuitBreaker)
    (operation : σ → Except Thrown ρ × σ) (now failNow : Int) (s : σ) (what : String)
    (hopen : cb.currentState_ = State.OPEN)
    (hnow : now - cb.lastFailureTime_ > cb.resetTimeout_)
    (hop : (operation s).1 = Except.error (Thrown.stdException what)) :
    (cb.execute operation now failNow s).breaker.currentState_ = State.OPEN
      ∧ (cb.execute operation now failNow s).breaker.failureCount_
          = toInt32 (cb.failureCount_ + 1)
      ∧ (-2147483648 ≤ cb.failureCount_ → cb.failureCount_ < 2147483647 →
          (cb.execute operation now failNow s).breaker.failureCount_
            = cb.failureCount_ + 1)
      ∧ (cb.execute operation now failNow s).breaker.lastFailureTime_ = failNow
      ∧ (cb.execute operation now failNow s).world = (operation s).2
      ∧ ∀ (next : σ → Except Thrown ρ × σ) (laterNow laterFailNow : Int) (w : σ),
          laterNow - failNow ≤ cb.resetTimeout_ →
          (cb.execute operation now failNow s).breaker.execute next laterNow laterFailNow w
            = ExecResult.mk (cb.execute operation now failNow s).breaker
                (Except.ok none) w := by
  have hres : cb.execute operation now failNow s
      = ExecResult.mk
          (CircuitBreaker.mk cb.name_ State.OPEN (toInt32 (cb.failureCount_ + 1))
            cb.failureThreshold_ failNow cb.resetTimeout_)
          (Except.error (Thrown.stdException what)) (operation s).2 := by
    rw [execute_open_probe cb operation now failNow s hopen hnow,
      attempt_stdException _ operation failNow s what hop]
    by_cases ht : toInt32 (cb.failureCount_ + 1) ≥ cb.failureThreshold_
    · simp [ht]
    · simp [ht]
  rw [hres]
  refine ⟨rfl, rfl, ?_, rfl, rfl, ?_⟩
  · intro hlo hhi
    show toInt32 (cb.failureCount_ + 1) = cb.failureCount_ + 1
    unfold toInt32
    omega
  · intro next laterNow laterFailNow w hlater
    exact execute_open_within_timeout _ next laterNow laterFailNow w rfl
      (by show ¬ laterNow - failNow > cb.resetTimeout_; omega)

/-- Witness of `execute_probe_failure`: the breaker opened at tick 100 with timeout 30 and
failure count 5 is probed at tick 140 and fails at tick 141: it is `OPEN` again with
failure count 6 and last-failure time 141, and a call at tick 171 is Blocked. -/
theorem execute_probe_failure_witness :
    (openBreaker.execute probeFailure 140 141 0).breaker.currentState_ = State.OPEN
      ∧ (openBreaker.execute probeFailure 140 141 0).breaker.failureCount_ = 6
      ∧ (openBreaker.execute probeFailure 140 141 0).breaker.lastFailureTime_ = 141
      ∧ ((openBreaker.execute probeFailure 140 141 0).breaker.execute
            succeedingOperation 171 171 1).outcome = Except.ok none :=
  have h := execute_probe_failure openBreaker probeFailure 140 141 0 "still down" rfl
    (by decide) rfl
  ⟨h.1, h.2.2.1 (by decide) (by decide), h.2.2.2.1,
    congrArg ExecResult.outcome (h.2.2.2.2.2 succeedingOperation 171 171 1 (by decide))⟩

/-- C23: in every state in which `execute` invokes the operation (any state but `OPEN`, or
`OPEN` with the elapsed time above the reset timeout), if the operation throws `e` then
`e` leaves `execute` unchanged (no value and no `std::nullopt` is returned), and if the
operation returns `r` then `execute` returns exactly `r`. -/
theorem execute_propagates {σ ρ : Type} (cb : CircuitBreaker)
    (operation : σ → Except Thrown ρ × σ) (now failNow : Int) (s : σ)
    (hinvoked : cb.currentState_ ≠ State.OPEN
      ∨ (cb.currentState_ = State.OPEN ∧ now - cb.lastFailureTime_ > cb.resetTimeout_)) :
    (∀ e : Thrown, (operation s).1 = Except.error e →
        (cb.execute operation now failNow s).outcome = Except.error e)
      ∧ (∀ r : ρ, (operation s).1 = Except.ok r →
        (cb.execute operation now failNow s).outcome = Except.ok (some r))
      ∧ (cb.execute operation now failNow s).world = (operation s).2 := by
  have hex : ∃ cb1 : CircuitBreaker,
      cb.execute operation now failNow s = cb1.attempt operation failNow s := by
    rcases hinvoked with h | ⟨h1, h2⟩
    · exact ⟨cb, execute_not_open cb operation now failNow s h⟩
    · exact ⟨_, execute_open_probe cb operation now failNow s h1 h2⟩
  obtain ⟨cb1, hcb1⟩ := hex
  rw [hcb1]
  refine ⟨?_, ?_, ?_⟩
  · intro e he
    cases e with
    | stdException what => rw [attempt_stdException cb1 operation failNow s what he]
    | other tag => rw [attempt_other cb1 operation failNow s tag he]
  · intro r hr
    rw [attempt_ok cb1 operation failNow s r hr]
  · unfold CircuitBreaker.attempt
    split <;> rfl

/-- Witness of `execute_propagates`: on a `CLOSED` breaker, a thrown `std::exception`, a
thrown object of another type and a returned value each reach the caller unchanged. -/
theorem execute_propagates_witness :
    (closedBreaker.execute probeFailure 50 51 0).outcome
        = Except.error (Thrown.stdException "still down")
      ∧ (closedBreaker.execute otherThrowOperation 50 51 0).outcome
        = Except.error (Thrown.other 42)
      ∧ (closedBreaker.execute succeedingOperation 50 51 0).outcome = Except.ok (some 7) :=
  ⟨(execute_propagates closedBreaker probeFailure 50 51 0
      (Or.inl (by decide))).1 _ rfl,
    (execute_propagates closedBreaker otherThrowOperation 50 51 0
      (Or.inl (by decide))).1 _ rfl,
    (execute_propagates closedBreaker succeedingOperation 50 51 0
      (Or.inl (by decide))).2.1 7 rfl⟩

/-- The failure counter after one `execute` call, by cases on the call. -/
theorem execute_failureCount {σ ρ : Type} (cb : CircuitBreaker)
    (operation : σ → Except Thrown ρ × σ) (now failNow : Int) (s : σ) :
    (cb.execute operation now failNow s).breaker.failureCount_ =
      if cb.currentState_ = State.OPEN ∧ ¬ now - cb.lastFailureTime_ > cb.resetTimeout_ then
        cb.failureCount_
      else
        match (operation s).1 with
        | Except.ok _ => if cb.currentState_ = State.CLOSED then cb.failureCount_ else 0
        | Except.error (Thrown.stdException _) => toInt32 (cb.failureCount_ + 1)
        | Except.error (Thrown.other _) => cb.failureCount_ := by
  by_cases hopen : cb.currentState_ = State.OPEN
  · by_cases hnow : now - cb.lastFailureTime_ > cb.resetTimeout_
    · rw [execute_open_probe cb operation now failNow s hopen hnow,
        if_neg (fun h => h.2 hnow)]
      have hc : ¬ cb.currentState_ = State.CLOSED := by rw [hopen]; decide
      cases hop : (operation s).1 with
      | ok r => rw [attempt_ok _ operation failNow s r hop]; simp [hc]
      | error e =>
        cases e with
        | stdException what =>
          rw [attempt_stdException _ operation failNow s what hop]
          simp only []
          split_ifs <;> rfl
        | other tag => rw [attempt_other _ operation failNow s tag hop]
    · rw [execute_open_within_timeout cb operation now failNow s hopen hnow,
        if_pos ⟨hopen, hnow⟩]
  · rw [execute_not_open cb operation now failNow s hopen, if_neg (fun h => hopen h.1)]
    cases hop : (operation s).1 with
    | ok r =>
      rw [attempt_ok _ operation failNow s r hop]
      cases hstate : cb.currentState_ with
      | CLOSED => simp
      | OPEN => exact absurd hstate hopen
      | HALF_OPEN => simp
    | error e =>
      cases e with
      | stdException what =>
        rw [attempt_stdException _ operation failNow s what hop]
        simp only []
        split_ifs <;> rfl
      | other tag => rw [attempt_other _ operation failNow s tag hop]

/-- An `execute` call returns `std::nullopt` only when it is Blocked. -/
theorem execute_blocked_iff {σ ρ : Type} (cb : CircuitBreaker)
    (operation : σ → Except Thrown ρ × σ) (now failNow : Int) (s : σ) :
    (cb.execute operation now failNow s).outcome = Except.ok none ↔
      cb.currentState_ = State.OPEN ∧ ¬ now - cb.lastFailureTime_ > cb.resetTimeout_ := by
  constructor
  · intro hout
    by_contra hnb
    have hinv : cb.currentState_ ≠ State.OPEN
        ∨ (cb.currentState_ = State.OPEN
            ∧ now - cb.lastFailureTime_ > cb.resetTimeout_) := by
      by_cases hopen : cb.currentState_ = State.OPEN
      · exact Or.inr ⟨hopen, by_contra fun h => hnb ⟨hopen, h⟩⟩
      · exact Or.inl hopen
    have hex : ∃ cb1 : CircuitBreaker,
        cb.execute operation now failNow s = cb1.attempt operation failNow s := by
      rcases hinv with h | ⟨h1, h2⟩
      · exact ⟨cb, execute_not_open cb operation now failNow s h⟩
      · exact ⟨_, execute_open_probe cb operation now failNow s h1 h2⟩
    obtain ⟨cb1, hcb1⟩ := hex
    rw [hcb1] at hout
    cases hop : (operation s).1 with
    | ok r =>
      rw [attempt_ok _ operation failNow s r hop] at hout
      simp at hout
    | error e =>
      cases e with
      | stdException what =>
        rw [attempt_stdException _ operation failNow s what hop] at hout
        simp at hout
      | other tag =>
        rw [attempt_other _ operation failNow s tag hop] at hout
        simp at hout
  · intro h
    rw [execute_open_within_timeout cb operation now failNow s h.1 h.2]

/-- C24 (amended): across one `execute` call the failure counter is unchanged when the
call is Blocked, when the operation succeeds in `CLOSED` and when the operation throws an
object that is not a `std::exception`; it is incremented as an `int` (by exactly 1 when it
was below `INT_MAX`, from which it wraps to `INT_MIN`) when the operation is invoked and
throws a `std::exception`; it becomes 0, and the breaker `CLOSED`, when the operation
succeeds in `HALF_OPEN` (entered as such, or from `OPEN` after the timeout); and no other
change occurs: the new value is the old one, the old one incremented as an `int`, or 0. -/
theorem execute_failureCount_change {σ ρ : Type} (cb : CircuitBreaker)
    (operation : σ → Except Thrown ρ × σ) (now failNow : Int) (s : σ) :
    ((cb.execute operation now failNow s).outcome = Except.ok none →
        (cb.execute operation now failNow s).breaker.failureCount_ = cb.failureCount_)
      ∧ (∀ r : ρ, cb.currentState_ = State.CLOSED → (operation s).1 = Except.ok r →
        (cb.execute operation now failNow s).breaker.failureCount_ = cb.failureCount_)
      ∧ (∀ what : String,
        cb.currentState_ ≠ State.OPEN
          ∨ (cb.currentState_ = State.OPEN
              ∧ now - cb.lastFailureTime_ > cb.resetTimeout_) →
        (operation s).1 = Except.error (Thrown.stdException what) →
        (cb.execute operation now failNow s).breaker.failureCount_
            = toInt32 (cb.failureCount_ + 1)
          ∧ (-2147483648 ≤ cb.failureCount_ → cb.failureCount_ < 2147483647 →
              (cb.execute operation now failNow s).breaker.failureCount_
                = cb.failureCount_ + 1))
      ∧ (∀ r : ρ,
        cb.currentState_ = State.HALF_OPEN
          ∨ (cb.currentState_ = State.OPEN
              ∧ now - cb.lastFailureTime_ > cb.resetTimeout_) →
        (operation s).1 = Except.ok r →
        (cb.execute operation now failNow s).breaker.failureCount_ = 0
          ∧ (cb.execute operation now failNow s).breaker.currentState_ = State.CLOSED)
      ∧ (-2147483648 ≤ cb.failureCount_ → cb.failureCount_ < 2147483647 →
          (cb.execute operation now failNow s).breaker.failureCount_ = cb.failureCount_
            ∨ (cb.execute operation now failNow s).breaker.failureCount_
                = cb.failureCount_ + 1
            ∨ (cb.execute operation now failNow s).breaker.failureCount_ = 0)
      ∧ (∀ tag : Nat, (operation s).1 = Except.error (Thrown.other tag) →
          (cb.execute operation now failNow s).breaker.failureCount_ = cb.failureCount_)
      ∧ ((cb.execute operation now failNow s).breaker.failureCount_ = cb.failureCount_
          ∨ (cb.execute operation now failNow s).breaker.failureCount_
              = toInt32 (cb.failureCount_ + 1)
          ∨ (cb.execute operation now failNow s).breaker.failureCount_ = 0) := by
  have hwrap : -2147483648 ≤ cb.failureCount_ → cb.failureCount_ < 2147483647 →
      toInt32 (cb.failureCount_ + 1) = cb.failureCount_ + 1 := by
    intro hlo hhi
    unfold toInt32
    omega
  have hall : (cb.execute operation now failNow s).breaker.failureCount_ = cb.failureCount_
      ∨ (cb.execute operation now failNow s).breaker.failureCount_
          = toInt32 (cb.failureCount_ + 1)
      ∨ (cb.execute operation now failNow s).breaker.failureCount_ = 0 := by
    rw [execute_failureCount]
    by_cases hb : cb.currentState_ = State.OPEN
        ∧ ¬ now - cb.lastFailureTime_ > cb.resetTimeout_
    · rw [if_pos hb]
      exact Or.inl rfl
    · rw [if_neg hb]
      cases hop : (operation s).1 with
      | ok r =>
        by_cases hc : cb.currentState_ = State.CLOSED
        · simp only [if_pos hc]
          exact Or.inl trivial
        · simp only [if_neg hc]
          exact Or.inr (Or.inr trivial)
      | error e =>
        cases e with
        | stdException what =>
          simp only []
          exact Or.inr (Or.inl trivial)
        | other tag =>
          simp only []
          exact Or.inl trivial
  have hother : ∀ tag : Nat, (operation s).1 = Except.error (Thrown.other tag) →
      (cb.execute operation now failNow s).breaker.failureCount_ = cb.failureCount_ := by
    intro tag hop
    rw [execute_failureCount]
    by_cases hb : cb.currentState_ = State.OPEN
        ∧ ¬ now - cb.lastFailureTime_ > cb.resetTimeout_
    · rw [if_pos hb]
    · rw [if_neg hb]
      simp only [hop]
  refine ⟨?_, ?_, ?_, ?_, ?_, hother, hall⟩
  · intro hout
    rw [execute_failureCount, if_pos ((execute_blocked_iff cb operation now failNow s).mp hout)]
  · intro r hclosed hop
    have hno : ¬ (cb.currentState_ = State.OPEN
        ∧ ¬ now - cb.lastFailureTime_ > cb.resetTimeout_) := by
      rw [hclosed]
      exact fun h => absurd h.1 (by decide)
    rw [execute_failureCount, if_neg hno]
    simp only [hop, if_pos hclosed]
  · intro what hinv hop
    have hno : ¬ (cb.currentState_ = State.OPEN
        ∧ ¬ now - cb.lastFailureTime_ > cb.resetTimeout_) := by
      rcases hinv with h | ⟨_, h2⟩
      · exact fun h' => h h'.1
      · exact fun h' => h'.2 h2
    rw [execute_failureCount, if_neg hno]
    simp only [hop]
    exact ⟨trivial, hwrap⟩
  · intro r hhalf hop
    rcases hhalf with h | ⟨h1, h2⟩
    · have hne : cb.currentState_ ≠ State.OPEN := by rw [h]; decide
      rw [execute_not_open cb operation now failNow s hne,
        attempt_ok _ operation failNow s r hop, if_pos h]
      exact ⟨rfl, rfl⟩
    · rw [execute_open_probe cb operation now failNow s h1 h2,
        attempt_ok _ operation failNow s r hop]
      exact ⟨rfl, rfl⟩
  · intro hlo hhi
    rw [execute_failureCount]
    by_cases hb : cb.currentState_ = State.OPEN
        ∧ ¬ now - cb.lastFailureTime_ > cb.resetTimeout_
    · rw [if_pos hb]
      exact Or.inl rfl
    · rw [if_neg hb]
      cases hop : (operation s).1 with
      | ok r =>
        by_cases hc : cb.currentState_ = State.CLOSED
        · simp only [if_pos hc]
          exact Or.inl trivial
        · simp only [if_neg hc]
          exact Or.inr (Or.inr trivial)
      | error e =>
        cases e with
        | stdException what =>
          simp only []
          exact Or.inr (Or.inl (hwrap hlo hhi))
        | other tag =>
          simp only []
          exact Or.inl trivial

/-- Witness of `execute_failureCount_change`: a Blocked call keeps the count 5; a success
on the `CLOSED` breaker keeps the count 2; a failure on it gives 3; a successful probe of
the `OPEN` breaker gives 0 and closes it. -/
theorem execute_failureCount_change_witness :
    (openBreaker.execute succeedingOperation 120 121 0).breaker.failureCount_ = 5
      ∧ (closedBreaker.execute succeedingOperation 50 51 0).breaker.failureCount_ = 2
      ∧ (closedBreaker.execute probeFailure 50 51 0).breaker.failureCount_ = 3
      ∧ ((openBreaker.execute succeedingOperation 140 141 0).breaker.failureCount_ = 0
          ∧ (openBreaker.execute succeedingOperation 140 141 0).breaker.currentState_
              = State.CLOSED) :=
  ⟨(execute_failureCount_change openBreaker succeedingOperation 120 121 0).1 rfl,
    (execute_failureCount_change closedBreaker succeedingOperation 50 51 0).2.1 7 rfl rfl,
    ((execute_failureCount_change closedBreaker probeFailure 50 51 0).2.2.1 "still down"
      (Or.inl (by decide)) rfl).2 (by decide) (by decide),
    (execute_failureCount_change openBreaker succeedingOperation 140 141 0).2.2.2.1 7
      (Or.inr ⟨rfl, by decide⟩) rfl⟩


/-! ## `DeadLetterQueue::storeFailure` -/

/-- The queue after `storeFailure`, by cases on whether it was full. -/
theorem storeFailure_queue {T : Type} (q : DeadLetterQueue T) (item : T) (what : String)
    (time : Int) (stage : String) :
    (q.storeFailure item what time stage).queue_
      = (if q.queue_.length ≥ q.maxSize_ then q.queue_.tail else q.queue_)
          ++ [FailedItem.mk item what time stage 0]
      ∧ (q.storeFailure item what time stage).maxSize_ = q.maxSize_ :=
  ⟨rfl, rfl⟩

/-- Keeping the last `n` elements twice, with an append in between, is keeping the last
`n` elements of the whole. -/
theorem drop_last_append {α : Type} (n : Nat) (a b : List α) :
    (a.drop (a.length - n) ++ b).drop ((a.drop (a.length - n) ++ b).length - n)
      = (a ++ b).drop ((a ++ b).length - n) := by
  rw [← List.drop_append_of_le_length (Nat.sub_le a.length n), List.drop_drop]
  congr 1
  simp only [List.length_drop, List.length_append]
  omega

/-- One `storeFailure` on a queue within its capacity keeps the last `maxSize_` records
of the queue extended by the new record. -/
theorem storeFailure_drop {T : Type} (q : DeadLetterQueue T) (item : T) (what : String)
    (time : Int) (stage : String) (hcap : 1 ≤ q.maxSize_)
    (hlen : q.queue_.length ≤ q.maxSize_) :
    (q.storeFailure item what time stage).queue_
      = (q.queue_ ++ [FailedItem.mk item what time stage 0]).drop
          ((q.queue_ ++ [FailedItem.mk item what time stage 0]).length - q.maxSize_) := by
  rw [(storeFailure_queue q item what time stage).1]
  by_cases hfull : q.queue_.length ≥ q.maxSize_
  · rw [if_pos hfull]
    have h1 : (q.queue_ ++ [FailedItem.mk item what time stage 0]).length - q.maxSize_ = 1 := by
      rw [List.length_append, List.length_singleton]
      omega
    rw [h1]
    cases hq : q.queue_ with
    | nil => rw [hq] at hfull; simp at hfull; omega
    | cons r rest => rfl
  · rw [if_neg hfull]
    have h0 : (q.queue_ ++ [FailedItem.mk item what time stage 0]).length - q.maxSize_ = 0 := by
      rw [List.length_append, List.length_singleton]
      omega
    rw [h0, List.drop_zero]

/-- A run of `storeFailure` calls on a queue within its capacity keeps the last
`maxSize_` records of the queue extended by the new records, in store order. -/
theorem storeAll_drop {T : Type} :
    ∀ (stores : List (StoreCall T)) (q : DeadLetterQueue T),
      1 ≤ q.maxSize_ → q.queue_.length ≤ q.maxSize_ →
      (q.storeAll stores).queue_
          = (q.queue_ ++ stores.map StoreCall.record).drop
              ((q.queue_ ++ stores.map StoreCall.record).length - q.maxSize_)
        ∧ (q.storeAll stores).maxSize_ = q.maxSize_
  | [], q, _, hlen => by
    simp only [DeadLetterQueue.storeAll, List.map_nil, List.append_nil]
    rw [Nat.sub_eq_zero_of_le hlen, List.drop_zero]
    exact ⟨rfl, trivial⟩
  | c :: rest, q, hcap, hlen => by
    have hstep := storeFailure_drop q c.item c.what c.time c.stage hcap hlen
    have hmax := (storeFailure_queue q c.item c.what c.time c.stage).2
    have hlen1 : (q.storeFailure c.item c.what c.time c.stage).queue_.length
        ≤ (q.storeFailure c.item c.what c.time c.stage).maxSize_ := by
      rw [hstep, hmax, List.length_drop, List.length_append, List.length_singleton]
      omega
    have ih := storeAll_drop rest (q.storeFailure c.item c.what c.time c.stage)
      (by rw [hmax]; exact hcap) hlen1
    simp only [DeadLetterQueue.storeAll]
    rw [ih.1, ih.2, hmax, hstep]
    refine ⟨?_, rfl⟩
    have hrec : FailedItem.mk c.item c.what c.time c.stage 0 = c.record := rfl
    rw [hrec, drop_last_append q.maxSize_ (q.queue_ ++ [c.record])
      (rest.map StoreCall.record), List.map_cons, List.append_assoc, List.singleton_append]

/-- C25 (FIFO eviction): for every capacity `N ≥ 1` and every list of `k` `storeFailure`
calls on an empty queue, the queue then holds exactly the last `min k N` stored items in
store order, each with retry count 0 and the error text, time and stage given at store
time; and storing into a full queue removes exactly the oldest record and appends the new
one. -/
theorem storeFailure_fifo_eviction {T : Type} (N : Nat) (hN : 1 ≤ N)
    (stores : List (StoreCall T)) :
    ((DeadLetterQueue.create N).storeAll stores).queue_
        = (stores.map StoreCall.record).drop (stores.length - min stores.length N)
      ∧ ((DeadLetterQueue.create N).storeAll stores).queue_.length = min stores.length N
      ∧ (∀ r ∈ ((DeadLetterQueue.create N).storeAll stores).queue_, r.retryCount = 0)
      ∧ ∀ (oldest : FailedItem T) (others : List (FailedItem T)) (item : T) (what : String)
          (time : Int) (stage : String),
          (oldest :: others).length = N →
          ((DeadLetterQueue.mk (oldest :: others) N).storeFailure item what time
              stage).queue_
            = others ++ [FailedItem.mk item what time stage 0] := by
  have h := (storeAll_drop stores (DeadLetterQueue.create N) hN (Nat.zero_le N)).1
  have hq : ((DeadLetterQueue.create N).storeAll stores).queue_
      = (stores.map StoreCall.record).drop (stores.length - min stores.length N) := by
    rw [h]
    show ([] ++ stores.map StoreCall.record).drop
      (([] ++ stores.map StoreCall.record).length - N) = _
    rw [List.nil_append, List.length_map]
    congr 1
    omega
  refine ⟨hq, ?_, ?_, ?_⟩
  · rw [hq, List.length_drop, List.length_map]
    omega
  · intro r hr
    rw [hq] at hr
    obtain ⟨c, _, hc⟩ := List.mem_map.mp (List.mem_of_mem_drop hr)
    rw [← hc]
    rfl
  · intro oldest others item what time stage hfull
    rw [(storeFailure_queue _ item what time stage).1]
    have hge : (oldest :: others).length ≥ N := by omega
    show (if (oldest :: others).length ≥ N then (oldest :: others).tail else oldest :: others)
      ++ [FailedItem.mk item what time stage 0] = _
    rw [if_pos hge]
    rfl

/-- Witness of `storeFailure_fifo_eviction`: with capacity 3, four stores of items 1, 2, 3
and 4 leave items 2, 3 and 4, in that order. -/
theorem storeFailure_fifo_eviction_witness :
    (((DeadLetterQueue.create 3).storeAll fourStores).queue_).map FailedItem.item
        = [2, 3, 4]
      ∧ ((DeadLetterQueue.create 3).storeAll fourStores).queue_.length = 3 :=
  have h := storeFailure_fifo_eviction 3 (by decide) fourStores
  ⟨(congrArg (List.map FailedItem.item) h.1).trans (by decide), h.2.1.trans (by decide)⟩

/-! ## `DeadLetterQueue::retryFailures` -/

/-- The retry loop, when the retry function throws nothing but `std::exception`: it ends
normally, has invoked the retry function on every record in order, and has appended to
the queue what `keptRecord` keeps of each record. -/
theorem retryLoop_eq {T σ : Type} (retryFunction : T → σ → Except Thrown Unit × σ)
    (hstd : ∀ x w tag, (retryFunction x w).1 ≠ Except.error (Thrown.other tag)) :
    ∀ (records queue : List (FailedItem T)) (s : σ),
      (∀ r ∈ records, -2147483648 ≤ r.retryCount ∧ r.retryCount < 2147483647) →
      retryLoop retryFunction records queue s
        = (queue ++ (records.zip (worldsBefore retryFunction s records)).filterMap
              (fun p => keptRecord retryFunction p.1 p.2),
            Except.ok (),
            records.foldl (fun w r => (retryFunction r.item w).2) s)
  | [], queue, s, _ => by
    simp [retryLoop]
  | r :: rest, queue, s, hrange => by
    have hr := hrange r (List.mem_cons_self r rest)
    have hrest : ∀ r' ∈ rest, -2147483648 ≤ r'.retryCount ∧ r'.retryCount < 2147483647 :=
      fun r' h => hrange r' (List.mem_cons_of_mem r h)
    have hw : worldsBefore retryFunction s (r :: rest)
        = s :: worldsBefore retryFunction (retryFunction r.item s).2 rest := by
      unfold worldsBefore
      rw [List.scanl_cons]
      rfl
    have hwrap : toInt32 (r.retryCount + 1) = r.retryCount + 1 := by
      unfold toInt32
      omega
    rw [hw, List.zip_cons_cons, List.foldl_cons]
    cases hop : (retryFunction r.item s).1 with
    | ok u =>
      have hk : keptRecord retryFunction r s = none := by
        simp only [keptRecord, hop]
      rw [List.filterMap_cons_none (f := fun p => keptRecord retryFunction p.1 p.2)
          (a := (r, s)) hk]
      simp only [retryLoop, hop]
      exact retryLoop_eq retryFunction hstd rest queue _ hrest
    | error e =>
      cases e with
      | stdException what =>
        by_cases hlt : r.retryCount + 1 < 3
        · have hk : keptRecord retryFunction r s
              = some { r with retryCount := r.retryCount + 1 } := by
            simp only [keptRecord, hop, if_pos hlt]
          rw [List.filterMap_cons_some (f := fun p => keptRecord retryFunction p.1 p.2)
            (a := (r, s)) hk]
          simp only [retryLoop, hop, hwrap, if_pos hlt]
          rw [retryLoop_eq retryFunction hstd rest _ _ hrest, List.append_assoc,
            List.singleton_append]
        · have hk : keptRecord retryFunction r s = none := by
            simp only [keptRecord, hop, if_neg hlt]
          rw [List.filterMap_cons_none (f := fun p => keptRecord retryFunction p.1 p.2)
          (a := (r, s)) hk]
          simp only [retryLoop, hop, hwrap, if_neg hlt]
          exact retryLoop_eq retryFunction hstd rest queue _ hrest
      | other tag => exact absurd hop (hstd r.item s tag)

/-- C26 (amended): one `retryFailures` call, with a retry function that fails only with
`std::exception` and records whose counters are below `INT_MAX`, invokes the retry function
exactly once on each record that was queued, in queue order, and returns normally;
afterwards the queue consists of exactly the records on which the retry function failed and
whose incremented retry count is below 3, in their original order, each with its retry
count increased by 1 and its other fields unchanged; so the queue is empty if the retry
function succeeds on all records. -/
theorem retryFailures_pass {T σ : Type} (q : DeadLetterQueue T)
    (retryFunction : T → σ → Except Thrown Unit × σ) (s : σ)
    (hstd : ∀ x w tag, (retryFunction x w).1 ≠ Except.error (Thrown.other tag))
    (hrange : ∀ r ∈ q.queue_, -2147483648 ≤ r.retryCount ∧ r.retryCount < 2147483647) :
    (q.retryFailures retryFunction s).world
        = q.queue_.foldl (fun w r => (retryFunction r.item w).2) s
      ∧ (q.retryFailures retryFunction s).outcome = Except.ok ()
      ∧ (q.retryFailures retryFunction s).queue.queue_
          = (q.queue_.zip (worldsBefore retryFunction s q.queue_)).filterMap
              (fun p => keptRecord retryFunction p.1 p.2)
      ∧ (q.retryFailures retryFunction s).queue.maxSize_ = q.maxSize_
      ∧ ((∀ x w, (retryFunction x w).1 = Except.ok ()) →
          (q.retryFailures retryFunction s).queue.queue_ = []) := by
  have h := retryLoop_eq retryFunction hstd q.queue_ [] s hrange
  have hq : (q.retryFailures retryFunction s).queue.queue_
      = (q.queue_.zip (worldsBefore retryFunction s q.queue_)).filterMap
          (fun p => keptRecord retryFunction p.1 p.2) := by
    show (retryLoop retryFunction q.queue_ [] s).1 = _
    rw [h, List.nil_append]
  refine ⟨?_, ?_, hq, rfl, ?_⟩
  · show (retryLoop retryFunction q.queue_ [] s).2.2 = _
    rw [h]
  · show (retryLoop retryFunction q.queue_ [] s).2.1 = _
    rw [h]
  · intro hok
    rw [hq]
    apply List.filterMap_eq_nil_iff.mpr
    intro p _
    simp only [keptRecord, hok]

/-- Witness of `retryFailures_pass`: on items 1, 2, 3, 4 with retry counts 0, 2, 1, 0 and
a retry function that succeeds on item 4 only, the pass makes 4 invocations and leaves
item 1 with count 1 and item 3 with count 2. -/
theorem retryFailures_pass_witness :
    (mixedQueue.retryFailures failsUnlessFour 0).world = 4
      ∧ (mixedQueue.retryFailures failsUnlessFour 0).queue.queue_
          = [FailedItem.mk 1 "bad length" 10 "parsing" 1,
              FailedItem.mk 3 "disk full" 30 "storage" 2] :=
  have hstd : ∀ x w tag, (failsUnlessFour x w).1 ≠ Except.error (Thrown.other tag) := by
    intro x w tag
    unfold failsUnlessFour
    by_cases h : x = 4 <;> simp [h]
  have h := retryFailures_pass mixedQueue failsUnlessFour 0 hstd (by decide)
  ⟨h.1.trans (by decide), h.2.2.1.trans (by decide)⟩

/-- One `retryFailures` call on a queue holding a single record with retry count 0, 1 or
2, on which the retry function throws a `std::exception`: the function is invoked once,
and the record is queued again with its count increased when that is below 3, dropped
otherwise. -/
theorem retryFailures_single {T σ : Type} (q : DeadLetterQueue T)
    (retryFunction : T → σ → Except Thrown Unit × σ) (s : σ) (r : FailedItem T)
    (what : String) (hq : q.queue_ = [r])
    (hop : (retryFunction r.item s).1 = Except.error (Thrown.stdException what))
    (h0 : 0 ≤ r.retryCount) (h2 : r.retryCount ≤ 2) :
    (q.retryFailures retryFunction s).queue
        = DeadLetterQueue.mk
            (if r.retryCount + 1 < 3 then [{ r with retryCount := r.retryCount + 1 }]
              else [])
            q.maxSize_
      ∧ (q.retryFailures retryFunction s).world = (retryFunction r.item s).2
      ∧ (q.retryFailures retryFunction s).outcome = Except.ok () := by
  have hwrap : toInt32 (r.retryCount + 1) = r.retryCount + 1 := by
    unfold toInt32
    omega
  have hloop : retryLoop retryFunction [r] [] s
      = (if r.retryCount + 1 < 3 then [{ r with retryCount := r.retryCount + 1 }] else [],
          Except.ok (), (retryFunction r.item s).2) := by
    by_cases hlt : r.retryCount + 1 < 3
    · simp only [retryLoop, hop, hwrap, if_pos hlt, List.nil_append]
    · simp only [retryLoop, hop, hwrap, if_neg hlt]
  unfold DeadLetterQueue.retryFailures
  rw [hq, hloop]
  exact ⟨rfl, rfl, rfl⟩

/-- Successive `retryFailures` calls on a queue holding one fresh record, with a retry
function that always throws a `std::exception`: each of the first three calls invokes the
function once; the record is queued with count 1 after the first call, with count 2 after
the second, and is gone after the third. -/
theorem retryTimes_always_fails {T σ : Type} (q : DeadLetterQueue T)
    (retryFunction : T → σ → Except Thrown Unit × σ) (s : σ) (r : FailedItem T)
    (hq : q.queue_ = [r]) (hfresh : r.retryCount = 0)
    (hfail : ∀ x w, ∃ what, (retryFunction x w).1 = Except.error (Thrown.stdException what)) :
    q.retryTimes retryFunction s 1
        = (DeadLetterQueue.mk [{ r with retryCount := 1 }] q.maxSize_,
            (fun w => (retryFunction r.item w).2)^[1] s)
      ∧ q.retryTimes retryFunction s 2
        = (DeadLetterQueue.mk [{ r with retryCount := 2 }] q.maxSize_,
            (fun w => (retryFunction r.item w).2)^[2] s)
      ∧ q.retryTimes retryFunction s 3
        = (DeadLetterQueue.mk [] q.maxSize_, (fun w => (retryFunction r.item w).2)^[3] s) := by
  obtain ⟨what1, h1⟩ := hfail r.item s
  have e1 := retryFailures_single q retryFunction s r what1 hq h1 (by omega) (by omega)
  have t1 : q.retryTimes retryFunction s 1
      = (DeadLetterQueue.mk [{ r with retryCount := 1 }] q.maxSize_,
          (retryFunction r.item s).2) := by
    simp only [DeadLetterQueue.retryTimes]
    rw [e1.1, e1.2.1, hfresh]
    rfl
  obtain ⟨what2, h2⟩ := hfail r.item (retryFunction r.item s).2
  have e2 := retryFailures_single
    (DeadLetterQueue.mk [{ r with retryCount := 1 }] q.maxSize_) retryFunction
    (retryFunction r.item s).2 { r with retryCount := 1 } what2 rfl h2
    (by show (0 : Int) ≤ 1; omega) (by show (1 : Int) ≤ 2; omega)
  have t2 : q.retryTimes retryFunction s 2
      = (DeadLetterQueue.mk [{ r with retryCount := 2 }] q.maxSize_,
          (retryFunction r.item (retryFunction r.item s).2).2) := by
    rw [show q.retryTimes retryFunction s 2
        = (((q.retryTimes retryFunction s 1).1.retryFailures retryFunction
              (q.retryTimes retryFunction s 1).2).queue,
            ((q.retryTimes retryFunction s 1).1.retryFailures retryFunction
              (q.retryTimes retryFunction s 1).2).world) from rfl, t1, e2.1, e2.2.1]
    rfl
  obtain ⟨what3, h3⟩ := hfail r.item (retryFunction r.item (retryFunction r.item s).2).2
  have e3 := retryFailures_single
    (DeadLetterQueue.mk [{ r with retryCount := 2 }] q.maxSize_) retryFunction
    (retryFunction r.item (retryFunction r.item s).2).2 { r with retryCount := 2 } what3
    rfl h3 (by show (0 : Int) ≤ 2; omega) (by show (2 : Int) ≤ 2; omega)
  have t3 : q.retryTimes retryFunction s 3
      = (DeadLetterQueue.mk [] q.maxSize_,
          (retryFunction r.item (retryFunction r.item (retryFunction r.item s).2).2).2) := by
    rw [show q.retryTimes retryFunction s 3
        = (((q.retryTimes retryFunction s 2).1.retryFailures retryFunction
              (q.retryTimes retryFunction s 2).2).queue,
            ((q.retryTimes retryFunction s 2).1.retryFailures retryFunction
              (q.retryTimes retryFunction s 2).2).world) from rfl, t2, e3.1, e3.2.1]
    rfl
  exact ⟨t1, t2, t3⟩

/-- C27 (as stated, refuted): a queue of capacity 1000 holds one freshly stored item; one
`retryFailures` call with a retry function that always throws a `std::exception` invokes
the function once, not three times, and when the call returns the queue is not empty: it
holds the item with retry count 1. With a retry function that always fails by throwing an
object that is not a `std::exception`, three successive calls invoke the function once in
all, and the item is gone after the first. -/
theorem retryFailures_once_keeps_item :
    (oneFreshItem.queue_.length = 1 ∧ ∀ r ∈ oneFreshItem.queue_, r.retryCount = 0)
      ∧ (oneFreshItem.retryFailures alwaysFails 0).world = 1
      ∧ (oneFreshItem.retryFailures alwaysFails 0).queue.queue_
          = [FailedItem.mk 7 "bad length" 10 "parsing" 1]
      ∧ (oneFreshItem.retryFailures alwaysFails 0).queue.queue_ ≠ []
      ∧ (oneFreshItem.retryFailures alwaysThrowsOther 0).queue.queue_ = []
      ∧ (oneFreshItem.retryTimes alwaysThrowsOther 0 3).2 = 1 := by
  decide

/-- C27 (amended): three successive `retryFailures` calls on a queue holding exactly one
freshly stored item, with a retry function that always fails with a `std::exception`,
retry the item exactly 3 times in total, and the queue is empty when the third call
returns; a single call retries it once and leaves it queued with retry count 1. -/
theorem retryFailures_three_calls_discard {T σ : Type} (q : DeadLetterQueue T)
    (retryFunction : T → σ → Except Thrown Unit × σ) (s : σ) (r : FailedItem T)
    (hq : q.queue_ = [r]) (hfresh : r.retryCount = 0)
    (hfail : ∀ x w, ∃ what, (retryFunction x w).1 = Except.error (Thrown.stdException what)) :
    ((q.retryTimes retryFunction s 3).1.queue_ = []
        ∧ (q.retryTimes retryFunction s 3).2 = (fun w => (retryFunction r.item w).2)^[3] s)
      ∧ ((q.retryTimes retryFunction s 1).1.queue_ = [{ r with retryCount := 1 }]
        ∧ (q.retryTimes retryFunction s 1).2
            = (fun w => (retryFunction r.item w).2)^[1] s) := by
  have h := retryTimes_always_fails q retryFunction s r hq hfresh hfail
  rw [h.1, h.2.2]
  exact ⟨⟨rfl, rfl⟩, rfl, rfl⟩

/-- Witness of `retryFailures_three_calls_discard`: the item stored once is retried 3
times by three calls, after which the queue is empty. -/
theorem retryFailures_three_calls_discard_witness :
    (oneFreshItem.retryTimes alwaysFails 0 3).1.queue_ = []
      ∧ (oneFreshItem.retryTimes alwaysFails 0 3).2 = 3 :=
  have h := retryFailures_three_calls_discard oneFreshItem alwaysFails 0
    (FailedItem.mk 7 "bad length" 10 "parsing" 0) rfl rfl
    (fun _ _ => ⟨"still failing", rfl⟩)
  ⟨h.1.1, h.1.2.trans rfl⟩

/-! ## Invariants of the queue -/

/-- The retry loop keeps every retry count in `0..2`. -/
theorem retryLoop_range {T σ : Type} (retryFunction : T → σ → Except Thrown Unit × σ) :
    ∀ (records queue : List (FailedItem T)) (s : σ),
      (∀ r ∈ records, 0 ≤ r.retryCount ∧ r.retryCount ≤ 2) →
      (∀ r ∈ queue, 0 ≤ r.retryCount ∧ r.retryCount ≤ 2) →
      ∀ r ∈ (retryLoop retryFunction records queue s).1, 0 ≤ r.retryCount ∧ r.retryCount ≤ 2
  | [], queue, s, _, hqueue => by
    simpa [retryLoop] using hqueue
  | f :: rest, queue, s, hrec, hqueue => by
    have hf := hrec f (List.mem_cons_self f rest)
    have hrest : ∀ r ∈ rest, 0 ≤ r.retryCount ∧ r.retryCount ≤ 2 :=
      fun r h => hrec r (List.mem_cons_of_mem f h)
    have hwrap : toInt32 (f.retryCount + 1) = f.retryCount + 1 := by
      unfold toInt32
      omega
    cases hop : (retryFunction f.item s).1 with
    | ok u =>
      simp only [retryLoop, hop]
      exact retryLoop_range retryFunction rest queue _ hrest hqueue
    | error e =>
      cases e with
      | stdException what =>
        by_cases hlt : f.retryCount + 1 < 3
        · simp only [retryLoop, hop, hwrap, if_pos hlt]
          apply retryLoop_range retryFunction rest _ _ hrest
          intro r hr
          rcases List.mem_append.mp hr with h | h
          · exact hqueue r h
          · rw [List.mem_singleton.mp h]
            exact ⟨by show 0 ≤ f.retryCount + 1; omega, by show f.retryCount + 1 ≤ 2; omega⟩
        · simp only [retryLoop, hop, hwrap, if_neg hlt]
          exact retryLoop_range retryFunction rest queue _ hrest hqueue
      | other tag =>
        simp only [retryLoop, hop]
        exact hqueue

/-- The retry loop appends at most one record per record visited. -/
theorem retryLoop_length {T σ : Type} (retryFunction : T → σ → Except Thrown Unit × σ) :
    ∀ (records queue : List (FailedItem T)) (s : σ),
      (retryLoop retryFunction records queue s).1.length ≤ queue.length + records.length
  | [], queue, s => by
    simp [retryLoop]
  | f :: rest, queue, s => by
    cases hop : (retryFunction f.item s).1 with
    | ok u =>
      simp only [retryLoop, hop, List.length_cons]
      have := retryLoop_length retryFunction rest queue (retryFunction f.item s).2
      omega
    | error e =>
      cases e with
      | stdException what =>
        simp only [retryLoop, hop, List.length_cons]
        split_ifs
        · have := retryLoop_length retryFunction rest
            (queue ++ [{ f with retryCount := toInt32 (f.retryCount + 1) }])
            (retryFunction f.item s).2
          rw [List.length_append, List.length_singleton] at this
          omega
        · have := retryLoop_length retryFunction rest queue (retryFunction f.item s).2
          omega
      | other tag =>
        simp only [retryLoop, hop, List.length_cons]
        omega

/-- Every call keeps every retry count in `0..2`. -/
theorem step_range {T σ : Type} (q : DeadLetterQueue T) (s : σ) (c : DlqCall T σ)
    (hq : ∀ r ∈ q.queue_, 0 ≤ r.retryCount ∧ r.retryCount ≤ 2) :
    ∀ r ∈ (q.step s c).1.queue_, 0 ≤ r.retryCount ∧ r.retryCount ≤ 2 := by
  cases c with
  | store item what time stage =>
    intro r hr
    have hmem : r ∈ (if q.queue_.length ≥ q.maxSize_ then q.queue_.tail else q.queue_)
        ++ [FailedItem.mk item what time stage 0] := hr
    rcases List.mem_append.mp hmem with h | h
    · by_cases hfull : q.queue_.length ≥ q.maxSize_
      · rw [if_pos hfull] at h
        exact hq r (List.mem_of_mem_tail h)
      · rw [if_neg hfull] at h
        exact hq r h
    · rw [List.mem_singleton.mp h]
      exact ⟨by show (0 : Int) ≤ 0; omega, by show (0 : Int) ≤ 2; omega⟩
  | retry retryFunction =>
    exact retryLoop_range retryFunction q.queue_ [] s hq (fun r h => absurd h (List.not_mem_nil r))
  | clear =>
    intro r hr
    exact absurd hr (List.not_mem_nil r)

/-- Every sequence of calls keeps every retry count in `0..2`. -/
theorem run_range {T σ : Type} :
    ∀ (calls : List (DlqCall T σ)) (q : DeadLetterQueue T) (s : σ),
      (∀ r ∈ q.queue_, 0 ≤ r.retryCount ∧ r.retryCount ≤ 2) →
      ∀ r ∈ (q.run s calls).1.queue_, 0 ≤ r.retryCount ∧ r.retryCount ≤ 2
  | [], _, _, hq => hq
  | c :: rest, q, s, hq => by
    simp only [DeadLetterQueue.run]
    exact run_range rest _ _ (step_range q s c hq)

/-- C29: in every state of a queue reachable from the empty queue by `storeFailure`,
`retryFailures` and `clear` calls, every queued record has retry count 0, 1 or 2, hence
never more than 3. -/
theorem reachable_retryCount {T σ : Type} (N : Nat) (s : σ) (calls : List (DlqCall T σ)) :
    ∀ r ∈ ((DeadLetterQueue.create N).run s calls).1.queue_,
      (r.retryCount = 0 ∨ r.retryCount = 1 ∨ r.retryCount = 2) ∧ r.retryCount ≤ 3 := by
  intro r hr
  have h := run_range calls (DeadLetterQueue.create N) s
    (fun r h => absurd h (List.not_mem_nil r)) r hr
  omega

/-- Witness of `reachable_retryCount`: after a store and two failing retry passes the
queue holds the item with retry count 2. -/
theorem reachable_retryCount_witness :
    (FailedItem.mk 7 "bad length" 10 "parsing" 2 : FailedItem Nat).retryCount = 2
      ∧ FailedItem.mk 7 "bad length" 10 "parsing" 2
          ∈ ((DeadLetterQueue.create 1000).run 0 storeThenTwoRetries).1.queue_ :=
  have hmem : FailedItem.mk 7 "bad length" 10 "parsing" 2
      ∈ ((DeadLetterQueue.create 1000).run 0 storeThenTwoRetries).1.queue_ := by decide
  have h := reachable_retryCount 1000 0 storeThenTwoRetries _ hmem
  ⟨h.1.resolve_left (by decide) |>.resolve_left (by decide), hmem⟩

/-- Every call keeps the queue within a capacity of at least 1. -/
theorem step_size {T σ : Type} (q : DeadLetterQueue T) (s : σ) (c : DlqCall T σ)
    (hcap : 1 ≤ q.maxSize_) (hq : q.queue_.length ≤ q.maxSize_) :
    (q.step s c).1.queue_.length ≤ q.maxSize_ ∧ (q.step s c).1.maxSize_ = q.maxSize_ := by
  cases c with
  | store item what time stage =>
    refine ⟨?_, rfl⟩
    show ((if q.queue_.length ≥ q.maxSize_ then q.queue_.tail else q.queue_)
        ++ [FailedItem.mk item what time stage 0]).length ≤ q.maxSize_
    rw [List.length_append, List.length_singleton]
    by_cases hfull : q.queue_.length ≥ q.maxSize_
    · rw [if_pos hfull, List.length_tail]
      omega
    · rw [if_neg hfull]
      omega
  | retry retryFunction =>
    refine ⟨?_, rfl⟩
    have h := retryLoop_length retryFunction q.queue_ [] s
    rw [List.length_nil] at h
    show (retryLoop retryFunction q.queue_ [] s).1.length ≤ q.maxSize_
    omega
  | clear => exact ⟨Nat.zero_le _, rfl⟩

/-- Every sequence of calls keeps the queue within a capacity of at least 1. -/
theorem run_size {T σ : Type} :
    ∀ (calls : List (DlqCall T σ)) (q : DeadLetterQueue T) (s : σ),
      1 ≤ q.maxSize_ → q.queue_.length ≤ q.maxSize_ →
      (q.run s calls).1.queue_.length ≤ q.maxSize_
  | [], _, _, _, hq => hq
  | c :: rest, q, s, hcap, hq => by
    have h := step_size q s c hcap hq
    simp only [DeadLetterQueue.run]
    have ih := run_size rest (q.step s c).1 (q.step s c).2 (by rw [h.2]; exact hcap)
      (by rw [h.2]; exact h.1)
    rw [h.2] at ih
    exact ih

/-- C30: the queue is bounded. For every capacity `N ≥ 1`, `size() ≤ N` holds after every
sequence of `storeFailure`, `retryFailures` and `clear` calls on the empty queue; and a
`retryFailures` call never leaves more records in the queue than it found. -/
theorem queue_bounded {T σ : Type} (N : Nat) (hN : 1 ≤ N) (s : σ)
    (calls : List (DlqCall T σ)) :
    ((DeadLetterQueue.create N).run s calls).1.size ≤ N
      ∧ ∀ (q : DeadLetterQueue T) (retryFunction : T → σ → Except Thrown Unit × σ) (w : σ),
          (q.retryFailures retryFunction w).queue.size ≤ q.size := by
  refine ⟨run_size calls (DeadLetterQueue.create N) s hN (Nat.zero_le N), ?_⟩
  intro q retryFunction w
  have h := retryLoop_length retryFunction q.queue_ [] w
  rw [List.length_nil] at h
  show (retryLoop retryFunction q.queue_ [] w).1.length ≤ q.queue_.length
  omega

/-- Witness of `queue_bounded`: with capacity 3, five stores, a failing retry pass and one
more store leave exactly 3 records. -/
theorem queue_bounded_witness :
    ((DeadLetterQueue.create 3).run 0 storesAndRetry).1.size = 3
      ∧ ((DeadLetterQueue.create 3).run 0 storesAndRetry).1.size ≤ 3 :=
  ⟨by decide, (queue_bounded 3 (by decide) 0 storesAndRetry).1⟩

/-! ## Bounded retry -/

/-- The retries left of a concatenation. -/
theorem retriesLeft_append {T : Type} [DecidableEq T] (x : T) :
    ∀ (a b : List (FailedItem T)), retriesLeft x (a ++ b) = retriesLeft x a + retriesLeft x b
  | [], b => by simp [retriesLeft]
  | r :: a, b => by
    have ih := retriesLeft_append x a b
    show (if r.item = x then 3 - r.retryCount else 0) + retriesLeft x (a ++ b)
      = (if r.item = x then 3 - r.retryCount else 0) + retriesLeft x a + retriesLeft x b
    rw [ih, Int.add_assoc]

/-- Records with retry counts in `0..2` have no negative number of retries left. -/
theorem retriesLeft_nonneg {T : Type} [DecidableEq T] (x : T) :
    ∀ (l : List (FailedItem T)), (∀ r ∈ l, 0 ≤ r.retryCount ∧ r.retryCount ≤ 2) →
      0 ≤ retriesLeft x l
  | [], _ => by simp [retriesLeft]
  | r :: l, h => by
    have hr := h r (List.mem_cons_self r l)
    have ih := retriesLeft_nonneg x l (fun r' h' => h r' (List.mem_cons_of_mem r h'))
    simp only [retriesLeft]
    split_ifs <;> omega

/-- Removing the front record does not increase the retries left. -/
theorem retriesLeft_tail_le {T : Type} [DecidableEq T] (x : T) (l : List (FailedItem T))
    (h : ∀ r ∈ l, 0 ≤ r.retryCount ∧ r.retryCount ≤ 2) :
    retriesLeft x l.tail ≤ retriesLeft x l := by
  cases l with
  | nil => simp [retriesLeft]
  | cons r l =>
    have hr := h r (List.mem_cons_self r l)
    simp only [List.tail_cons, retriesLeft]
    split_ifs <;> omega

/-- Appending one item to the log adds one to its count when it is the item counted. -/
theorem count_log_append {T : Type} [DecidableEq T] (x y : T) (log : List T) :
    ((log ++ [y]).count x : Int) = (log.count x : Int) + (if y = x then 1 else 0) := by
  rw [List.count_append, List.count_singleton']
  split_ifs <;> simp

/-- The logged retry loop: the invocations on item `x` it adds to the log are paid for by
the retries left that it takes from the records. -/
theorem retryLoop_logged {T σ : Type} [DecidableEq T]
    (retryFunction : T → σ → Except Thrown Unit × σ) (x : T) :
    ∀ (records queue : List (FailedItem T)) (log : List T) (w : σ),
      (∀ r ∈ records, 0 ≤ r.retryCount ∧ r.retryCount ≤ 2) →
      (((retryLoop (logged retryFunction) records queue (log, w)).2.2.1.count x : Nat) : Int)
          + retriesLeft x (retryLoop (logged retryFunction) records queue (log, w)).1
        ≤ (log.count x : Int) + retriesLeft x records + retriesLeft x queue
  | [], queue, log, w, _ => by
    simp [retryLoop, retriesLeft]
  | f :: rest, queue, log, w, hrec => by
    have hf := hrec f (List.mem_cons_self f rest)
    have hrest : ∀ r ∈ rest, 0 ≤ r.retryCount ∧ r.retryCount ≤ 2 :=
      fun r h => hrec r (List.mem_cons_of_mem f h)
    have hwrap : toInt32 (f.retryCount + 1) = f.retryCount + 1 := by
      unfold toInt32
      omega
    have hlog := count_log_append x f.item log
    have hnn := retriesLeft_nonneg x rest hrest
    have hcons : retriesLeft x (f :: rest)
        = (if f.item = x then 3 - f.retryCount else 0) + retriesLeft x rest := rfl
    have hw2 : (logged retryFunction f.item (log, w)).2
        = (log ++ [f.item], (retryFunction f.item w).2) := rfl
    cases hop : (logged retryFunction f.item (log, w)).1 with
    | ok u =>
      simp only [retryLoop, hop, hw2]
      have ih := retryLoop_logged retryFunction x rest queue (log ++ [f.item])
        (retryFunction f.item w).2 hrest
      rw [hcons]
      split_ifs at hlog ⊢ <;> omega
    | error e =>
      cases e with
      | stdException what =>
        by_cases hlt : f.retryCount + 1 < 3
        · simp only [retryLoop, hop, hw2, hwrap, if_pos hlt]
          have ih := retryLoop_logged retryFunction x rest
            (queue ++ [{ f with retryCount := f.retryCount + 1 }]) (log ++ [f.item])
            (retryFunction f.item w).2 hrest
          rw [retriesLeft_append] at ih
          have hone : retriesLeft x [{ f with retryCount := f.retryCount + 1 }]
              = (if f.item = x then 3 - (f.retryCount + 1) else 0) := by
            simp [retriesLeft]
          rw [hone] at ih
          rw [hcons]
          split_ifs at hlog ih ⊢ <;> omega
        · simp only [retryLoop, hop, hw2, hwrap, if_neg hlt]
          have ih := retryLoop_logged retryFunction x rest queue (log ++ [f.item])
            (retryFunction f.item w).2 hrest
          rw [hcons]
          split_ifs at hlog ⊢ <;> omega
      | other tag =>
        simp only [retryLoop, hop, hw2]
        rw [hcons]
        split_ifs at hlog ⊢ <;> omega

/-- One logged call: the invocations on item `x` added to the log, plus the retries left
in the queue, grow by at most 3 for a store of `x` and not at all otherwise. -/
theorem step_logged {T σ : Type} [DecidableEq T] (x : T) (q : DeadLetterQueue T)
    (log : List T) (w : σ) (c : DlqCall T σ)
    (hq : ∀ r ∈ q.queue_, 0 ≤ r.retryCount ∧ r.retryCount ≤ 2) :
    (((q.step (log, w) c.logged).2.1.count x : Nat) : Int)
        + retriesLeft x (q.step (log, w) c.logged).1.queue_
      ≤ (log.count x : Int) + retriesLeft x q.queue_ + 3 * (storesOf x [c] : Nat) := by
  cases c with
  | store item what time stage =>
    have htail := retriesLeft_tail_le x q.queue_ hq
    have hqueue : (q.step (log, w) (DlqCall.store item what time stage).logged).1.queue_
        = (if q.queue_.length ≥ q.maxSize_ then q.queue_.tail else q.queue_)
          ++ [FailedItem.mk item what time stage 0] := rfl
    have hlog : (q.step (log, w) (DlqCall.store item what time stage).logged).2.1 = log := rfl
    have hone : retriesLeft x [FailedItem.mk item what time stage 0]
        = (if item = x then 3 else 0) := by
      simp [retriesLeft]
    have hstores : storesOf x [(DlqCall.store item what time stage : DlqCall T σ)]
        = (if item = x then 1 else 0) := by
      simp [storesOf]
    rw [hqueue, hlog, retriesLeft_append, hone, hstores]
    split_ifs <;> simp <;> omega
  | retry retryFunction =>
    have h := retryLoop_logged retryFunction x q.queue_ [] log w hq
    have hstores : storesOf x [(DlqCall.retry retryFunction : DlqCall T σ)] = 0 := rfl
    have hnil : retriesLeft x ([] : List (FailedItem T)) = 0 := rfl
    rw [hstores]
    rw [hnil] at h
    show (((retryLoop (logged retryFunction) q.queue_ [] (log, w)).2.2.1.count x : Nat) : Int)
        + retriesLeft x (retryLoop (logged retryFunction) q.queue_ [] (log, w)).1 ≤ _
    simp only [Nat.cast_zero, Int.mul_zero]
    omega
  | clear =>
    have hnn := retriesLeft_nonneg x q.queue_ hq
    have hstores : storesOf x [(DlqCall.clear : DlqCall T σ)] = 0 := rfl
    have hqueue : (q.step (log, w) (DlqCall.clear : DlqCall T σ).logged).1.queue_ = [] := rfl
    have hlog : (q.step (log, w) (DlqCall.clear : DlqCall T σ).logged).2.1 = log := rfl
    have hnil : retriesLeft x ([] : List (FailedItem T)) = 0 := rfl
    rw [hqueue, hlog, hnil, hstores]
    simp only [Nat.cast_zero, Int.mul_zero]
    omega

/-- The stores of `x` in a sequence of calls, call by call. -/
theorem storesOf_cons {T σ : Type} [DecidableEq T] (x : T) (c : DlqCall T σ)
    (rest : List (DlqCall T σ)) :
    storesOf x (c :: rest) = storesOf x [c] + storesOf x rest := by
  cases c <;> simp [storesOf]

/-- A logged sequence of calls: the invocations on item `x` in the log, plus the retries
left in the queue, are bounded by 3 per store of `x`. -/
theorem run_logged {T σ : Type} [DecidableEq T] (x : T) :
    ∀ (calls : List (DlqCall T σ)) (q : DeadLetterQueue T) (log : List T) (w : σ),
      (∀ r ∈ q.queue_, 0 ≤ r.retryCount ∧ r.retryCount ≤ 2) →
      (((q.run (log, w) (calls.map DlqCall.logged)).2.1.count x : Nat) : Int)
          + retriesLeft x (q.run (log, w) (calls.map DlqCall.logged)).1.queue_
        ≤ (log.count x : Int) + retriesLeft x q.queue_ + 3 * (storesOf x calls : Nat)
  | [], q, log, w, _ => by
    simp [DeadLetterQueue.run, storesOf]
  | c :: rest, q, log, w, hq => by
    have hstep := step_logged x q log w c hq
    have hrange := step_range q (log, w) c.logged hq
    have ih := run_logged x rest (q.step (log, w) c.logged).1
      (q.step (log, w) c.logged).2.1 (q.step (log, w) c.logged).2.2 hrange
    have hcons := storesOf_cons x c rest
    have ih2 : ((((q.step (log, w) c.logged).1.run (q.step (log, w) c.logged).2
            (rest.map DlqCall.logged)).2.1.count x : Nat) : Int)
          + retriesLeft x ((q.step (log, w) c.logged).1.run (q.step (log, w) c.logged).2
              (rest.map DlqCall.logged)).1.queue_
        ≤ ((q.step (log, w) c.logged).2.1.count x : Int)
          + retriesLeft x (q.step (log, w) c.logged).1.queue_
          + 3 * (storesOf x rest : Nat) := ih
    show ((((q.step (log, w) c.logged).1.run (q.step (log, w) c.logged).2
            (rest.map DlqCall.logged)).2.1.count x : Nat) : Int)
          + retriesLeft x ((q.step (log, w) c.logged).1.run (q.step (log, w) c.logged).2
              (rest.map DlqCall.logged)).1.queue_
        ≤ (log.count x : Int) + retriesLeft x q.queue_ + 3 * (storesOf x (c :: rest) : Nat)
    rw [hcons]
    push_cast
    omega

/-- C28 (amended; bounded retry across calls): over every sequence of `storeFailure`,
`retryFailures` and `clear` calls on a new queue of capacity `N ≥ 1`, with arbitrary retry
functions, the number of times an item is passed to a retry function is at most 3 per
store of that item; and with a retry function that always fails with a `std::exception`, a
freshly stored item is retried exactly once by each successive `retryFailures` call, is
queued with retry count 1 after the first call and 2 after the second, and is discarded
by the third, which leaves the queue empty. -/
theorem bounded_retry {T σ : Type} [DecidableEq T] (N : Nat) (_hN : 1 ≤ N) (w : σ)
    (calls : List (DlqCall T σ)) (x : T) :
    ((DeadLetterQueue.create N).run (([] : List T), w) (calls.map DlqCall.logged)).2.1.count x
        ≤ 3 * storesOf x calls
      ∧ ∀ (q : DeadLetterQueue T) (retryFunction : T → σ → Except Thrown Unit × σ) (s : σ)
          (r : FailedItem T), q.queue_ = [r] → r.retryCount = 0 →
          (∀ y v, ∃ what,
            (retryFunction y v).1 = Except.error (Thrown.stdException what)) →
          q.retryTimes retryFunction s 1
              = (DeadLetterQueue.mk [{ r with retryCount := 1 }] q.maxSize_,
                  (fun v => (retryFunction r.item v).2)^[1] s)
            ∧ q.retryTimes retryFunction s 2
              = (DeadLetterQueue.mk [{ r with retryCount := 2 }] q.maxSize_,
                  (fun v => (retryFunction r.item v).2)^[2] s)
            ∧ q.retryTimes retryFunction s 3
              = (DeadLetterQueue.mk [] q.maxSize_,
                  (fun v => (retryFunction r.item v).2)^[3] s) := by
  constructor
  · have hempty : ∀ r ∈ (DeadLetterQueue.create N : DeadLetterQueue T).queue_,
        0 ≤ r.retryCount ∧ r.retryCount ≤ 2 := fun r h => absurd h (List.not_mem_nil r)
    have h := run_logged x calls (DeadLetterQueue.create N) [] w hempty
    have hnn := retriesLeft_nonneg x _
      (run_range (calls.map DlqCall.logged) (DeadLetterQueue.create N) (([] : List T), w)
        hempty)
    have h0 : retriesLeft x (DeadLetterQueue.create N : DeadLetterQueue T).queue_ = 0 := rfl
    have hc : (([] : List T).count x : Int) = 0 := by simp
    rw [h0, hc] at h
    omega
  · intro q retryFunction s r hq hfresh hfail
    exact retryTimes_always_fails q retryFunction s r hq hfresh hfail

/-- Witness of `bounded_retry`: item 7 is stored twice and the queue is retried six times
with a function that always fails; the function is invoked on item 7 exactly 6 times, and
on item 8, stored once, 3 times. -/
theorem bounded_retry_witness :
    (((DeadLetterQueue.create 10).run (([] : List Nat), 0)
        (repeatedRetries.map DlqCall.logged)).2.1.count 7 = 6
      ∧ storesOf 7 repeatedRetries = 2)
    ∧ ((DeadLetterQueue.create 10).run (([] : List Nat), 0)
        (repeatedRetries.map DlqCall.logged)).2.1.count 8 ≤ 3 * storesOf 8 repeatedRetries :=
  ⟨⟨by decide, by decide⟩, (bounded_retry 10 (by decide) 0 repeatedRetries 8).1⟩


/-! ## The eviction guard of `storeFailure` -/

/-- C39 (amended; eviction guard of `storeFailure`): for every capacity `N ≥ 1`, when the
guard `size >= capacity` holds the queue is not empty, so the front record is removed only
from a non-empty queue and the checked `storeFailure` agrees with the plain one. For
capacity 0 the guard holds on the empty queue, so `storeFailure` on an empty queue calls
`pop_front` on an empty deque: the call has no defined result, and neither has
`storeFailure`. -/
theorem storeFailure_eviction_guard {T : Type} (q : DeadLetterQueue T) (item : T)
    (what : String) (time : Int) (stage : String) :
    (1 ≤ q.maxSize_ →
        (q.evicts = true → q.queue_ ≠ [])
          ∧ q.storeFailureChecked item what time stage
              = some (q.storeFailure item what time stage))
      ∧ (q.maxSize_ = 0 → q.queue_ = [] →
          q.evicts = true
            ∧ popFrontChecked q.queue_ = none
            ∧ q.storeFailureChecked item what time stage = none) := by
  constructor
  · intro hN
    have hne : q.queue_.length ≥ q.maxSize_ → q.queue_ ≠ [] := by
      intro hguard hnil
      rw [hnil] at hguard
      simp only [List.length_nil] at hguard
      omega
    constructor
    · intro hev
      exact hne (of_decide_eq_true hev)
    · unfold DeadLetterQueue.storeFailureChecked DeadLetterQueue.storeFailure
      by_cases hguard : q.queue_.length ≥ q.maxSize_
      · rw [if_pos hguard]
        simp only [if_pos hguard]
        cases hq : q.queue_ with
        | nil => exact absurd hq (hne hguard)
        | cons first rest => rfl
      · rw [if_neg hguard]
        simp only [if_neg hguard]
  · intro h0 hnil
    have hguard : q.queue_.length ≥ q.maxSize_ := by rw [h0]; exact Nat.zero_le _
    refine ⟨decide_eq_true hguard, ?_, ?_⟩
    · rw [hnil]; rfl
    · unfold DeadLetterQueue.storeFailureChecked
      rw [if_pos hguard, hnil]
      rfl

/-- Witness of `storeFailure_eviction_guard`: on a full queue of capacity 1 the guard holds,
the queue is not empty and the call is defined; on a new queue of capacity 0 the guard
holds and the call is undefined. -/
theorem storeFailure_eviction_guard_witness :
    (fullQueueOfOne.evicts = true ∧ fullQueueOfOne.queue_ ≠ []
        ∧ fullQueueOfOne.storeFailureChecked 2 "bad length" 6 "parsing"
            = some (DeadLetterQueue.mk [FailedItem.mk 2 "bad length" 6 "parsing" 0] 1))
      ∧ (zeroCapacityQueue.evicts = true
          ∧ zeroCapacityQueue.storeFailureChecked 9 "bad length" 10 "parsing" = none) :=
  have h1 := (storeFailure_eviction_guard fullQueueOfOne 2 "bad length" 6 "parsing").1
    (by decide)
  have h0 := (storeFailure_eviction_guard zeroCapacityQueue 9 "bad length" 10 "parsing").2
    rfl rfl
  ⟨⟨by decide, h1.1 (by decide), h1.2.trans (by decide)⟩, ⟨h0.1, h0.2.2⟩⟩


/-! ## The failure counter over sequences of calls -/

/-- A sequence of calls in two parts. -/
theorem executeAll_append {σ ρ : Type} :
    ∀ (a b : List (Call σ ρ)) (cb : CircuitBreaker) (s : σ),
      executeAll cb s (a ++ b) = executeAll (executeAll cb s a).1 (executeAll cb s a).2 b
  | [], _, _, _ => rfl
  | c :: rest, b, cb, s => by
    show executeAll _ _ (rest ++ b) = _
    rw [executeAll_append rest b]
    rfl

/-- One call on a `CLOSED` breaker whose counter is below `INT_MAX`: the operation is
invoked, the counter grows exactly when the operation throws a `std::exception`, and the
breaker opens exactly when the grown counter reaches the threshold. -/
theorem execute_closed {σ ρ : Type} (cb : CircuitBreaker) (c : Call σ ρ) (s : σ)
    (hclosed : cb.currentState_ = State.CLOSED)
    (h0 : 0 ≤ cb.failureCount_) (hmax : cb.failureCount_ < 2147483647) :
    (cb.execute c.operation c.now c.failNow s).world = (c.operation s).2
      ∧ (cb.execute c.operation c.now c.failNow s).breaker.failureCount_
          = cb.failureCount_ + (if c.fails s then 1 else 0 : Nat)
      ∧ (cb.execute c.operation c.now c.failNow s).breaker.failureThreshold_
          = cb.failureThreshold_
      ∧ (cb.execute c.operation c.now c.failNow s).breaker.resetTimeout_ = cb.resetTimeout_
      ∧ (cb.execute c.operation c.now c.failNow s).breaker.currentState_
          = (if c.fails s = true ∧ cb.failureCount_ + 1 ≥ cb.failureThreshold_
              then State.OPEN else State.CLOSED) := by
  have hno : cb.currentState_ ≠ State.OPEN := by rw [hclosed]; decide
  have hnh : ¬ cb.currentState_ = State.HALF_OPEN := by rw [hclosed]; decide
  cases hop : (c.operation s).1 with
  | ok r =>
    have hf : c.fails s = false := by simp only [Call.fails, hop]
    rw [execute_not_open cb c.operation c.now c.failNow s hno,
      attempt_ok cb c.operation c.failNow s r hop, if_neg hnh, hf]
    simp [hclosed]
  | error e =>
    cases e with
    | stdException what =>
      have hf : c.fails s = true := by simp only [Call.fails, hop]
      rw [execute_closed_failure cb c.operation c.now c.failNow s what hclosed hop h0 hmax,
        hf]
      simp
    | other tag =>
      have hf : c.fails s = false := by simp only [Call.fails, hop]
      rw [execute_not_open cb c.operation c.now c.failNow s hno,
        attempt_other cb c.operation c.failNow s tag hop, hf]
      simp [hclosed]

/-- While the failures stay below the threshold the breaker stays `CLOSED`: every
operation is invoked and the counter is the number of failures so far, whatever successes
come between them. -/
theorem executeAll_closed_phase {σ ρ : Type} :
    ∀ (calls : List (Call σ ρ)) (cb : CircuitBreaker) (s : σ),
      cb.currentState_ = State.CLOSED → 0 ≤ cb.failureCount_ →
      cb.failureCount_ + (failuresIn s calls : Int) < cb.failureThreshold_ →
      cb.failureThreshold_ ≤ 2147483647 →
      (executeAll cb s calls).2 = invokeAll s calls
        ∧ (executeAll cb s calls).1.currentState_ = State.CLOSED
        ∧ (executeAll cb s calls).1.failureCount_
            = cb.failureCount_ + (failuresIn s calls : Int)
        ∧ (executeAll cb s calls).1.failureThreshold_ = cb.failureThreshold_
  | [], cb, s, hclosed, _, _, _ => by
    simp [executeAll, invokeAll, failuresIn, hclosed]
  | c :: rest, cb, s, hclosed, h0, hlt, hmax => by
    have hf : failuresIn s (c :: rest)
        = (if c.fails s then 1 else 0) + failuresIn (c.operation s).2 rest := rfl
    rw [hf] at hlt ⊢
    push_cast at hlt ⊢
    obtain ⟨hw, hc, ht, _, hs⟩ := execute_closed cb c s hclosed h0 (by omega)
    have hs2 : (cb.execute c.operation c.now c.failNow s).breaker.currentState_
        = State.CLOSED := by
      rw [hs, if_neg]
      intro hboth
      rw [hboth.1] at hlt
      simp only [if_true] at hlt
      omega
    have ih := executeAll_closed_phase rest
      (cb.execute c.operation c.now c.failNow s).breaker
      (cb.execute c.operation c.now c.failNow s).world hs2
      (by rw [hc]; omega) (by rw [hc, ht, hw]; push_cast; omega) (by rw [ht]; exact hmax)
    have hunf : executeAll cb s (c :: rest)
        = executeAll (cb.execute c.operation c.now c.failNow s).breaker
            (cb.execute c.operation c.now c.failNow s).world rest := rfl
    have hinv : invokeAll s (c :: rest) = invokeAll (c.operation s).2 rest := rfl
    rw [hunf, hinv]
    rw [hw] at ih ⊢
    refine ⟨ih.1, ih.2.1, ?_, ?_⟩
    · rw [ih.2.2.1, hc]; push_cast; omega
    · rw [ih.2.2.2, ht]

/-- A prefix of a sequence has no more failures than the sequence. -/
theorem failuresIn_take_le {σ ρ : Type} :
    ∀ (calls : List (Call σ ρ)) (s : σ) (k : Nat),
      failuresIn s (calls.take k) ≤ failuresIn s calls
  | [], _, k => by simp [failuresIn]
  | c :: rest, s, 0 => by simp [failuresIn]
  | c :: rest, s, k + 1 => by
    show (if c.fails s then 1 else 0) + failuresIn (c.operation s).2 (rest.take k)
      ≤ (if c.fails s then 1 else 0) + failuresIn (c.operation s).2 rest
    have ih := failuresIn_take_le rest (c.operation s).2 k
    omega

/-- C35 (amended; the threshold counts cumulative failures): for every threshold `n ≥ 1`
(within the range of `int`) and every sequence of `execute` calls on a new breaker in
which `n - 1` operations fail with a `std::exception`, with any other calls between them,
the breaker is `CLOSED` after every prefix of the sequence and its counter is the number
of such failures so far (a success does not reset it); one more call failing with a
`std::exception`, the `n`-th such failure, leaves the breaker `OPEN`. -/
theorem execute_cumulative_failures {σ ρ : Type} (name : String) (n timeout : Int)
    (hn : 1 ≤ n) (hmax : n ≤ 2147483647) (s : σ) (before : List (Call σ ρ))
    (c : Call σ ρ) (hbefore : (failuresIn s before : Int) + 1 = n)
    (hfail : c.fails (invokeAll s before) = true) :
    (∀ k : Nat,
        (executeAll (CircuitBreaker.create name n timeout) s (before.take k)).1.currentState_
            = State.CLOSED
          ∧ (executeAll (CircuitBreaker.create name n timeout) s
                (before.take k)).1.failureCount_ = failuresIn s (before.take k))
      ∧ (executeAll (CircuitBreaker.create name n timeout) s (before ++ [c])).1.currentState_
          = State.OPEN := by
  have hphase : ∀ calls : List (Call σ ρ), (failuresIn s calls : Int) < n →
      (executeAll (CircuitBreaker.create name n timeout) s calls).2 = invokeAll s calls
        ∧ (executeAll (CircuitBreaker.create name n timeout) s calls).1.currentState_
            = State.CLOSED
        ∧ (executeAll (CircuitBreaker.create name n timeout) s calls).1.failureCount_
            = failuresIn s calls
        ∧ (executeAll (CircuitBreaker.create name n timeout) s calls).1.failureThreshold_
            = n := by
    intro calls hlt
    have h := executeAll_closed_phase calls (CircuitBreaker.create name n timeout) s rfl
      (by show (0 : Int) ≤ 0; omega)
      (by show (0 : Int) + (failuresIn s calls : Int) < n; omega) hmax
    refine ⟨h.1, h.2.1, ?_, h.2.2.2⟩
    rw [h.2.2.1]
    show (0 : Int) + (failuresIn s calls : Int) = _
    omega
  constructor
  · intro k
    have hle := failuresIn_take_le before s k
    have h := hphase (before.take k) (by omega)
    exact ⟨h.2.1, h.2.2.1⟩
  · obtain ⟨hw, hs, hc, ht⟩ := hphase before (by omega)
    rw [executeAll_append, hw]
    show (CircuitBreaker.execute _ c.operation c.now c.failNow _).breaker.currentState_ = _
    have hstep := execute_closed
      (executeAll (CircuitBreaker.create name n timeout) s before).1 c (invokeAll s before)
      hs (by rw [hc]; omega) (by rw [hc]; omega)
    rw [hstep.2.2.2.2, if_pos]
    exact ⟨hfail, by rw [hc, ht]; omega⟩

/-- Witness of `execute_cumulative_failures`: with threshold 2, one failure among three
successes leaves the breaker `CLOSED` with a count of 1, and the next failure opens it. -/
theorem execute_cumulative_failures_witness :
    (executeAll (CircuitBreaker.create "capture" 2 30) 0
        oneFailureAmongSuccesses).1.currentState_ = State.CLOSED
      ∧ (executeAll (CircuitBreaker.create "capture" 2 30) 0
          oneFailureAmongSuccesses).1.failureCount_ = 1
      ∧ (executeAll (CircuitBreaker.create "capture" 2 30) 0
          (oneFailureAmongSuccesses ++ [laterFailure])).1.currentState_ = State.OPEN :=
  have h := execute_cumulative_failures "capture" 2 30 (by decide) (by decide) 0
    oneFailureAmongSuccesses laterFailure (by decide) (by decide)
  ⟨(h.1 4).1, (h.1 4).2, h.2⟩

/-! ## The state and the counter after every call -/

/-- One call keeps the link between state and counter: when the breaker is `CLOSED` with
the counter below the threshold or `OPEN` with the counter at or above it, and the
operation throws nothing but `std::exception`, the same holds after the call; the counter
grows by at most one. -/
theorem execute_state_iff_count {σ ρ : Type} (cb : CircuitBreaker) (c : Call σ ρ) (s : σ)
    (k : Int)
    (hstd : ∀ w e, (c.operation w).1 = Except.error e → ∃ what, e = Thrown.stdException what)
    (hthr : 1 ≤ cb.failureThreshold_) (h0 : 0 ≤ cb.failureCount_)
    (hk : cb.failureCount_ ≤ k) (hmax : k < 2147483647)
    (hinv : (cb.currentState_ = State.CLOSED ∧ cb.failureCount_ < cb.failureThreshold_)
      ∨ (cb.currentState_ = State.OPEN ∧ cb.failureCount_ ≥ cb.failureThreshold_)) :
    (cb.execute c.operation c.now c.failNow s).breaker.failureThreshold_
        = cb.failureThreshold_
      ∧ 0 ≤ (cb.execute c.operation c.now c.failNow s).breaker.failureCount_
      ∧ (cb.execute c.operation c.now c.failNow s).breaker.failureCount_ ≤ k + 1
      ∧ (((cb.execute c.operation c.now c.failNow s).breaker.currentState_ = State.CLOSED
          ∧ (cb.execute c.operation c.now c.failNow s).breaker.failureCount_
              < cb.failureThreshold_)
        ∨ ((cb.execute c.operation c.now c.failNow s).breaker.currentState_ = State.OPEN
          ∧ (cb.execute c.operation c.now c.failNow s).breaker.failureCount_
              ≥ cb.failureThreshold_)) := by
  rcases hinv with ⟨hclosed, hlt⟩ | ⟨hopen, hge⟩
  · obtain ⟨_, hc, ht, _, hs⟩ := execute_closed cb c s hclosed h0 (by omega)
    rw [ht, hc, hs]
    by_cases hf : c.fails s = true
    · rw [hf]
      simp only [if_true, true_and, Nat.cast_one]
      by_cases hreach : cb.failureCount_ + 1 ≥ cb.failureThreshold_
      · rw [if_pos hreach]
        exact ⟨by omega, by omega, Or.inr ⟨rfl, hreach⟩⟩
      · rw [if_neg hreach]
        exact ⟨by omega, by omega, Or.inl ⟨rfl, by omega⟩⟩
    · have hff : c.fails s = false := by
        cases h : c.fails s with
        | true => exact absurd h hf
        | false => rfl
      rw [hff]
      simp only [Bool.false_eq_true, if_false, false_and, Nat.cast_zero, Int.add_zero]
      exact ⟨trivial, h0, by omega, Or.inl ⟨trivial, hlt⟩⟩
  · by_cases hnow : c.now - cb.lastFailureTime_ > cb.resetTimeout_
    · rw [execute_open_probe cb c.operation c.now c.failNow s hopen hnow]
      cases hop : (c.operation s).1 with
      | ok r =>
        rw [attempt_ok _ c.operation c.failNow s r hop]
        simp only [if_true]
        exact ⟨trivial, by show (0 : Int) ≤ 0; omega, by show (0 : Int) ≤ k + 1; omega,
          Or.inl ⟨trivial, by show (0 : Int) < cb.failureThreshold_; omega⟩⟩
      | error e =>
        obtain ⟨what, he⟩ := hstd s e hop
        rw [he] at hop
        rw [attempt_stdException _ c.operation c.failNow s what hop]
        have hsucc : toInt32 (cb.failureCount_ + 1) = cb.failureCount_ + 1 :=
          toInt32_succ _ h0 (by omega)
        have hreach : cb.failureCount_ + 1 ≥ cb.failureThreshold_ := by omega
        simp only [hsucc, if_pos hreach]
        exact ⟨trivial, by omega, by omega, Or.inr ⟨trivial, hreach⟩⟩
    · rw [execute_open_within_timeout cb c.operation c.now c.failNow s hopen hnow]
      exact ⟨rfl, h0, by show cb.failureCount_ ≤ k + 1; omega, Or.inr ⟨hopen, hge⟩⟩

/-- The link between state and counter holds after every sequence of calls whose
operations throw nothing but `std::exception`, as long as the counter cannot wrap. -/
theorem executeAll_state_iff_count {σ ρ : Type} :
    ∀ (calls : List (Call σ ρ)) (cb : CircuitBreaker) (s : σ) (k : Int),
      (∀ c ∈ calls, ∀ w e, (c.operation w).1 = Except.error e →
        ∃ what, e = Thrown.stdException what) →
      1 ≤ cb.failureThreshold_ → 0 ≤ cb.failureCount_ → cb.failureCount_ ≤ k →
      k + calls.length ≤ 2147483647 →
      ((cb.currentState_ = State.CLOSED ∧ cb.failureCount_ < cb.failureThreshold_)
        ∨ (cb.currentState_ = State.OPEN ∧ cb.failureCount_ ≥ cb.failureThreshold_)) →
      (executeAll cb s calls).1.failureThreshold_ = cb.failureThreshold_
        ∧ (((executeAll cb s calls).1.currentState_ = State.CLOSED
            ∧ (executeAll cb s calls).1.failureCount_ < cb.failureThreshold_)
          ∨ ((executeAll cb s calls).1.currentState_ = State.OPEN
            ∧ (executeAll cb s calls).1.failureCount_ ≥ cb.failureThreshold_))
  | [], cb, s, k, _, _, _, _, _, hinv => ⟨rfl, hinv⟩
  | c :: rest, cb, s, k, hstd, hthr, h0, hk, hlen, hinv => by
    have hl : ((c :: rest).length : Int) = (rest.length : Int) + 1 := by
      rw [List.length_cons]; push_cast; rfl
    rw [hl] at hlen
    obtain ⟨ht, hc0, hck, hstep⟩ := execute_state_iff_count cb c s k
      (hstd c (List.mem_cons_self c rest)) hthr h0 hk (by omega) hinv
    have ih := executeAll_state_iff_count rest
      (cb.execute c.operation c.now c.failNow s).breaker
      (cb.execute c.operation c.now c.failNow s).world (k + 1)
      (fun d hd => hstd d (List.mem_cons_of_mem c hd)) (by rw [ht]; exact hthr) hc0 hck
      (by omega) (by rw [ht]; exact hstep)
    have hunf : executeAll cb s (c :: rest)
        = executeAll (cb.execute c.operation c.now c.failNow s).breaker
            (cb.execute c.operation c.now c.failNow s).world rest := rfl
    rw [hunf]
    rw [ht] at ih
    exact ih

/-- C36 (amended): for every threshold `≥ 1` and every sequence of at most `INT_MAX`
`execute` calls on a new breaker whose operations either return or fail with a
`std::exception`, after the calls the state is `CLOSED` or `OPEN` and not `HALF_OPEN`, it
is `CLOSED` exactly when the failure count is below the threshold and `OPEN` exactly when
the failure count has reached it. The sequence is arbitrary, so this holds after each
call of a sequence. -/
theorem execute_state_matches_count {σ ρ : Type} (name : String) (threshold timeout : Int)
    (hthr : 1 ≤ threshold) (s : σ) (calls : List (Call σ ρ))
    (hstd : ∀ c ∈ calls, ∀ w e, (c.operation w).1 = Except.error e →
      ∃ what, e = Thrown.stdException what)
    (hlen : calls.length ≤ 2147483647) :
    ((executeAll (CircuitBreaker.create name threshold timeout) s calls).1.currentState_
          = State.CLOSED
        ∨ (executeAll (CircuitBreaker.create name threshold timeout) s
            calls).1.currentState_ = State.OPEN)
      ∧ (executeAll (CircuitBreaker.create name threshold timeout) s calls).1.currentState_
          ≠ State.HALF_OPEN
      ∧ ((executeAll (CircuitBreaker.create name threshold timeout) s calls).1.currentState_
            = State.CLOSED
          ↔ (executeAll (CircuitBreaker.create name threshold timeout) s
              calls).1.failureCount_ < threshold)
      ∧ ((executeAll (CircuitBreaker.create name threshold timeout) s calls).1.currentState_
            = State.OPEN
          ↔ (executeAll (CircuitBreaker.create name threshold timeout) s
              calls).1.failureCount_ ≥ threshold) := by
  have h := (executeAll_state_iff_count calls (CircuitBreaker.create name threshold timeout)
    s 0 hstd hthr (by show (0 : Int) ≤ 0; omega) (by show (0 : Int) ≤ 0; omega)
    (by omega)
    (Or.inl ⟨rfl, by show (0 : Int) < threshold; omega⟩)).2
  have hT : (CircuitBreaker.create name threshold timeout).failureThreshold_ = threshold :=
    rfl
  rw [hT] at h
  rcases h with ⟨hs, hc⟩ | ⟨hs, hc⟩
  · refine ⟨Or.inl hs, by rw [hs]; decide, ⟨fun _ => hc, fun _ => hs⟩, ⟨?_, ?_⟩⟩
    · intro ho
      rw [hs] at ho
      exact absurd ho (by decide)
    · intro hge
      omega
  · refine ⟨Or.inr hs, by rw [hs]; decide, ⟨?_, ?_⟩, ⟨fun _ => hc, fun _ => hs⟩⟩
    · intro ho
      rw [hs] at ho
      exact absurd ho (by decide)
    · intro hltc
      omega

/-- Witness of `execute_state_matches_count`: with threshold 2, after two failures, a
blocked call, a failed probe and a successful probe the breaker is `CLOSED` with a count
below 2; after the first four of these calls it is `OPEN` with a count of 3. -/
theorem execute_state_matches_count_witness :
    ((executeAll (CircuitBreaker.create "capture" 2 30) 0 openAndRecover).1.currentState_
          = State.CLOSED
        ↔ (executeAll (CircuitBreaker.create "capture" 2 30) 0
            openAndRecover).1.failureCount_ < 2)
      ∧ (executeAll (CircuitBreaker.create "capture" 2 30) 0
          (openAndRecover.take 4)).1.currentState_ ≠ State.HALF_OPEN
      ∧ (executeAll (CircuitBreaker.create "capture" 2 30) 0
          (openAndRecover.take 4)).1.failureCount_ = 3 :=
  ⟨(execute_state_matches_count "capture" 2 30 (by decide) 0 openAndRecover
      (by
        intro c hc w e he
        simp only [openAndRecover, List.mem_cons, List.mem_singleton, List.mem_nil_iff,
          or_false] at hc
        rcases hc with h | h | h | h | h <;> subst h <;> cases he <;> exact ⟨_, rfl⟩)
      (by decide)).2.2.1,
    (execute_state_matches_count "capture" 2 30 (by decide) 0 (openAndRecover.take 4)
      (by
        intro c hc w e he
        simp only [openAndRecover, List.take, List.mem_cons, List.mem_singleton,
          List.mem_nil_iff, or_false] at hc
        rcases hc with h | h | h | h <;> subst h <;> cases he <;> exact ⟨_, rfl⟩)
      (by decide)).2.1,
    by decide⟩


/-! ## Failures that the `catch` clauses do not see, and counters that wrap -/

/-- C18 (as stated, refuted): on a new breaker of threshold 5, five consecutive calls whose
operation fails by throwing an object that is not a `std::exception` each invoke the
operation, but the breaker is `CLOSED` with a count of 0 after the fifth, and the sixth
call, made at once, is not Blocked: its operation is invoked. -/
theorem execute_other_failures_stay_closed :
    (∀ c ∈ fiveOtherThrows, ∀ w : Nat, (c.operation w).1 = Except.error (Thrown.other 42))
      ∧ (executeAll (CircuitBreaker.create "capture" 5 30) 0 fiveOtherThrows).2 = 5
      ∧ (executeAll (CircuitBreaker.create "capture" 5 30) 0
          fiveOtherThrows).1.currentState_ = State.CLOSED
      ∧ (executeAll (CircuitBreaker.create "capture" 5 30) 0
          fiveOtherThrows).1.failureCount_ = 0
      ∧ ((executeAll (CircuitBreaker.create "capture" 5 30) 0 fiveOtherThrows).1.execute
          succeedingOperation 52 53 5).outcome = Except.ok (some 7)
      ∧ ((executeAll (CircuitBreaker.create "capture" 5 30) 0 fiveOtherThrows).1.execute
          succeedingOperation 52 53 5).world = 6 := by
  refine ⟨?_, rfl, rfl, rfl, rfl, rfl⟩
  intro c hc w
  simp only [fiveOtherThrows, List.mem_cons, List.mem_singleton, List.mem_nil_iff,
    or_false] at hc
  rcases hc with h | h | h | h | h <;> subst h <;> rfl

/-- C22 (as stated, refuted): the breaker opened at tick 100 with a reset timeout of 30
ticks is probed at tick 140 by an operation that fails by throwing an object that is not
a `std::exception`: the state afterwards is `HALF_OPEN`, not `OPEN`, the failure count
and the last-failure time are unchanged, and the next call, one tick later, is not
Blocked. And a probe that throws a `std::exception` while the counter is at `INT_MAX`
leaves the counter at `INT_MIN`, not increased by 1. -/
theorem execute_probe_other_throw_stays_half_open :
    (openBreaker.currentState_ = State.OPEN
        ∧ 140 - openBreaker.lastFailureTime_ > openBreaker.resetTimeout_
        ∧ (otherThrowOperation 0).1 = Except.error (Thrown.other 42))
      ∧ (openBreaker.execute otherThrowOperation 140 141 0).world = 1
      ∧ (openBreaker.execute otherThrowOperation 140 141 0).breaker.currentState_
          = State.HALF_OPEN
      ∧ (openBreaker.execute otherThrowOperation 140 141 0).breaker.failureCount_ = 5
      ∧ (openBreaker.execute otherThrowOperation 140 141 0).breaker.lastFailureTime_ = 100
      ∧ ((openBreaker.execute otherThrowOperation 140 141 0).breaker.execute
          succeedingOperation 142 143 1).outcome = Except.ok (some 7)
      ∧ (saturatedBreaker.execute probeFailure 140 141 0).breaker.failureCount_
          = -2147483648 :=
  ⟨⟨rfl, by decide, rfl⟩, rfl, rfl, rfl, rfl, rfl, by decide⟩

/-- C24 (as stated, refuted): on a `CLOSED` breaker with a count of 2, an operation that
is invoked and fails by throwing an object that is not a `std::exception` leaves the
counter at 2, not at 3; and a probe that throws a `std::exception` while the counter is at
`INT_MAX` takes the counter down to `INT_MIN`. -/
theorem execute_counter_unchanged_or_wrapped :
    ((closedBreaker.execute otherThrowOperation 50 51 0).world = 1
        ∧ (closedBreaker.execute otherThrowOperation 50 51 0).outcome
            = Except.error (Thrown.other 42)
        ∧ closedBreaker.failureCount_ = 2
        ∧ (closedBreaker.execute otherThrowOperation 50 51 0).breaker.failureCount_ = 2)
      ∧ ((saturatedBreaker.execute probeFailure 140 141 0).world = 1
        ∧ saturatedBreaker.failureCount_ = 2147483647
        ∧ (saturatedBreaker.execute probeFailure 140 141 0).breaker.failureCount_
            = -2147483648) :=
  ⟨⟨rfl, rfl, rfl, rfl⟩, rfl, rfl, by decide⟩

/-- C26 (as stated, refuted): on items 1, 2, 3, 4 with a retry function that throws an
object other than a `std::exception` on item 2, one `retryFailures` call invokes the
function on items 1 and 2 only and leaves by the exception; items 3 and 4 are never
retried and are not in the queue afterwards, which holds item 1 alone. -/
theorem retryFailures_other_throw_stops_pass :
    mixedQueue.queue_.length = 4
      ∧ (mixedQueue.retryFailures throwsOtherOnTwo 0).world = 2
      ∧ (mixedQueue.retryFailures throwsOtherOnTwo 0).outcome
          = Except.error (Thrown.other 42)
      ∧ (mixedQueue.retryFailures throwsOtherOnTwo 0).queue.queue_
          = [FailedItem.mk 1 "bad length" 10 "parsing" 1] :=
  ⟨rfl, rfl, rfl, by decide⟩

/-- C28 (as stated, refuted): with a retry function that always fails by throwing an
object other than a `std::exception`, a freshly stored item is retried once by the first
`retryFailures` call and is not queued afterwards; three successive calls retry it once
in all. And on a queue of capacity 0 the first `storeFailure` calls `pop_front` on an
empty deque, so a sequence of calls on such a queue has no defined result. -/
theorem retryTimes_other_throw_loses_item :
    ((oneFreshItem.retryTimes alwaysThrowsOther 0 1).1.queue_ = []
        ∧ (oneFreshItem.retryTimes alwaysThrowsOther 0 1).2 = 1
        ∧ (oneFreshItem.retryTimes alwaysThrowsOther 0 3).2 = 1)
      ∧ zeroCapacityQueue.storeFailureChecked 7 "bad length" 10 "parsing" = none := by
  decide

/-- C35 (as stated, refuted): on a new breaker of threshold 2, among four calls the second
and the fourth fail by throwing an object that is not a `std::exception`; after the
second failure the breaker is `CLOSED` with a count of 0, not `OPEN`. -/
theorem execute_other_failures_not_counted :
    ((otherThrowOperation 1).1 = Except.error (Thrown.other 42)
        ∧ (otherThrowOperation 3).1 = Except.error (Thrown.other 42))
      ∧ (executeAll (CircuitBreaker.create "capture" 2 30) 0
          otherThrowsAmongSuccesses).2 = 4
      ∧ (executeAll (CircuitBreaker.create "capture" 2 30) 0
          otherThrowsAmongSuccesses).1.currentState_ = State.CLOSED
      ∧ (executeAll (CircuitBreaker.create "capture" 2 30) 0
          otherThrowsAmongSuccesses).1.failureCount_ = 0 :=
  ⟨⟨rfl, rfl⟩, rfl, rfl, rfl⟩

/-- C39 (as stated, refuted): on a new queue of capacity 0 the guard of `storeFailure`
holds, the queue is empty, and the call of `pop_front` has no defined result, so the
source does not determine that one record is stored afterwards. -/
theorem storeFailure_zero_capacity_undefined :
    zeroCapacityQueue.maxSize_ = 0
      ∧ zeroCapacityQueue.queue_ = []
      ∧ zeroCapacityQueue.evicts = true
      ∧ popFrontChecked zeroCapacityQueue.queue_ = none
      ∧ zeroCapacityQueue.storeFailureChecked 9 "bad length" 10 "parsing" = none := by
  decide

/-! ## A counter that wraps after `2 ^ 31` failures -/

/-- The list of failing calls, one call longer at the front. -/
theorem probes_succ (start count : Nat) :
    probes start (count + 1) = probeAt start :: probes (start + 1) count := by
  unfold probes
  rw [List.range'_succ, List.map_cons]

/-- The list of failing calls, one call longer at the back. -/
theorem probes_concat (start count : Nat) :
    probes start (count + 1) = probes start count ++ [probeAt (start + count)] := by
  unfold probes
  rw [List.range'_concat, List.map_append, List.map_singleton, Nat.one_mul]

/-- One failing probe on an `OPEN` breaker after the timeout: the counter is incremented
as an `int`, the last-failure time is that of the call and the state is `OPEN` again. -/
theorem execute_probeAt_open (cb : CircuitBreaker) (s k : Nat)
    (hopen : cb.currentState_ = State.OPEN)
    (hlate : (31 * k : Int) - cb.lastFailureTime_ > cb.resetTimeout_) :
    (cb.execute (probeAt k).operation (probeAt k).now (probeAt k).failNow s).breaker
        = CircuitBreaker.mk cb.name_ State.OPEN (toInt32 (cb.failureCount_ + 1))
            cb.failureThreshold_ (31 * k) cb.resetTimeout_
      ∧ (cb.execute (probeAt k).operation (probeAt k).now (probeAt k).failNow s).world
          = s + 1 := by
  have hnow : (probeAt k).now - cb.lastFailureTime_ > cb.resetTimeout_ := hlate
  rw [execute_open_probe cb (probeAt k).operation (probeAt k).now (probeAt k).failNow s
      hopen hnow,
    attempt_stdException _ (probeAt k).operation (probeAt k).failNow s "still down" rfl]
  constructor
  · by_cases hreach : toInt32 (cb.failureCount_ + 1) ≥ cb.failureThreshold_
    · simp only [if_pos hreach]
      rfl
    · simp only [if_neg hreach, if_true]
      rfl
  · rfl

/-- A run of failing probes, each more than the timeout after the one before, on an `OPEN`
breaker of threshold 1 whose counter stays within `INT_MAX`: the breaker is `OPEN` at the
end and the counter has grown by the number of calls. -/
theorem executeAll_probes_open :
    ∀ (count start : Nat) (cb : CircuitBreaker) (s : Nat),
      cb.currentState_ = State.OPEN → cb.resetTimeout_ = 30 →
      cb.lastFailureTime_ + 31 ≤ 31 * (start : Int) →
      0 ≤ cb.failureCount_ → cb.failureCount_ + (count : Int) ≤ 2147483647 →
      (executeAll cb s (probes start count)).1.currentState_ = State.OPEN
        ∧ (executeAll cb s (probes start count)).1.failureCount_
            = cb.failureCount_ + (count : Int)
        ∧ (executeAll cb s (probes start count)).1.failureThreshold_
            = cb.failureThreshold_
        ∧ (executeAll cb s (probes start count)).1.resetTimeout_ = 30
        ∧ (executeAll cb s (probes start count)).1.lastFailureTime_ + 31
            ≤ 31 * ((start + count : Nat) : Int)
        ∧ (executeAll cb s (probes start count)).2 = s + count
  | 0, start, cb, s, hopen, htime, hlast, _, _ => by
    refine ⟨hopen, ?_, rfl, htime, ?_, rfl⟩
    · show cb.failureCount_ = cb.failureCount_ + ((0 : Nat) : Int)
      push_cast
      omega
    · show cb.lastFailureTime_ + 31 ≤ 31 * ((start + 0 : Nat) : Int)
      push_cast
      omega
  | count + 1, start, cb, s, hopen, htime, hlast, h0, hmax => by
    push_cast at hmax
    have hstep := execute_probeAt_open cb s start hopen (by rw [htime]; omega)
    have hsucc : toInt32 (cb.failureCount_ + 1) = cb.failureCount_ + 1 :=
      toInt32_succ _ h0 (by omega)
    rw [hsucc] at hstep
    have ih := executeAll_probes_open count (start + 1)
      (CircuitBreaker.mk cb.name_ State.OPEN (cb.failureCount_ + 1) cb.failureThreshold_
        (31 * start) cb.resetTimeout_) (s + 1) rfl htime
      (by show (31 * (start : Int)) + 31 ≤ 31 * ((start + 1 : Nat) : Int); push_cast; omega)
      (by show 0 ≤ cb.failureCount_ + 1; omega)
      (by show cb.failureCount_ + 1 + (count : Int) ≤ 2147483647; omega)
    have hunf : executeAll cb s (probes start (count + 1))
        = executeAll
            (cb.execute (probeAt start).operation (probeAt start).now
              (probeAt start).failNow s).breaker
            (cb.execute (probeAt start).operation (probeAt start).now
              (probeAt start).failNow s).world (probes (start + 1) count) := by
      rw [probes_succ]
      rfl
    rw [hunf, hstep.1, hstep.2]
    refine ⟨ih.1, ?_, ih.2.2.1, ih.2.2.2.1, ?_, ?_⟩
    · rw [ih.2.1]
      show cb.failureCount_ + 1 + (count : Int) = cb.failureCount_ + ((count + 1 : Nat) : Int)
      push_cast
      omega
    · have h5 := ih.2.2.2.2.1
      have he : start + 1 + count = start + (count + 1) := by omega
      rw [he] at h5
      exact h5
    · rw [ih.2.2.2.2.2]
      omega

/-- On a new breaker of threshold 1, `count + 2` failing calls that bring the counter to
`INT_MAX + 1` leave the breaker `OPEN` with the counter wrapped to `INT_MIN`. -/
theorem executeAll_probes_wrap (count : Nat) (hcount : (count : Int) + 1 = 2147483647) :
    (executeAll (CircuitBreaker.create "capture" 1 30) 0
        (probes 0 (count + 2))).1.currentState_ = State.OPEN
      ∧ (executeAll (CircuitBreaker.create "capture" 1 30) 0
          (probes 0 (count + 2))).1.failureCount_ = -2147483648 := by
  have hlist : probes 0 (count + 2)
      = probeAt 0 :: (probes 1 count ++ [probeAt (1 + count)]) := by
    rw [probes_succ, probes_concat]
  have hfirst : (CircuitBreaker.create "capture" 1 30).execute (probeAt 0).operation
      (probeAt 0).now (probeAt 0).failNow (0 : Nat)
      = ExecResult.mk (CircuitBreaker.mk "capture" State.OPEN 1 1 0 30)
          (Except.error (Thrown.stdException "still down")) 1 := by
    rw [execute_closed_failure (CircuitBreaker.create "capture" 1 30)
      (probeAt 0).operation (probeAt 0).now (probeAt 0).failNow (0 : Nat) "still down" rfl
      rfl (by show (0 : Int) ≤ 0; omega) (by show (0 : Int) < 2147483647; omega)]
    rfl
  have hunf : executeAll (CircuitBreaker.create "capture" 1 30) 0 (probes 0 (count + 2))
      = executeAll
          ((CircuitBreaker.create "capture" 1 30).execute (probeAt 0).operation
            (probeAt 0).now (probeAt 0).failNow 0).breaker
          ((CircuitBreaker.create "capture" 1 30).execute (probeAt 0).operation
            (probeAt 0).now (probeAt 0).failNow 0).world
          (probes 1 count ++ [probeAt (1 + count)]) := by
    rw [hlist]
    rfl
  rw [hunf, hfirst, executeAll_append]
  have hmid := executeAll_probes_open count 1
    (CircuitBreaker.mk "capture" State.OPEN 1 1 0 30) 1 rfl rfl
    (by show (0 : Int) + 31 ≤ 31 * ((1 : Nat) : Int); decide)
    (by show (0 : Int) ≤ 1; omega)
    (by show (1 : Int) + (count : Int) ≤ 2147483647; omega)
  obtain ⟨hs, hc, ht, hto, hl, _⟩ := hmid
  have hlast := execute_probeAt_open
    (executeAll (CircuitBreaker.mk "capture" State.OPEN 1 1 0 30) 1 (probes 1 count)).1
    (executeAll (CircuitBreaker.mk "capture" State.OPEN 1 1 0 30) 1 (probes 1 count)).2
    (1 + count) hs (by rw [hto]; omega)
  have hc2 : (executeAll (CircuitBreaker.mk "capture" State.OPEN 1 1 0 30) 1
      (probes 1 count)).1.failureCount_ = 2147483647 := by
    rw [hc]
    show (1 : Int) + (count : Int) = 2147483647
    omega
  show (CircuitBreaker.execute _ (probeAt (1 + count)).operation (probeAt (1 + count)).now
      (probeAt (1 + count)).failNow _).breaker.currentState_ = State.OPEN
    ∧ (CircuitBreaker.execute _ (probeAt (1 + count)).operation (probeAt (1 + count)).now
      (probeAt (1 + count)).failNow _).breaker.failureCount_ = -2147483648
  rw [hlast.1, hc2]
  refine ⟨rfl, ?_⟩
  show toInt32 (2147483647 + 1) = -2147483648
  decide

/-- C36 (as stated, refuted): on a new breaker of threshold 1, a failure opens the breaker
and a probe after the timeout fails by throwing an object that is not a `std::exception`;
after that call the state is `HALF_OPEN`. And after `2 ^ 31` calls that each throw a
`std::exception`, each more than the timeout after the one before, the state is `OPEN`
while the failure count, wrapped to `INT_MIN`, is below the threshold. -/
theorem execute_leaves_half_open :
    ((otherThrowOperation 1).1 = Except.error (Thrown.other 42)
        ∧ (executeAll (CircuitBreaker.create "capture" 1 30) 0
            failureThenOtherProbe).2 = 2
        ∧ (executeAll (CircuitBreaker.create "capture" 1 30) 0
            failureThenOtherProbe).1.currentState_ = State.HALF_OPEN)
      ∧ ((executeAll (CircuitBreaker.create "capture" 1 30) 0
            (probes 0 2147483648)).1.currentState_ = State.OPEN
        ∧ (executeAll (CircuitBreaker.create "capture" 1 30) 0
            (probes 0 2147483648)).1.failureCount_ = -2147483648
        ∧ (executeAll (CircuitBreaker.create "capture" 1 30) 0
            (probes 0 2147483648)).1.failureCount_
              < (CircuitBreaker.create "capture" 1 30).failureThreshold_) := by
  have hwrap := executeAll_probes_wrap 2147483646 (by norm_num)
  have hlen : (2147483648 : Nat) = 2147483646 + 2 := by norm_num
  rw [hlen]
  refine ⟨⟨rfl, rfl, rfl⟩, hwrap.1, hwrap.2, ?_⟩
  rw [hwrap.2]
  decide

end PacketAnalyzer2026.Resilience

namespace PacketAnalyzer2026.Performance

/-! ## `ThreadPool`: the tasks that are running -/

/-- A waiting worker that takes a task adds it to the running tasks. -/
theorem runningTasks_set_running :
    ∀ (ws : List Worker) (i task : Nat), ws[i]? = some Worker.waiting →
      List.Perm (runningTasks (ws.set i (Worker.running task))) (task :: runningTasks ws)
  | [], i, _, h => by simp at h
  | w :: ws, 0, task, h => by
    simp only [List.getElem?_cons_zero, Option.some.injEq] at h
    subst h
    exact List.Perm.refl _
  | w :: ws, i + 1, task, h => by
    simp only [List.getElem?_cons_succ] at h
    have ih := runningTasks_set_running ws i task h
    cases w with
    | waiting => exact ih
    | exited => exact ih
    | running u =>
      show List.Perm (u :: runningTasks (ws.set i (Worker.running task)))
        (task :: u :: runningTasks ws)
      exact (List.Perm.cons u ih).trans (List.Perm.swap task u _)

/-- A running worker whose task ends takes it out of the running tasks. -/
theorem runningTasks_set_waiting :
    ∀ (ws : List Worker) (i task : Nat), ws[i]? = some (Worker.running task) →
      List.Perm (runningTasks ws) (task :: runningTasks (ws.set i Worker.waiting))
  | [], i, _, h => by simp at h
  | w :: ws, 0, task, h => by
    simp only [List.getElem?_cons_zero, Option.some.injEq] at h
    subst h
    exact List.Perm.refl _
  | w :: ws, i + 1, task, h => by
    simp only [List.getElem?_cons_succ] at h
    have ih := runningTasks_set_waiting ws i task h
    cases w with
    | waiting => exact ih
    | exited => exact ih
    | running u =>
      show List.Perm (u :: runningTasks ws)
        (task :: u :: runningTasks (ws.set i Worker.waiting))
      exact (List.Perm.cons u ih).trans (List.Perm.swap task u _)

/-- A waiting worker that exits leaves the running tasks as they are. -/
theorem runningTasks_set_exited :
    ∀ (ws : List Worker) (i : Nat), ws[i]? = some Worker.waiting →
      runningTasks (ws.set i Worker.exited) = runningTasks ws
  | [], i, h => by simp at h
  | w :: ws, 0, h => by
    simp only [List.getElem?_cons_zero, Option.some.injEq] at h
    subst h
    rfl
  | w :: ws, i + 1, h => by
    simp only [List.getElem?_cons_succ] at h
    have ih := runningTasks_set_exited ws i h
    cases w with
    | waiting => exact ih
    | exited => exact ih
    | running u =>
      show u :: runningTasks (ws.set i Worker.exited) = u :: runningTasks ws
      rw [ih]

/-- Workers that have all exited run nothing. -/
theorem runningTasks_all_exited :
    ∀ (ws : List Worker), ws.all (fun w => decide (w = Worker.exited)) = true →
      runningTasks ws = []
  | [], _ => rfl
  | w :: ws, h => by
    simp only [List.all_cons, Bool.and_eq_true, decide_eq_true_eq] at h
    rw [h.1]
    exact runningTasks_all_exited ws h.2

/-! ## `ThreadPool`: the invariant of the pool -/

/-- Waiting workers run nothing. -/
theorem runningTasks_replicate_waiting (n : Nat) :
    runningTasks (List.replicate n Worker.waiting) = [] := by
  induction n with
  | zero => rfl
  | succ k ih =>
    rw [List.replicate_succ]
    exact ih

/-- A new pool is consistent. -/
theorem consistent_create (numThreads : Nat) (name : String) :
    (ThreadPool.create numThreads name).Consistent where
  started_eq := rfl
  tasks_eq := rfl
  accepted_eq := rfl
  started_perm := by
    show List.Perm [] ([] ++ runningTasks (List.replicate numThreads Worker.waiting))
    rw [runningTasks_replicate_waiting]
    exact List.Perm.refl _
  exited_stop := by
    intro h
    have h2 : Worker.exited ∈ List.replicate numThreads Worker.waiting := h
    rw [List.mem_replicate] at h2
    exact absurd h2.2 (by decide)
  total_eq := rfl

/-- An accepted `enqueue` keeps the pool consistent. -/
theorem consistent_enqueue (p q : ThreadPool) (h : p.Consistent)
    (hq : p.enqueue = Except.ok q) : q.Consistent := by
  unfold ThreadPool.enqueue at hq
  by_cases hstop : p.stop_ = true
  · rw [if_pos hstop] at hq
    cases hq
  · rw [if_neg hstop] at hq
    cases hq
    exact {
      started_eq := h.started_eq
      tasks_eq := by
        show p.tasks_ ++ [p.accepted]
          = List.range' p.started.length (p.tasks_ ++ [p.accepted]).length
        rw [List.length_append, List.length_singleton, List.range'_concat, ← h.tasks_eq,
          h.accepted_eq, Nat.one_mul]
      accepted_eq := by
        show p.accepted + 1 = p.started.length + (p.tasks_ ++ [p.accepted]).length
        rw [List.length_append, List.length_singleton, h.accepted_eq]
        omega
      started_perm := h.started_perm
      exited_stop := by
        intro hex
        exact absurd (h.exited_stop hex).1 hstop
      total_eq := by
        show toSizeT (p.totalTasks_ + 1) = toSizeT (p.accepted + 1)
        rw [h.total_eq]
        unfold toSizeT
        omega }

/-- A worker taking the front task keeps the pool consistent. -/
theorem consistent_dequeue (p : ThreadPool) (worker : Nat) (h : p.Consistent) :
    (p.dequeue worker).Consistent := by
  unfold ThreadPool.dequeue
  split
  · rename_i hw
    split
    · rename_i task rest ht
      have hlen : p.tasks_.length = rest.length + 1 := by rw [ht]; rfl
      have hrange := h.tasks_eq
      rw [hlen, List.range'_succ, ht] at hrange
      have htask : task = p.started.length := (List.cons.inj hrange).1
      have hrest : rest = List.range' (p.started.length + 1) rest.length :=
        (List.cons.inj hrange).2
      exact {
        started_eq := by
          show p.started ++ [task] = List.range (p.started ++ [task]).length
          rw [List.length_append, List.length_singleton, List.range_succ, ← h.started_eq,
            htask]
        tasks_eq := by
          show rest = List.range' (p.started ++ [task]).length rest.length
          rw [List.length_append, List.length_singleton]
          exact hrest
        accepted_eq := by
          show p.accepted = (p.started ++ [task]).length + rest.length
          rw [List.length_append, List.length_singleton, h.accepted_eq, hlen]
          omega
        started_perm := by
          show List.Perm (p.started ++ [task])
            (p.completed ++ runningTasks (p.workers_.set worker (Worker.running task)))
          have h1 : List.Perm (p.started ++ [task]) (task :: p.started) :=
            List.perm_append_singleton task p.started
          have h2 : List.Perm (task :: p.started)
              (task :: (p.completed ++ runningTasks p.workers_)) :=
            List.Perm.cons task h.started_perm
          have h3 : List.Perm (task :: (p.completed ++ runningTasks p.workers_))
              (p.completed ++ task :: runningTasks p.workers_) :=
            List.perm_middle.symm
          have h4 : List.Perm (p.completed ++ task :: runningTasks p.workers_)
              (p.completed ++ runningTasks (p.workers_.set worker (Worker.running task))) :=
            List.Perm.append_left p.completed
              (runningTasks_set_running p.workers_ worker task hw).symm
          exact ((h1.trans h2).trans h3).trans h4
        exited_stop := by
          intro hex
          have hex2 : Worker.exited ∈ p.workers_.set worker (Worker.running task) := hex
          rcases List.mem_or_eq_of_mem_set hex2 with hmem | heq
          · have hnil := (h.exited_stop hmem).2
            rw [ht] at hnil
            cases hnil
          · cases heq
        total_eq := h.total_eq }
    · exact h
  · exact h

/-- The end of a task keeps the pool consistent. -/
theorem consistent_finish (p : ThreadPool) (worker : Nat) (h : p.Consistent) :
    (p.finish worker).Consistent := by
  unfold ThreadPool.finish
  split
  · rename_i task hw
    exact {
      started_eq := h.started_eq
      tasks_eq := h.tasks_eq
      accepted_eq := h.accepted_eq
      started_perm := by
        show List.Perm p.started
          ((p.completed ++ [task]) ++ runningTasks (p.workers_.set worker Worker.waiting))
        rw [List.append_assoc, List.singleton_append]
        exact h.started_perm.trans
          (List.Perm.append_left p.completed
            (runningTasks_set_waiting p.workers_ worker task hw))
      exited_stop := by
        intro hex
        have hex2 : Worker.exited ∈ p.workers_.set worker Worker.waiting := hex
        rcases List.mem_or_eq_of_mem_set hex2 with hmem | heq
        · exact h.exited_stop hmem
        · cases heq
      total_eq := h.total_eq }
  · exact h

/-- The destructor's `stop_ = true` keeps the pool consistent. -/
theorem consistent_requestStop (p : ThreadPool) (h : p.Consistent) :
    p.requestStop.Consistent where
  started_eq := h.started_eq
  tasks_eq := h.tasks_eq
  accepted_eq := h.accepted_eq
  started_perm := h.started_perm
  exited_stop := fun hex => ⟨rfl, (h.exited_stop hex).2⟩
  total_eq := h.total_eq

/-- A worker leaving its loop keeps the pool consistent. -/
theorem consistent_workerExit (p : ThreadPool) (worker : Nat) (h : p.Consistent) :
    (p.workerExit worker).Consistent := by
  unfold ThreadPool.workerExit
  split
  · rename_i hw
    by_cases hcond : p.stop_ = true ∧ p.tasks_ = []
    · rw [if_pos hcond]
      exact {
        started_eq := h.started_eq
        tasks_eq := h.tasks_eq
        accepted_eq := h.accepted_eq
        started_perm := by
          show List.Perm p.started
            (p.completed ++ runningTasks (p.workers_.set worker Worker.exited))
          rw [runningTasks_set_exited p.workers_ worker hw]
          exact h.started_perm
        exited_stop := fun _ => hcond
        total_eq := h.total_eq }
    · rw [if_neg hcond]
      exact h
  · exact h

/-- Every step keeps the pool consistent. -/
theorem consistent_step (p : ThreadPool) (e : Event) (h : p.Consistent) :
    (p.step e).Consistent := by
  cases e with
  | submit =>
    show (match p.enqueue with
      | Except.ok q => q
      | Except.error _ => p).Consistent
    cases hq : p.enqueue with
    | ok q => exact consistent_enqueue p q h hq
    | error text => exact h
  | dequeue worker => exact consistent_dequeue p worker h
  | finish worker => exact consistent_finish p worker h
  | requestStop => exact consistent_requestStop p h
  | workerExit worker => exact consistent_workerExit p worker h

/-- Every sequence of steps keeps the pool consistent. -/
theorem consistent_run : ∀ (events : List Event) (p : ThreadPool),
    p.Consistent → (p.run events).Consistent
  | [], _, h => h
  | e :: rest, p, h => consistent_run rest (p.step e) (consistent_step p e h)

/-! ## `ThreadPool`: what a step leaves unchanged -/

/-- The stop flag, the count of accepted tasks and the number of workers after one step. -/
theorem step_frame (p : ThreadPool) (e : Event) :
    (p.step e).workers_.length = p.workers_.length
      ∧ (p.step e).stop_ = (p.stop_ || decide (e = Event.requestStop))
      ∧ (p.step e).accepted
          = p.accepted + (if p.stop_ = false ∧ e = Event.submit then 1 else 0) := by
  cases e with
  | submit =>
    cases hstop : p.stop_ with
    | true =>
      have hstep : p.step Event.submit = p := by
        simp only [ThreadPool.step, ThreadPool.enqueue, hstop, if_true]
      rw [hstep, hstop]
      simp
    | false =>
      have hstep : p.step Event.submit
          = { p with tasks_ := p.tasks_ ++ [p.accepted],
                     totalTasks_ := toSizeT (p.totalTasks_ + 1),
                     accepted := p.accepted + 1 } := by
        simp [ThreadPool.step, ThreadPool.enqueue, hstop]
      rw [hstep]
      simp [hstop]
  | dequeue worker =>
    show (p.dequeue worker).workers_.length = _ ∧ (p.dequeue worker).stop_ = _
      ∧ (p.dequeue worker).accepted = _
    unfold ThreadPool.dequeue
    split
    · split
      · simp
      · simp
    · simp
  | finish worker =>
    show (p.finish worker).workers_.length = _ ∧ (p.finish worker).stop_ = _
      ∧ (p.finish worker).accepted = _
    unfold ThreadPool.finish
    split
    · simp
    · simp
  | requestStop =>
    show p.workers_.length = _ ∧ true = _ ∧ p.accepted = _
    simp
  | workerExit worker =>
    show (p.workerExit worker).workers_.length = _ ∧ (p.workerExit worker).stop_ = _
      ∧ (p.workerExit worker).accepted = _
    unfold ThreadPool.workerExit
    split
    · split
      · simp
      · simp
    · simp

/-- The number of workers is fixed. -/
theorem run_workers_length : ∀ (events : List Event) (p : ThreadPool),
    (p.run events).workers_.length = p.workers_.length
  | [], _ => rfl
  | e :: rest, p => by
    show ((p.step e).run rest).workers_.length = _
    rw [run_workers_length rest, (step_frame p e).1]

/-- A stopped pool accepts no task. -/
theorem run_accepted_stopped : ∀ (events : List Event) (p : ThreadPool),
    p.stop_ = true → (p.run events).accepted = p.accepted
  | [], _, _ => rfl
  | e :: rest, p, h => by
    obtain ⟨_, hs, ha⟩ := step_frame p e
    show ((p.step e).run rest).accepted = _
    rw [run_accepted_stopped rest (p.step e) (by rw [hs, h]; rfl), ha, h]
    simp

/-- A pool that is not stopped accepts the `enqueue` calls made before the first
`requestStop`. -/
theorem run_accepted : ∀ (events : List Event) (p : ThreadPool),
    p.stop_ = false → (p.run events).accepted = p.accepted + acceptedIn events
  | [], _, _ => rfl
  | e :: rest, p, h => by
    obtain ⟨_, hs, ha⟩ := step_frame p e
    show ((p.step e).run rest).accepted = _
    cases e with
    | submit =>
      rw [run_accepted rest _ (by rw [hs, h]; rfl), ha, h]
      show p.accepted + (if false = false ∧ Event.submit = Event.submit then 1 else 0)
        + acceptedIn rest = p.accepted + (acceptedIn rest + 1)
      rw [if_pos ⟨rfl, rfl⟩]
      omega
    | requestStop =>
      rw [run_accepted_stopped rest _ (by rw [hs, h]; rfl), ha]
      show p.accepted + (if p.stop_ = false ∧ Event.requestStop = Event.submit then 1 else 0)
        = p.accepted + 0
      rw [if_neg (fun hc => by cases hc.2)]
    | dequeue worker =>
      rw [run_accepted rest _ (by rw [hs, h]; rfl), ha]
      show p.accepted + (if p.stop_ = false ∧ Event.dequeue worker = Event.submit
        then 1 else 0) + acceptedIn rest = p.accepted + acceptedIn rest
      rw [if_neg (fun hc => by cases hc.2)]
      omega
    | finish worker =>
      rw [run_accepted rest _ (by rw [hs, h]; rfl), ha]
      show p.accepted + (if p.stop_ = false ∧ Event.finish worker = Event.submit
        then 1 else 0) + acceptedIn rest = p.accepted + acceptedIn rest
      rw [if_neg (fun hc => by cases hc.2)]
      omega
    | workerExit worker =>
      rw [run_accepted rest _ (by rw [hs, h]; rfl), ha]
      show p.accepted + (if p.stop_ = false ∧ Event.workerExit worker = Event.submit
        then 1 else 0) + acceptedIn rest = p.accepted + acceptedIn rest
      rw [if_neg (fun hc => by cases hc.2)]
      omega

/-- The count of accepted tasks of a pool run from its construction. -/
theorem run_create_accepted (numThreads : Nat) (name : String) (events : List Event) :
    ((ThreadPool.create numThreads name).run events).accepted = acceptedIn events := by
  rw [run_accepted events _ rfl]
  show 0 + acceptedIn events = acceptedIn events
  omega

/-- A list that starts an initial segment of the naturals is an initial segment. -/
theorem prefix_of_range (a b : List Nat) (k : Nat) (h : a ++ b = List.range k) :
    a = List.range a.length := by
  have hk : k = a.length + b.length := by
    have := congrArg List.length h
    rw [List.length_append, List.length_range] at this
    omega
  rw [hk, List.range_add] at h
  exact List.append_inj_left h (by rw [List.length_range])

/-! ## `ThreadPool`: a pool of one worker -/

/-- With one worker, `dequeue` keeps the dequeued tasks equal to the completed tasks
followed by the task that is running, if any. -/
theorem single_worker_dequeue (p : ThreadPool) (worker : Nat)
    (hone : p.workers_.length = 1)
    (h : p.started = p.completed ++ runningTasks p.workers_) :
    (p.dequeue worker).started
      = (p.dequeue worker).completed ++ runningTasks (p.dequeue worker).workers_ := by
  obtain ⟨x, hx⟩ := List.length_eq_one.mp hone
  unfold ThreadPool.dequeue
  split
  · rename_i hw
    split
    · rename_i task rest ht
      rw [hx] at hw h
      cases worker with
      | zero =>
        simp only [List.getElem?_cons_zero, Option.some.injEq] at hw
        subst hw
        show p.started ++ [task]
          = p.completed ++ runningTasks (p.workers_.set 0 (Worker.running task))
        rw [hx, h]
        simp [runningTasks, Worker.current]
      | succ i => simp at hw
    · exact h
  · exact h

/-- With one worker, `finish` keeps the same equation. -/
theorem single_worker_finish (p : ThreadPool) (worker : Nat)
    (hone : p.workers_.length = 1)
    (h : p.started = p.completed ++ runningTasks p.workers_) :
    (p.finish worker).started
      = (p.finish worker).completed ++ runningTasks (p.finish worker).workers_ := by
  obtain ⟨x, hx⟩ := List.length_eq_one.mp hone
  unfold ThreadPool.finish
  split
  · rename_i task hw
    rw [hx] at hw h
    cases worker with
    | zero =>
      simp only [List.getElem?_cons_zero, Option.some.injEq] at hw
      subst hw
      show p.started
        = (p.completed ++ [task]) ++ runningTasks (p.workers_.set 0 Worker.waiting)
      rw [hx, h]
      simp [runningTasks, Worker.current]
    | succ i => simp at hw
  · exact h

/-- A worker that exits keeps the same equation. -/
theorem single_worker_workerExit (p : ThreadPool) (worker : Nat)
    (h : p.started = p.completed ++ runningTasks p.workers_) :
    (p.workerExit worker).started
      = (p.workerExit worker).completed ++ runningTasks (p.workerExit worker).workers_ := by
  unfold ThreadPool.workerExit
  split
  · rename_i hw
    by_cases hcond : p.stop_ = true ∧ p.tasks_ = []
    · simp only [if_pos hcond]
      rw [runningTasks_set_exited p.workers_ worker hw]
      exact h
    · simp only [if_neg hcond]
      exact h
  · exact h

/-- With one worker, every step keeps the dequeued tasks equal to the completed tasks
followed by the task that is running, if any. -/
theorem single_worker_step (p : ThreadPool) (e : Event) (hone : p.workers_.length = 1)
    (h : p.started = p.completed ++ runningTasks p.workers_) :
    (p.step e).started = (p.step e).completed ++ runningTasks (p.step e).workers_ := by
  cases e with
  | submit =>
    cases hstop : p.stop_ with
    | true =>
      have hstep : p.step Event.submit = p := by
        simp only [ThreadPool.step, ThreadPool.enqueue, hstop, if_true]
      rw [hstep]
      exact h
    | false =>
      have hstep : p.step Event.submit
          = { p with tasks_ := p.tasks_ ++ [p.accepted],
                     totalTasks_ := toSizeT (p.totalTasks_ + 1),
                     accepted := p.accepted + 1 } := by
        simp [ThreadPool.step, ThreadPool.enqueue, hstop]
      rw [hstep]
      exact h
  | dequeue worker => exact single_worker_dequeue p worker hone h
  | finish worker => exact single_worker_finish p worker hone h
  | requestStop => exact h
  | workerExit worker => exact single_worker_workerExit p worker h

/-- With one worker, the dequeued tasks are the completed tasks followed by the running
task, after every sequence of steps. -/
theorem single_worker_run : ∀ (events : List Event) (p : ThreadPool),
    p.workers_.length = 1 → p.started = p.completed ++ runningTasks p.workers_ →
    (p.run events).started
      = (p.run events).completed ++ runningTasks (p.run events).workers_
  | [], _, _, h => h
  | e :: rest, p, hone, h =>
    single_worker_run rest (p.step e) (by rw [(step_frame p e).1]; exact hone)
      (single_worker_step p e hone h)

/-! ## `ThreadPool`: drain, order, submission and the total counter -/

/-- C31, amended to pools with at least one worker (exactly-once drain): for every worker
count `≥ 1` and every sequence of steps of a pool from its construction, in every state
in which shutdown has completed (stop requested and all workers exited) the queue is
empty and the completed tasks are a rearrangement of the tasks accepted by `enqueue`:
as many tasks were executed as were accepted, and each accepted task was executed exactly
once. -/
theorem shutdown_drains_exactly_once (numThreads : Nat) (name : String)
    (hworkers : 1 ≤ numThreads) (events : List Event)
    (hdone : ((ThreadPool.create numThreads name).run events).shutdownComplete = true) :
    ((ThreadPool.create numThreads name).run events).tasks_ = []
      ∧ List.Perm ((ThreadPool.create numThreads name).run events).completed
          (List.range (acceptedIn events))
      ∧ ((ThreadPool.create numThreads name).run events).completed.length
          = acceptedIn events
      ∧ ∀ task : Nat,
          ((ThreadPool.create numThreads name).run events).completed.count task
            = if task < acceptedIn events then 1 else 0 := by
  have hc := consistent_run events _ (consistent_create numThreads name)
  have hacc := run_create_accepted numThreads name events
  have hlen : ((ThreadPool.create numThreads name).run events).workers_.length
      = numThreads := by
    rw [run_workers_length]
    exact List.length_replicate numThreads Worker.waiting
  generalize (ThreadPool.create numThreads name).run events = p at hdone hc hacc hlen ⊢
  unfold ThreadPool.shutdownComplete at hdone
  rw [Bool.and_eq_true] at hdone
  obtain ⟨_, hall⟩ := hdone
  have hexited : Worker.exited ∈ p.workers_ := by
    cases hws : p.workers_ with
    | nil =>
      rw [hws] at hlen
      simp only [List.length_nil] at hlen
      omega
    | cons w ws =>
      rw [hws] at hall
      simp only [List.all_cons, Bool.and_eq_true, decide_eq_true_eq] at hall
      rw [hall.1]
      exact List.mem_cons_self _ _
  have hempty : p.tasks_ = [] := (hc.exited_stop hexited).2
  have hperm : List.Perm p.completed (List.range (acceptedIn events)) := by
    have h1 := hc.started_perm
    rw [runningTasks_all_exited p.workers_ hall, List.append_nil] at h1
    have h2 := hc.accepted_eq
    rw [hempty, List.length_nil, Nat.add_zero, hacc] at h2
    have h3 := hc.started_eq
    rw [← h2] at h3
    rw [h3] at h1
    exact h1.symm
  refine ⟨hempty, hperm, ?_, ?_⟩
  · rw [hperm.length_eq, List.length_range]
  · intro task
    rw [hperm.count_eq]
    by_cases ht : task < acceptedIn events
    · rw [if_pos ht]
      exact List.count_eq_one_of_mem (List.nodup_range _) (List.mem_range.mpr ht)
    · rw [if_neg ht]
      exact List.count_eq_zero_of_not_mem (fun hm => ht (List.mem_range.mp hm))

/-- Witness of `shutdown_drains_exactly_once`: a pool of two workers accepts two tasks
and rejects a third after the stop request; when both workers have exited the two tasks
have been completed, once each. -/
theorem shutdown_drains_exactly_once_witness :
    ((ThreadPool.create 2 "Capture").run twoWorkersDrain).completed.length = 2
      ∧ ((ThreadPool.create 2 "Capture").run twoWorkersDrain).completed.count 1 = 1 :=
  have h := shutdown_drains_exactly_once 2 "Capture" (by decide) twoWorkersDrain
    (by decide)
  ⟨h.2.2.1, h.2.2.2 1⟩

/-- Counterexample to C31 as stated for every worker count: a pool constructed with 0
workers accepts a task; after the stop request its shutdown has completed, no worker
being left to join, and the accepted task has not been executed. -/
theorem shutdown_without_workers_drops_task :
    noWorkers.shutdownComplete = true
      ∧ noWorkers.accepted = 1
      ∧ noWorkers.tasks_ = [0]
      ∧ noWorkers.completed = [] := by
  decide

/-- C32 (FIFO start order): after every sequence of steps of a pool from its
construction, the tasks dequeued so far are the first tasks accepted, in the order of
acceptance, and the queue holds the next ones in that order; so if `a` was accepted
before `b` and `b` has been dequeued, `a` was dequeued at an earlier position. With a
single worker the tasks are also completed in the order of acceptance, and at most one
dequeued task is not yet completed. -/
theorem fifo_start_order (numThreads : Nat) (name : String) (events : List Event) :
    ((ThreadPool.create numThreads name).run events).started
        = List.range ((ThreadPool.create numThreads name).run events).started.length
      ∧ ((ThreadPool.create numThreads name).run events).tasks_
          = List.range' ((ThreadPool.create numThreads name).run events).started.length
              ((ThreadPool.create numThreads name).run events).tasks_.length
      ∧ (∀ a b : Nat, a < b →
          b ∈ ((ThreadPool.create numThreads name).run events).started →
          ∃ i j : Nat, i < j
            ∧ ((ThreadPool.create numThreads name).run events).started[i]? = some a
            ∧ ((ThreadPool.create numThreads name).run events).started[j]? = some b)
      ∧ ((ThreadPool.create 1 name).run events).completed
          = List.range ((ThreadPool.create 1 name).run events).completed.length
      ∧ ((ThreadPool.create 1 name).run events).started.length
          ≤ ((ThreadPool.create 1 name).run events).completed.length + 1 := by
  have hc := consistent_run events _ (consistent_create numThreads name)
  have hc1 := consistent_run events _ (consistent_create 1 name)
  have hsingle := single_worker_run events (ThreadPool.create 1 name) rfl rfl
  have hlen1 : ((ThreadPool.create 1 name).run events).workers_.length = 1 := by
    rw [run_workers_length]
    rfl
  refine ⟨hc.started_eq, hc.tasks_eq, ?_, ?_, ?_⟩
  · intro a b hab hb
    rw [hc.started_eq] at hb ⊢
    have hbk := List.mem_range.mp hb
    exact ⟨a, b, hab, List.getElem?_range (by omega), List.getElem?_range hbk⟩
  · have h := hc1.started_eq
    rw [hsingle] at h
    exact prefix_of_range _ _ _ h
  · rw [hsingle, List.length_append]
    have hle : (runningTasks ((ThreadPool.create 1 name).run events).workers_).length
        ≤ ((ThreadPool.create 1 name).run events).workers_.length :=
      List.length_filterMap_le _ _
    omega

/-- Witness of `fifo_start_order`: a pool of one worker that has accepted three tasks,
completed two and dequeued the third has started them in the order 0, 1, 2 and completed
0 before 1; task 0 was dequeued at an earlier position than task 2. -/
theorem fifo_start_order_witness :
    ((ThreadPool.create 1 "UI").run oneWorkerThree).started = [0, 1, 2]
      ∧ ((ThreadPool.create 1 "UI").run oneWorkerThree).completed = [0, 1]
      ∧ ∃ i j : Nat, i < j
          ∧ ((ThreadPool.create 1 "UI").run oneWorkerThree).started[i]? = some 0
          ∧ ((ThreadPool.create 1 "UI").run oneWorkerThree).started[j]? = some 2 :=
  have h := fifo_start_order 1 "UI" oneWorkerThree
  ⟨h.1.trans (by decide), h.2.2.2.1.trans (by decide),
    h.2.2.1 0 2 (by decide) (by decide)⟩

/-- C33: `enqueue` on a pool whose stop flag is set throws the pool-stopped error and
leaves the pool, with its queue and its counter of submitted tasks, as it was; on a pool
that is not stopped it succeeds, appends the task at the back of the queue and adds 1 to
the counter as a `size_t`, which is an increase by exactly 1 unless the counter is at the
greatest `size_t`. -/
theorem enqueue_stopped_or_appended (p : ThreadPool) :
    (p.stop_ = true →
        p.enqueue = Except.error poolStopped ∧ p.step Event.submit = p)
      ∧ (p.stop_ = false →
          ∃ q : ThreadPool, p.enqueue = Except.ok q ∧ p.step Event.submit = q
            ∧ q.tasks_ = p.tasks_ ++ [p.accepted]
            ∧ q.totalTaskCount = toSizeT (p.totalTaskCount + 1)
            ∧ (p.totalTaskCount < 18446744073709551615 →
                q.totalTaskCount = p.totalTaskCount + 1)
            ∧ q.stop_ = false ∧ q.workers_ = p.workers_) := by
  constructor
  · intro hstop
    have he : p.enqueue = Except.error poolStopped := by
      unfold ThreadPool.enqueue
      rw [if_pos hstop]
    refine ⟨he, ?_⟩
    show (match p.enqueue with
      | Except.ok q => q
      | Except.error _ => p) = p
    rw [he]
  · intro hstop
    have hns : ¬ p.stop_ = true := by rw [hstop]; decide
    have he : p.enqueue
        = Except.ok { p with tasks_ := p.tasks_ ++ [p.accepted],
                             totalTasks_ := toSizeT (p.totalTasks_ + 1),
                             accepted := p.accepted + 1 } := by
      unfold ThreadPool.enqueue
      rw [if_neg hns]
    refine ⟨_, he, ?_, rfl, rfl, ?_, hstop, rfl⟩
    · show (match p.enqueue with
        | Except.ok q => q
        | Except.error _ => p) = _
      rw [he]
    · intro hmax
      show toSizeT (p.totalTasks_ + 1) = p.totalTasks_ + 1
      have hmax2 : p.totalTasks_ < 18446744073709551615 := hmax
      unfold toSizeT
      omega

/-- Witness of `enqueue_stopped_or_appended`: a stopped pool with one queued task rejects
a second one and keeps its queue and counter; a running pool with one queued task accepts
a second one behind it. -/
theorem enqueue_stopped_or_appended_witness :
    (stoppedPool.enqueue = Except.error poolStopped
        ∧ (stoppedPool.step Event.submit).tasks_ = [0]
        ∧ (stoppedPool.step Event.submit).totalTaskCount = 1)
      ∧ ((oneQueued.step Event.submit).tasks_ = [0, 1]
        ∧ (oneQueued.step Event.submit).totalTaskCount = 2) :=
  have hs := (enqueue_stopped_or_appended stoppedPool).1 (by decide)
  have hr := (enqueue_stopped_or_appended oneQueued).2 (by decide)
  ⟨⟨hs.1, by rw [hs.2]; decide, by rw [hs.2]; decide⟩,
    by
      obtain ⟨q, _, hstep, htasks, _, hcount, _⟩ := hr
      rw [hstep]
      exact ⟨htasks.trans (by decide), (hcount (by decide)).trans (by decide)⟩⟩

/-- C34, amended: the value read by `totalTaskCount()` is the number of tasks accepted by
`enqueue`, as a `size_t`, in every state that a pool reaches from its construction; the
number of tasks whose execution has completed is at most the number accepted. -/
theorem totalTaskCount_counts_accepted (numThreads : Nat) (name : String)
    (events : List Event) :
    ((ThreadPool.create numThreads name).run events).totalTaskCount
        = toSizeT (acceptedIn events)
      ∧ ((ThreadPool.create numThreads name).run events).completed.length
          ≤ acceptedIn events := by
  have hc := consistent_run events _ (consistent_create numThreads name)
  have hacc := run_create_accepted numThreads name events
  constructor
  · show ((ThreadPool.create numThreads name).run events).totalTasks_ = _
    rw [hc.total_eq, hacc]
  · have h1 := hc.started_perm.length_eq
    have h2 := hc.accepted_eq
    rw [List.length_append] at h1
    omega

/-- Counterexample to C34: a pool of one worker that has accepted one task and not run
it reads 1 from `totalTaskCount()`, while no task has completed. -/
theorem totalTaskCount_is_not_completed :
    oneQueued.totalTaskCount = 1 ∧ oneQueued.completed.length = 0 := by
  decide

end PacketAnalyzer2026.Performance
